import Mathlib

/-!
# Knowledge-graph consolidation of the GraphRag front end

A shallow embedding of the graph consolidation logic of `src/Pages/Graph.jsx`
(`buildCombinedGraph`, `renderGraph`) and of
`src/components/graph/GraphEnhancementsDialog.jsx` (`disconnectedNodes`,
`findDuplicates`, `handleMergeDuplicates`, `handleDeleteNodes`), of the issue badges,
the search filter and the export of the page (`duplicateGroupsCount`,
`disconnectedCount`, `filteredGraph`, `handleExportGraph`), together with the
properties the specification states about it.

Conventions of the embedding.

* A JavaScript object with optional fields is a structure whose optional fields
  are `Option`s; `a || b` on a possibly missing value is a test for truthiness
  (`none`, the empty string and the number `0` are falsy).
* `Array.prototype.forEach` is a left fold over the array, the locals the callback
  closes over (`allNodes`, `allRelationships`, `nodeMap`) being the folded state.
* `nodeMap` holds references to the objects that were pushed on `allNodes`; here it
  holds the index of that object in `allNodes`, and an assignment to a field of the
  referenced object is an update of `allNodes` at that index.  A second embedding
  with an explicit heap (`buildCombinedGraphOnHeap`) keeps the references; it is
  used for the frame property and is shown to compute the same combined graph
  (`buildCombinedGraphOnHeap_refines`).
* `Math.random()` is an oracle `random : Nat → ℚ`, the `k`-th call of a run
  returning `random k`; numbers are rationals.
* A function that can raise returns an `Except`; an `async` handler returns a record
  of what it did (the store updates it issued, the error it ended with).
* `String.prototype.toLowerCase` lowers the letters `A`–`Z`; `trim` strips the
  ECMAScript white space and line terminator code points.  The general theorems use
  no property of `toLowerCase`; only the evaluations on concrete documents compute it.
-/

namespace GraphRag

/-! ## Strings -/

/-- Lower-case image of one character (`A`–`Z` only). -/
def lowerChar (c : Char) : Char :=
  if 65 ≤ c.toNat ∧ c.toNat ≤ 90 then Char.ofNat (c.toNat + 32) else c

/-- The method `String.prototype.toLowerCase` on strings whose cased letters are ASCII:
`A`–`Z` are lowered and every other character is kept.  The method itself lowers every
cased letter of Unicode; the general theorems use no property of this function, only
the evaluations on concrete documents, whose labels are ASCII, compute it. -/
def toLowerCase (s : String) : String := ⟨s.data.map lowerChar⟩

/-- White space and line terminators removed by `String.prototype.trim`. -/
def isJsSpace (c : Char) : Bool :=
  decide (c.toNat ∈ [9, 10, 11, 12, 13, 32, 160, 5760, 8232, 8233, 8239, 8287, 12288, 65279])
    || (decide (8192 ≤ c.toNat) && decide (c.toNat ≤ 8202))

/-- The method `String.prototype.trim`. -/
def trim (s : String) : String :=
  ⟨((s.data.dropWhile isJsSpace).reverse.dropWhile isJsSpace).reverse⟩

/-- The normalization the specification names: lowercase, then trim. -/
def normalize (label : String) : String := trim (toLowerCase label)

/-! ## Data model -/

/-- Evidence snippet `{text, page, confidence}`. -/
structure Passage where
  text : String
  page : Nat
  confidence : ℚ
deriving DecidableEq, Repr

/-- Optional stored layout position of a node. -/
structure Position where
  x : Option ℚ
  y : Option ℚ
deriving DecidableEq, Repr

/-- Node of a document's knowledge graph, as stored. -/
structure Node where
  id : Option String
  label : Option String
  type : Option String
  properties : List (String × String)
  source_passages : Option (List Passage)
  position : Option Position
deriving DecidableEq, Repr

/-- Relationship of a document's knowledge graph, as stored. -/
structure Relationship where
  id : Option String
  source_id : String
  target_id : String
  type : Option String
deriving DecidableEq, Repr

/-- The field `knowledge_graph` of a document; both arrays are read with `?.`. -/
structure KnowledgeGraph where
  nodes : Option (List Node)
  relationships : Option (List Relationship)
deriving DecidableEq, Repr

/-- Document (entity `ResearchPaper`). -/
structure Paper where
  id : String
  title : String
  authors : List String
  processing_status : String
  knowledge_graph : Option KnowledgeGraph
deriving DecidableEq, Repr

/-- Node of the combined view: the stored node spread, then `id`, `x`, `y`,
`paper_id`, `paper_title` and `papers`. -/
structure GraphNode where
  id : String
  label : Option String
  type : Option String
  properties : List (String × String)
  source_passages : Option (List Passage)
  position : Option Position
  x : ℚ
  y : ℚ
  paper_id : String
  paper_title : String
  papers : List String
deriving DecidableEq, Repr

/-- Relationship of the combined view. -/
structure GraphRelationship where
  id : String
  source_id : String
  target_id : String
  type : Option String
  paper_id : String
  paper_title : String
deriving DecidableEq, Repr

/-- The state `graphData`. -/
structure GraphData where
  nodes : List GraphNode
  relationships : List GraphRelationship
deriving DecidableEq, Repr

/-! ## The combiner -/

/-- `completedPapers = papers.filter(p => p.processing_status === "completed")`. -/
def completedPapers (papers : List Paper) : List Paper :=
  papers.filter (fun p => p.processing_status == "completed")

/-- `id || fallback` for an optional string. -/
def strOr (v : Option String) (fallback : String) : String :=
  match v with
  | some s => if s = "" then fallback else s
  | none => fallback

/-- `[...new Set(xs)]`: the distinct values in order of first occurrence. -/
def setToArray (xs : List String) : List String :=
  xs.foldl (fun acc t => if t ∈ acc then acc else acc ++ [t]) []

/-- Locals of one run of `buildCombinedGraph`; `randomCalls` counts the calls of
`Math.random` made so far. -/
structure BuildState where
  allNodes : List GraphNode
  allRelationships : List GraphRelationship
  nodeMap : List (String × Nat)
  randomCalls : Nat
deriving DecidableEq, Repr

/-- Value of `node.position?.x` (resp. `y`) when truthy. -/
def positionCoord (c : Option ℚ) : Option ℚ :=
  match c with
  | some v => if v = 0 then none else some v
  | none => none

/-- Callback of `paper.knowledge_graph.nodes?.forEach((node, index) => ...)`. -/
def visitNode (random : Nat → ℚ) (paperId : String) (paper : Paper)
    (st : BuildState) (index : Nat) (node : Node) : BuildState :=
  match node.label.map toLowerCase with
  | none => st
  | some nodeKey =>
    if nodeKey = "" then st
    else
      match st.nodeMap.lookup nodeKey with
      | some ref =>
        { st with
          allNodes := st.allNodes.modify (fun existingNode =>
            { existingNode with
              source_passages :=
                some (existingNode.source_passages.getD [] ++ node.source_passages.getD [])
              papers := setToArray (existingNode.papers ++ [paper.title]) }) ref }
      | none =>
        let px := positionCoord (node.position.bind (·.x))
        let x := px.getD (random st.randomCalls * 600 + 100)
        let calls1 := if px.isSome then st.randomCalls else st.randomCalls + 1
        let py := positionCoord (node.position.bind (·.y))
        let y := py.getD (random calls1 * 400 + 100)
        let calls2 := if py.isSome then calls1 else calls1 + 1
        let graphNode : GraphNode :=
          { id := strOr node.id ("node-" ++ paperId ++ "-" ++ toString index)
            label := node.label
            type := node.type
            properties := node.properties
            source_passages := node.source_passages
            position := node.position
            x := x
            y := y
            paper_id := paper.id
            paper_title := paper.title
            papers := [paper.title] }
        { st with
          allNodes := st.allNodes ++ [graphNode]
          nodeMap := st.nodeMap ++ [(nodeKey, st.allNodes.length)]
          randomCalls := calls2 }

/-- Callback of `paper.knowledge_graph.relationships?.forEach((rel, index) => ...)`. -/
def visitRelationship (paperId : String) (paper : Paper)
    (st : BuildState) (index : Nat) (rel : Relationship) : BuildState :=
  { st with
    allRelationships := st.allRelationships ++
      [{ id := strOr rel.id ("rel-" ++ paperId ++ "-" ++ toString index)
         source_id := rel.source_id
         target_id := rel.target_id
         type := rel.type
         paper_id := paper.id
         paper_title := paper.title }] }

/-- Callback of `selectedPaperIds.forEach(paperId => ...)`. -/
def visitPaper (random : Nat → ℚ) (completed : List Paper)
    (st : BuildState) (paperId : String) : BuildState :=
  match completed.find? (fun p => p.id == paperId) with
  | none => st
  | some paper =>
    match paper.knowledge_graph with
    | none => st
    | some kg =>
      let st1 := (kg.nodes.getD []).enum.foldl
        (fun s e => visitNode random paperId paper s e.1 e.2) st
      (kg.relationships.getD []).enum.foldl
        (fun s e => visitRelationship paperId paper s e.1 e.2) st1

/-- The locals before the first document is visited. -/
def BuildState.init : BuildState :=
  { allNodes := [], allRelationships := [], nodeMap := [], randomCalls := 0 }

/-- The function `buildCombinedGraph`: the value it passes to `setGraphData`. -/
def buildCombinedGraph (random : Nat → ℚ) (completed : List Paper)
    (selectedPaperIds : List String) : GraphData :=
  if selectedPaperIds.length = 0 then { nodes := [], relationships := [] }
  else
    let st := selectedPaperIds.foldl (visitPaper random completed) BuildState.init
    { nodes := st.allNodes, relationships := st.allRelationships }

/-! ## Processing order

The sequence of callback invocations of one run, used to state what the combined
graph contains. -/

/-- One invocation of the node callback: the selected id, the document found for
it, the index of the node in the document's node list, and the node. -/
structure Visit where
  paperId : String
  paper : Paper
  index : Nat
  node : Node
deriving DecidableEq, Repr

/-- The selected ids for which a document with a knowledge graph is found, in the
order of `selectedPaperIds`, each with that document and its graph. -/
def selectedGraphs (completed : List Paper) (selectedPaperIds : List String) :
    List (String × Paper × KnowledgeGraph) :=
  selectedPaperIds.filterMap (fun paperId =>
    (completed.find? (fun p => p.id == paperId)).bind (fun paper =>
      paper.knowledge_graph.map (fun kg => (paperId, paper, kg))))

/-- The node callback invocations caused by one selected document. -/
def paperVisits (t : String × Paper × KnowledgeGraph) : List Visit :=
  (t.2.2.nodes.getD []).enum.map (fun e => ⟨t.1, t.2.1, e.1, e.2⟩)

/-- All node callback invocations of a run, in processing order. -/
def visits (completed : List Paper) (selectedPaperIds : List String) : List Visit :=
  (selectedGraphs completed selectedPaperIds).flatMap paperVisits

/-- The key under which the combiner files a node: the lowercased label, when the
label is present and the lowercased label is a truthy string. -/
def keyOf (node : Node) : Option String :=
  (node.label.map toLowerCase).bind (fun k => if k = "" then none else some k)

/-- The key of a node of the combined view. -/
def gkey (g : GraphNode) : String := (g.label.map toLowerCase).getD ""

/-- The id a visited node receives when it becomes a node of the combined view. -/
def Visit.graphId (v : Visit) : String :=
  strOr v.node.id ("node-" ++ v.paperId ++ "-" ++ toString v.index)

/-- The passages of a stored node, a missing list counting as empty. -/
def Visit.passages (v : Visit) : List Passage := v.node.source_passages.getD []

/-- The visits among `h` whose node is filed under key `k`. -/
def withKey (k : String) (h : List Visit) : List Visit :=
  h.filter (fun v => decide (keyOf v.node = some k))

/-- The node `g` of the combined view summarises the visits `hk` (all of one key):
its own fields are those of the first visit, its passages and papers accumulate
all of them. -/
def Summarises (g : GraphNode) (hk : List Visit) : Prop :=
  ∃ v rest, hk = v :: rest ∧
    g.id = v.graphId ∧ g.label = v.node.label ∧ g.type = v.node.type ∧
    g.properties = v.node.properties ∧ g.position = v.node.position ∧
    g.paper_id = v.paper.id ∧ g.paper_title = v.paper.title ∧
    (rest = [] → g.source_passages = v.node.source_passages) ∧
    g.source_passages.getD [] = hk.flatMap Visit.passages ∧
    g.papers = setToArray (hk.map (fun w => w.paper.title))

/-- Invariant of the locals `allNodes` and `nodeMap` after the visits `h`. -/
structure Inv (st : BuildState) (h : List Visit) : Prop where
  map_eq : st.nodeMap = st.allNodes.enum.map (fun e => (gkey e.2, e.1))
  key_ne : ∀ g ∈ st.allNodes, ∃ l, g.label = some l ∧ toLowerCase l ≠ ""
  nodup : (st.allNodes.map gkey).Nodup
  covered : ∀ v ∈ h, ∀ k, keyOf v.node = some k → k ∈ st.allNodes.map gkey
  summ : ∀ g ∈ st.allNodes, Summarises g (withKey (gkey g) h)

/-- The update of the primary when a node with an already seen key is visited. -/
def mergeInto (paper : Paper) (node : Node) (existingNode : GraphNode) : GraphNode :=
  { existingNode with
    source_passages :=
      some (existingNode.source_passages.getD [] ++ node.source_passages.getD [])
    papers := setToArray (existingNode.papers ++ [paper.title]) }

/-- The node of the combined view made from a node with an unseen key. -/
def newGraphNode (random : Nat → ℚ) (paperId : String) (paper : Paper)
    (calls : Nat) (index : Nat) (node : Node) : GraphNode :=
  let px := positionCoord (node.position.bind (·.x))
  let calls1 := if px.isSome then calls else calls + 1
  { id := strOr node.id ("node-" ++ paperId ++ "-" ++ toString index)
    label := node.label
    type := node.type
    properties := node.properties
    source_passages := node.source_passages
    position := node.position
    x := px.getD (random calls * 600 + 100)
    y := (positionCoord (node.position.bind (·.y))).getD (random calls1 * 400 + 100)
    paper_id := paper.id
    paper_title := paper.title
    papers := [paper.title] }

/-- The number of calls of `Math.random` after a node with an unseen key. -/
def callsAfter (calls : Nat) (node : Node) : Nat :=
  let calls1 := if (positionCoord (node.position.bind (·.x))).isSome then calls else calls + 1
  if (positionCoord (node.position.bind (·.y))).isSome then calls1 else calls1 + 1

/-- The relationship of the combined view made from a stored relationship. -/
def newGraphRelationship (paperId : String) (paper : Paper) (index : Nat)
    (rel : Relationship) : GraphRelationship :=
  { id := strOr rel.id ("rel-" ++ paperId ++ "-" ++ toString index)
    source_id := rel.source_id
    target_id := rel.target_id
    type := rel.type
    paper_id := paper.id
    paper_title := paper.title }

/-- The relationships one selected document adds to the combined view. -/
def paperRelationships (t : String × Paper × KnowledgeGraph) : List GraphRelationship :=
  (t.2.2.relationships.getD []).enum.map (fun e => newGraphRelationship t.1 t.2.1 e.1 e.2)

/-- The locals after all selected documents were visited. -/
def finalState (random : Nat → ℚ) (completed : List Paper)
    (selectedPaperIds : List String) : BuildState :=
  selectedPaperIds.foldl (visitPaper random completed) BuildState.init

/-! ## Concrete documents -/

/-- A stored node with the given id and label and nothing else. -/
def plainNode (id : Option String) (label : Option String) : Node :=
  { id := id, label := label, type := none, properties := [], source_passages := none,
    position := none }

/-- A completed document with the given id, title and nodes, without relationships. -/
def plainPaper (id title : String) (nodes : List Node) : Paper :=
  { id := id, title := title, authors := [], processing_status := "completed",
    knowledge_graph := some { nodes := some nodes, relationships := some [] } }

/-- Document A of the scenario of the specification. -/
def docA : Paper := plainPaper "A" "A title" [plainNode (some "n1") (some "Apple")]

/-- Document B of the scenario of the specification. -/
def docB : Paper := plainPaper "B" "B title" [plainNode (some "n2") (some " apple ")]

/-- Document B with its label already trimmed. -/
def docBTrimmed : Paper := plainPaper "B" "B title" [plainNode (some "n2") (some "apple")]

/-- A document whose only node has a label made of spaces. -/
def docBlank : Paper := plainPaper "C" "C title" [plainNode (some "n1") (some "  ")]

/-- A document whose only node has no id. -/
def docNoId : Paper := plainPaper "P" "P title" [plainNode none (some "Apple")]

/-! ## Two runs of the combiner -/

/-- A node of the combined view with its layout position put aside. -/
def erasePosition (g : GraphNode) : GraphNode := { g with x := 0, y := 0 }

/-- Two states of the locals that agree on everything but positions and the count of
calls of `Math.random`. -/
def SameButPositions (s1 s2 : BuildState) : Prop :=
  s1.allNodes.map erasePosition = s2.allNodes.map erasePosition ∧
    s1.nodeMap = s2.nodeMap ∧ s1.allRelationships = s2.allRelationships

/-! ## Layout -/

/-- The array `positionedNodes` of `renderGraph`: the first 30 nodes, each keeping a
truthy `x` and `y` and otherwise placed on the circle.  The floating point values
`svgWidth / 2 + radius * Math.cos(angle)` and `svgHeight / 2 + radius * Math.sin(angle)`
with `angle = (i / Math.min(n, 30)) * 2 * Math.PI` are taken as `circleX i n` and
`circleY i n`. -/
def positionedNodes (circleX circleY : Nat → Nat → ℚ) (nodes : List GraphNode) :
    List GraphNode :=
  (nodes.take 30).enum.map (fun e =>
    { e.2 with
      x := if e.2.x = 0 then circleX e.1 (min nodes.length 30) else e.2.x
      y := if e.2.y = 0 then circleY e.1 (min nodes.length 30) else e.2.y })

/-! ## The combiner on a heap

The same function with JavaScript objects kept by reference.  Node objects and
passage arrays live in a heap and are named by their address; a spread allocates a
fresh object or array that shares the referenced parts; `existingNode.f = v` writes
field `f` of the object at the address `nodeMap` returns.  Relationship objects are
only ever spread and the arrays of a document only iterated, never assigned to; they
are kept as values. -/

/-- A node object: a stored node, or a node of the combined view (which has the
derived fields as well).  `source_passages` is the address of a passage array. -/
structure HeapNode where
  id : Option String
  label : Option String
  type : Option String
  properties : List (String × String)
  source_passages : Option Nat
  position : Option Position
  x : Option ℚ
  y : Option ℚ
  paper_id : Option String
  paper_title : Option String
  papers : Option (List String)
deriving DecidableEq, Repr

/-- The heap: node objects and passage arrays, each named by its index. -/
structure Heap where
  objects : List HeapNode
  arrays : List (List Passage)
deriving DecidableEq, Repr

/-- The field `knowledge_graph` of a document whose nodes are references. -/
structure HeapKnowledgeGraph where
  nodes : Option (List Nat)
  relationships : Option (List Relationship)
deriving DecidableEq, Repr

/-- A completed document whose nodes are references into the heap. -/
structure HeapPaper where
  id : String
  title : String
  knowledge_graph : Option HeapKnowledgeGraph
deriving DecidableEq, Repr

/-- Locals of one run on the heap: `allNodes` and `nodeMap` hold addresses. -/
structure HeapState where
  heap : Heap
  allNodes : List Nat
  allRelationships : List GraphRelationship
  nodeMap : List (String × Nat)
  randomCalls : Nat
deriving DecidableEq, Repr

/-- The value of `o.source_passages || []` read through the heap. -/
def Heap.passagesOf (h : Heap) (ref : Option Nat) : List Passage :=
  match ref with
  | some a => (h.arrays[a]?).getD []
  | none => []

/-- Callback of `nodes?.forEach((node, index) => ...)`, `node` being a reference. -/
def visitNodeRef (random : Nat → ℚ) (paperId : String) (paper : HeapPaper)
    (st : HeapState) (index : Nat) (nodeRef : Nat) : HeapState :=
  match st.heap.objects[nodeRef]? with
  | none => st
  | some node =>
    match node.label.map toLowerCase with
    | none => st
    | some nodeKey =>
      if nodeKey = "" then st
      else
        match st.nodeMap.lookup nodeKey with
        | some existingRef =>
          match st.heap.objects[existingRef]? with
          | none => st
          | some existingNode =>
            let passages := st.heap.passagesOf existingNode.source_passages ++
              st.heap.passagesOf node.source_passages
            let papers := setToArray (existingNode.papers.getD [] ++ [paper.title])
            { st with
              heap :=
                { objects := st.heap.objects.set existingRef
                    { existingNode with
                      source_passages := some st.heap.arrays.length
                      papers := some papers }
                  arrays := st.heap.arrays ++ [passages] } }
        | none =>
          let px := positionCoord (node.position.bind (·.x))
          let x := px.getD (random st.randomCalls * 600 + 100)
          let calls1 := if px.isSome then st.randomCalls else st.randomCalls + 1
          let py := positionCoord (node.position.bind (·.y))
          let y := py.getD (random calls1 * 400 + 100)
          let calls2 := if py.isSome then calls1 else calls1 + 1
          let graphNode : HeapNode :=
            { node with
              id := some (strOr node.id ("node-" ++ paperId ++ "-" ++ toString index))
              x := some x
              y := some y
              paper_id := some paper.id
              paper_title := some paper.title
              papers := some [paper.title] }
          { st with
            heap := { st.heap with objects := st.heap.objects ++ [graphNode] }
            allNodes := st.allNodes ++ [st.heap.objects.length]
            nodeMap := st.nodeMap ++ [(nodeKey, st.heap.objects.length)]
            randomCalls := calls2 }

/-- Callback of `relationships?.forEach((rel, index) => ...)` on the heap state. -/
def visitRelationshipRef (paperId : String) (paper : HeapPaper)
    (st : HeapState) (index : Nat) (rel : Relationship) : HeapState :=
  { st with
    allRelationships := st.allRelationships ++
      [{ id := strOr rel.id ("rel-" ++ paperId ++ "-" ++ toString index)
         source_id := rel.source_id
         target_id := rel.target_id
         type := rel.type
         paper_id := paper.id
         paper_title := paper.title }] }

/-- Callback of `selectedPaperIds.forEach(paperId => ...)` on the heap state. -/
def visitPaperRef (random : Nat → ℚ) (completed : List HeapPaper)
    (st : HeapState) (paperId : String) : HeapState :=
  match completed.find? (fun p => p.id == paperId) with
  | none => st
  | some paper =>
    match paper.knowledge_graph with
    | none => st
    | some kg =>
      let st1 := (kg.nodes.getD []).enum.foldl
        (fun s e => visitNodeRef random paperId paper s e.1 e.2) st
      (kg.relationships.getD []).enum.foldl
        (fun s e => visitRelationshipRef paperId paper s e.1 e.2) st1

/-- One run of `buildCombinedGraph` started on the heap `h`: the heap after the run
and the locals, `allNodes` and `allRelationships` being what `setGraphData` receives. -/
def buildCombinedGraphOnHeap (random : Nat → ℚ) (h : Heap) (completed : List HeapPaper)
    (selectedPaperIds : List String) : HeapState :=
  if selectedPaperIds.length = 0 then
    { heap := h, allNodes := [], allRelationships := [], nodeMap := [], randomCalls := 0 }
  else
    selectedPaperIds.foldl (visitPaperRef random completed)
      { heap := h, allNodes := [], allRelationships := [], nodeMap := [], randomCalls := 0 }

/-- What a run started on the heap `h0` may have done to the heap: every object and
array of `h0` is still there with the same content, and `nodeMap` only holds addresses
allocated during the run. -/
structure Frame (h0 : Heap) (st : HeapState) : Prop where
  objects_le : h0.objects.length ≤ st.heap.objects.length
  arrays_le : h0.arrays.length ≤ st.heap.arrays.length
  objects_eq : ∀ a, a < h0.objects.length → st.heap.objects[a]? = h0.objects[a]?
  arrays_eq : ∀ b, b < h0.arrays.length → st.heap.arrays[b]? = h0.arrays[b]?
  fresh : ∀ e ∈ st.nodeMap, h0.objects.length ≤ e.2

/-! ## Reading the heap

The stored node and the node of the combined view that a node object stands for,
its passage array being read from `arrays`. -/

/-- The passage array at address `a`. -/
def passagesAt (arrays : List (List Passage)) (a : Nat) : List Passage :=
  (arrays[a]?).getD []

/-- The stored node a node object stands for. -/
def storedView (arrays : List (List Passage)) (o : HeapNode) : Node :=
  { id := o.id
    label := o.label
    type := o.type
    properties := o.properties
    source_passages := o.source_passages.map (passagesAt arrays)
    position := o.position }

/-- The node of the combined view a node object stands for, when it has the derived
fields. -/
def graphView (arrays : List (List Passage)) (o : HeapNode) : Option GraphNode :=
  match o.id, o.x, o.y, o.paper_id, o.paper_title, o.papers with
  | some id, some x, some y, some paper_id, some paper_title, some papers =>
    some
      { id := id
        label := o.label
        type := o.type
        properties := o.properties
        source_passages := o.source_passages.map (passagesAt arrays)
        position := o.position
        x := x
        y := y
        paper_id := paper_id
        paper_title := paper_title
        papers := papers }
  | _, _, _, _, _, _ => none

/-- The passage array reference of a node object, if any, is an address of `arrays`. -/
def ValidRef (arrays : List (List Passage)) (o : HeapNode) : Prop :=
  ∀ a, o.source_passages = some a → a < arrays.length

/-- The stored node at address `ref` of the heap. -/
def Heap.storedNode (h : Heap) (ref : Nat) : Option Node :=
  (h.objects[ref]?).map (storedView h.arrays)

/-- The document a document with node references stands for on the heap `h`. -/
def Heap.viewPaper (h : Heap) (p : HeapPaper) : Paper :=
  { id := p.id
    title := p.title
    authors := []
    processing_status := "completed"
    knowledge_graph := p.knowledge_graph.map (fun kg =>
      { nodes := kg.nodes.map (fun refs => refs.filterMap h.storedNode)
        relationships := kg.relationships }) }

/-- The heap and the documents are well formed: passage array references and node
references are addresses of the heap. -/
def WellFormed (h : Heap) (completed : List HeapPaper) : Prop :=
  (∀ o ∈ h.objects, ValidRef h.arrays o) ∧
    ∀ p ∈ completed, ∀ kg, p.knowledge_graph = some kg →
      ∀ refs, kg.nodes = some refs → ∀ r ∈ refs, r < h.objects.length

/-- The address `r` of the initial heap holds a node object that stands for `node`. -/
def InputView (h0 : Heap) (r : Nat) (node : Node) : Prop :=
  ∃ o, h0.objects[r]? = some o ∧ storedView h0.arrays o = node ∧ ValidRef h0.arrays o

/-- The node object `o` stands for the node `g` of the combined view. -/
def ViewsAs (arrays : List (List Passage)) (o : HeapNode) (g : GraphNode) : Prop :=
  graphView arrays o = some g ∧ ValidRef arrays o

/-- The locals of a run on the heap started on `h0` stand for the locals `st` of the
run on values. -/
structure Sim (h0 : Heap) (hs : HeapState) (st : BuildState) : Prop where
  objs : ∃ G, hs.heap.objects = h0.objects ++ G ∧
    List.Forall₂ (ViewsAs hs.heap.arrays) G st.allNodes ∧
    hs.allNodes = List.range' h0.objects.length G.length
  arrs : ∃ A, hs.heap.arrays = h0.arrays ++ A
  map : hs.nodeMap = st.nodeMap.map (fun e => (e.1, h0.objects.length + e.2))
  idx : ∀ e ∈ st.nodeMap, e.2 < st.allNodes.length
  rels : hs.allRelationships = st.allRelationships
  calls : hs.randomCalls = st.randomCalls

/-- The node object allocated for a node with an unseen key. -/
def newHeapNode (random : Nat → ℚ) (paperId : String) (paper : HeapPaper)
    (calls index : Nat) (o : HeapNode) : HeapNode :=
  { o with
    id := some (strOr o.id ("node-" ++ paperId ++ "-" ++ toString index))
    x := some ((positionCoord (o.position.bind (·.x))).getD (random calls * 600 + 100))
    y := some ((positionCoord (o.position.bind (·.y))).getD
      (random (if (positionCoord (o.position.bind (·.x))).isSome then calls
        else calls + 1) * 400 + 100))
    paper_id := some paper.id
    paper_title := some paper.title
    papers := some [paper.title] }

/-- The primary after the two assignments made when its key is seen again,
`arrayRef` being the address of the new passage array. -/
def mergedHeapNode (paper : HeapPaper) (arrayRef : Nat) (eo : HeapNode) : HeapNode :=
  { eo with
    source_passages := some arrayRef
    papers := some (setToArray (eo.papers.getD [] ++ [paper.title])) }

/-! ## Two documents with passages -/

/-- Node `Apple` of document X, with one passage. -/
def nodeX : Node :=
  { id := some "n1", label := some "Apple", type := some "Organization", properties := [],
    source_passages := some [⟨"first", 1, 1⟩], position := none }

/-- Node `apple` of document Y, with two passages. -/
def nodeY : Node :=
  { id := some "n2", label := some "apple", type := some "Concept", properties := [],
    source_passages := some [⟨"second", 2, 1⟩, ⟨"third", 3, 1⟩], position := none }

/-- Document X. -/
def docX : Paper := plainPaper "X" "X title" [nodeX]

/-- Document Y. -/
def docY : Paper := plainPaper "Y" "Y title" [nodeY]

/-- The node of the combined view of X and Y: made from `nodeX`, then merged with
`nodeY`. -/
def mergedXY : GraphNode :=
  mergeInto docY nodeY (newGraphNode (fun _ => 0) "X" docX 0 0 nodeX)

/-! ## The enhancement dialog

The consolidation logic of `src/components/graph/GraphEnhancementsDialog.jsx`:
`allNodes`, `allRelationships`, `disconnectedNodes`, `findDuplicates` and
`handleMergeDuplicates`, the component's `papers` being a parameter.

`findDuplicates` collects its groups in a plain object `{}`.  Reading `groups[k]`
finds the own property `k` or else the property `k` of `Object.prototype`, and
`Object.entries` lists the own keys that are array indices first, in ascending
numeric order, and the other keys after them in the order of their creation. -/

/-- A flattened node `{...node, paper_id: paper.id, paper_title: paper.title}`. -/
structure FlatNode extends Node where
  paper_id : String
  paper_title : String
deriving DecidableEq, Repr

/-- A group `{label, nodes, count}` returned by `findDuplicates`. -/
structure DuplicateGroup where
  label : String
  nodes : List FlatNode
  count : Nat
deriving DecidableEq, Repr

/-- The object `{...node, paper_id: paper.id, paper_title: paper.title}`. -/
def flatten (paper : Paper) (node : Node) : FlatNode :=
  { node with paper_id := paper.id, paper_title := paper.title }

/-- The constant `allNodes` of the dialog. -/
def Dialog.allNodes (papers : List Paper) : List FlatNode :=
  papers.flatMap (fun paper =>
    ((paper.knowledge_graph.bind (·.nodes)).getD []).map (flatten paper))

/-- The constant `allRelationships` of the dialog. -/
def Dialog.allRelationships (papers : List Paper) : List Relationship :=
  papers.flatMap (fun paper => (paper.knowledge_graph.bind (·.relationships)).getD [])

/-- The constant `disconnectedNodes` of the dialog. -/
def Dialog.disconnectedNodes (papers : List Paper) : List FlatNode :=
  (Dialog.allNodes papers).filter (fun node =>
    let hasConnection := (Dialog.allRelationships papers).any (fun rel =>
      decide (some rel.source_id = node.id) || decide (some rel.target_id = node.id))
    !hasConnection)

/-- The names of the properties of `Object.prototype`. -/
def objectPrototypeKeys : List String :=
  ["constructor", "__defineGetter__", "__defineSetter__", "hasOwnProperty",
    "__lookupGetter__", "__lookupSetter__", "isPrototypeOf", "propertyIsEnumerable",
    "toString", "valueOf", "__proto__", "toLocaleString"]

/-- The value of `node.label?.toLowerCase().trim()`. -/
def normalizedLabelOf (label : Option String) : Option String :=
  (label.map toLowerCase).map trim

/-- Callback of `allNodes.forEach(node => ...)` in `findDuplicates`; `groups` holds the
own properties of the object in the order of their creation.  A key that is not an own
property and names a property of `Object.prototype` reads as that inherited value,
which is truthy and has no `push`: the call raises a `TypeError`. -/
def groupNode (groups : List (String × List FlatNode)) (node : FlatNode) :
    Except String (List (String × List FlatNode)) :=
  match normalizedLabelOf node.label with
  | none => .ok groups
  | some normalizedLabel =>
    if normalizedLabel = "" then .ok groups
    else if (groups.map (·.1)).contains normalizedLabel then
      .ok (groups.map (fun e => if e.1 = normalizedLabel then (e.1, e.2 ++ [node]) else e))
    else if objectPrototypeKeys.contains normalizedLabel then
      .error "TypeError: groups[normalizedLabel].push is not a function"
    else
      .ok (groups ++ [(normalizedLabel, [node])])

/-- The decimal digit a character stands for, if it is one. -/
def digitOf (c : Char) : Option Nat :=
  if 48 ≤ c.toNat ∧ c.toNat ≤ 57 then some (c.toNat - 48) else none

/-- The array index a property key is, if it is one: the canonical decimal numeral
of an integer below `2 ^ 32 - 1`. -/
def arrayIndexOf (key : String) : Option Nat :=
  match key.data with
  | [] => none
  | c :: cs =>
    if (c :: cs).all (fun d => (digitOf d).isSome) ∧ (c ≠ '0' ∨ cs = []) then
      let n := (c :: cs).foldl (fun acc d => 10 * acc + (digitOf d).getD 0) 0
      if n < 4294967295 then some n else none
    else none

/-- The function `Object.entries` on an object whose own properties, in the order of
their creation, are `props`. -/
def objectEntries {α : Type} (props : List (String × α)) : List (String × α) :=
  (props.filter (fun e => (arrayIndexOf e.1).isSome)).insertionSort
      (fun a b => (arrayIndexOf a.1).getD 0 ≤ (arrayIndexOf b.1).getD 0) ++
    props.filter (fun e => !(arrayIndexOf e.1).isSome)

/-- The function `findDuplicates` of the dialog, `allNodes` being a parameter. -/
def Dialog.findDuplicates (allNodes : List FlatNode) : Except String (List DuplicateGroup) :=
  match allNodes.foldlM groupNode [] with
  | .error e => .error e
  | .ok groups =>
    .ok (((objectEntries groups).filter (fun e => decide (e.2.length > 1))).map
      (fun e => { label := e.1, nodes := e.2, count := e.2.length }))

/-- A relationship of the graph sent by `handleMergeDuplicates`: an endpoint that is
replaced takes the value of `primaryNode.id`, which may be missing. -/
structure MergedRelationship where
  id : Option String
  source_id : Option String
  target_id : Option String
  type : Option String
deriving DecidableEq, Repr

/-- The `knowledge_graph` sent by `handleMergeDuplicates`. -/
structure MergedGraph where
  nodes : List Node
  relationships : List MergedRelationship
deriving DecidableEq, Repr

/-- What one call of `handleMergeDuplicates` did: whether it showed the alert, the
calls `ResearchPaper.update(id, {knowledge_graph})` it issued, whether it called
`onUpdate`, and the error it raised, if any. -/
structure MergeOutcome where
  alerted : Bool
  updates : List (String × MergedGraph)
  onUpdateCalled : Bool
  error : Option String
deriving DecidableEq, Repr

/-- The function `handleMergeDuplicates` of the dialog.  `papers` and
`duplicateGroups` are the component's constants, `updateRejects id` tells whether the
store rejects the update of document `id`. -/
def Dialog.handleMergeDuplicates (papers : List Paper) (duplicateGroups : List DuplicateGroup)
    (updateRejects : String → Bool) (group : DuplicateGroup) : MergeOutcome :=
  if group.nodes.length < 2 then
    { alerted := false, updates := [], onUpdateCalled := false, error := none }
  else if duplicateGroups.length = 0 then
    { alerted := true, updates := [], onUpdateCalled := false, error := none }
  else
    match group.nodes with
    | [] => { alerted := false, updates := [], onUpdateCalled := false, error := none }
    | primaryNode :: nodesToMerge =>
      let allPassages := group.nodes.flatMap (fun n => n.source_passages.getD [])
      match papers.find? (fun p => p.id == primaryNode.paper_id) with
      | none => { alerted := false, updates := [], onUpdateCalled := true, error := none }
      | some paper =>
        match paper.knowledge_graph.bind (·.nodes),
          paper.knowledge_graph.bind (·.relationships) with
        | some nodes, some relationships =>
          let updatedNodes := nodes.map (fun n =>
            if n.id = primaryNode.id then { n with source_passages := some allPassages } else n)
          let nodeIdsToRemove := nodesToMerge.map (fun n => n.id)
          let finalNodes := updatedNodes.filter (fun n => !nodeIdsToRemove.contains n.id)
          let updatedRelationships : List MergedRelationship := relationships.map (fun rel =>
            { id := rel.id
              source_id :=
                if nodeIdsToRemove.contains (some rel.source_id) then primaryNode.id
                else some rel.source_id
              target_id :=
                if nodeIdsToRemove.contains (some rel.target_id) then primaryNode.id
                else some rel.target_id
              type := rel.type })
          let update : String × MergedGraph :=
            (paper.id, { nodes := finalNodes, relationships := updatedRelationships })
          if updateRejects paper.id then
            { alerted := false, updates := [update], onUpdateCalled := false,
              error := some "update rejected" }
          else
            { alerted := false, updates := [update], onUpdateCalled := true, error := none }
        | _, _ =>
          { alerted := false, updates := [], onUpdateCalled := false,
            error := some "TypeError: cannot read properties of undefined" }

deriving instance DecidableEq for Except

/-- The graph `handleMergeDuplicates` sends for the document of the primary, whose
nodes and relationships are `nodes` and `relationships`. -/
def mergedGraphOf (primaryNode : FlatNode) (nodesToMerge : List FlatNode)
    (allPassages : List Passage) (nodes : List Node) (relationships : List Relationship) :
    MergedGraph :=
  { nodes := (nodes.map (fun n =>
        if n.id = primaryNode.id then { n with source_passages := some allPassages } else n)).filter
      (fun n => !(nodesToMerge.map (fun m => m.id)).contains n.id)
    relationships := relationships.map (fun rel =>
      { id := rel.id
        source_id :=
          if (nodesToMerge.map (fun m => m.id)).contains (some rel.source_id) then primaryNode.id
          else some rel.source_id
        target_id :=
          if (nodesToMerge.map (fun m => m.id)).contains (some rel.target_id) then primaryNode.id
          else some rel.target_id
        type := rel.type }) }

/-- The object `{ ...n, source_passages: allPassages }`. -/
def withPassages (n : Node) (allPassages : List Passage) : Node :=
  { n with source_passages := some allPassages }

/-- The key under which `findDuplicates` files a flattened node: its normalized
label, when the label is present and the normalized label is a truthy string. -/
def dupKey (node : FlatNode) : Option String :=
  (normalizedLabelOf node.label).bind (fun k => if k = "" then none else some k)

/-- Invariant of the object `groups` after the nodes `h` were filed without error:
its keys are the keys of the nodes in the order of their first occurrence, each
holding the nodes with that key in their order, and no key names a property of
`Object.prototype`. -/
structure GroupsInv (groups : List (String × List FlatNode)) (h : List FlatNode) : Prop where
  keys : groups.map (·.1) = setToArray (h.filterMap dupKey)
  vals : ∀ e ∈ groups, e.2 = h.filter (fun n => decide (dupKey n = some e.1))
  safe : ∀ e ∈ groups, e.1 ∉ objectPrototypeKeys

/-! ## Concrete documents for the dialog -/

/-- A stored node with the given id and label. -/
def labelled (id label : String) : Node := plainNode (some id) (some label)

/-- A relationship from `source` to `target`. -/
def edge (source target : String) : Relationship :=
  { id := none, source_id := source, target_id := target, type := some "RELATED" }

/-- A completed document with the given nodes and relationships. -/
def graphPaper (id title : String) (nodes : List Node) (relationships : List Relationship) :
    Paper :=
  { id := id, title := title, authors := [], processing_status := "completed",
    knowledge_graph := some { nodes := some nodes, relationships := some relationships } }

/-- A document with two nodes labelled `Constructor`. -/
def docConstructor : Paper :=
  graphPaper "C" "C title" [labelled "n1" "Constructor", labelled "n2" "constructor"] []

/-- A document whose labels `b`, `2024` and `10` each occur twice, in that order. -/
def docDigits : Paper :=
  graphPaper "D" "D title"
    [labelled "n1" "b", labelled "n2" "B", labelled "n3" "2024", labelled "n4" "2024",
      labelled "n5" "10", labelled "n6" "10"] []

/-- The document of the merge scenario of the specification: `n1` and `n2` are
duplicates, `n2` points to `n3`. -/
def docMerge : Paper :=
  graphPaper "M" "M title"
    [labelled "n1" "Apple", labelled "n2" "apple", labelled "n3" "Pear"] [edge "n2" "n3"]

/-- The duplicate group of `docMerge`. -/
def groupMerge : DuplicateGroup :=
  { label := "apple"
    nodes := [flatten docMerge (labelled "n1" "Apple"), flatten docMerge (labelled "n2" "apple")]
    count := 2 }

/-- Document A of the cross-document merges: `Apple` is `n1`, which points to `n3`. -/
def docLeft : Paper :=
  graphPaper "A" "A title" [labelled "n1" "Apple", labelled "n3" "Pear"] [edge "n1" "n3"]

/-- Document B of the cross-document merges: `apple` has the id `n1` as well. -/
def docRight : Paper := graphPaper "B" "B title" [labelled "n1" "apple"] []

/-- The duplicate group of `docLeft` and `docRight`. -/
def groupLeftRight : DuplicateGroup :=
  { label := "apple"
    nodes := [flatten docLeft (labelled "n1" "Apple"), flatten docRight (labelled "n1" "apple")]
    count := 2 }

/-- A document in which `Apple` is `n1` and `Banana` is `n2`, `n2` pointing to `n1`. -/
def docFruit : Paper :=
  graphPaper "A" "A title" [labelled "n1" "Apple", labelled "n2" "Banana"] [edge "n2" "n1"]

/-- A document in which `apple` has the id `n2`. -/
def docOther : Paper := graphPaper "B" "B title" [labelled "n2" "apple"] []

/-- The duplicate group of `docFruit` and `docOther`. -/
def groupFruitOther : DuplicateGroup :=
  { label := "apple"
    nodes := [flatten docFruit (labelled "n1" "Apple"), flatten docOther (labelled "n2" "apple")]
    count := 2 }

/-- Document A of a merge across documents without shared ids: `Apple` is `n1`. -/
def docApple : Paper := graphPaper "A" "A title" [labelled "n1" "Apple"] []

/-- Document B of a merge across documents without shared ids: `apple` is `n2` and
points to `n4`. -/
def docAppleToo : Paper :=
  graphPaper "B" "B title" [labelled "n2" "apple", labelled "n4" "Pear"] [edge "n2" "n4"]

/-- The duplicate group of `docApple` and `docAppleToo`. -/
def groupApple : DuplicateGroup :=
  { label := "apple"
    nodes := [flatten docApple (labelled "n1" "Apple"),
      flatten docAppleToo (labelled "n2" "apple")]
    count := 2 }

/-- Node `n1` of document A, labelled `Apple`, with one passage. -/
def appleWithPassage : Node := { nodeX with id := some "n1" }

/-- Node `n1` of document B, labelled `apple`, with two passages. -/
def appleWithPassages : Node := { nodeY with id := some "n1" }

/-- Document A with the node `appleWithPassage`. -/
def docFirst : Paper := graphPaper "A" "A title" [appleWithPassage] []

/-- Document B with the node `appleWithPassages`, whose id is `n1` as well. -/
def docSecond : Paper := graphPaper "B" "B title" [appleWithPassages] []

/-- The duplicate group of `docFirst` and `docSecond`. -/
def groupFirstSecond : DuplicateGroup :=
  { label := "apple"
    nodes := [flatten docFirst appleWithPassage, flatten docSecond appleWithPassages]
    count := 2 }

/-- The document of the orphan scenario of the specification. -/
def docOrphan : Paper :=
  graphPaper "O" "O title"
    [labelled "n1" "One", labelled "n2" "Two", labelled "n3" "Three"] [edge "n1" "n2"]

/-! ## Deleting the selected nodes

The function `handleDeleteNodes` of the dialog.  The state `selectedNodes` holds the
values of `node.id` the user ticked; a node without id contributes a missing value.
Like `groups` in `findDuplicates`, `nodesByPaper` is a plain object, keyed by document
id.  The loop awaits each store update before it goes on, so an update that is
rejected, or a document whose graph lacks a list, ends the run at that document. -/

/-- What one call of `handleDeleteNodes` did: whether it showed the alert, the calls
`ResearchPaper.update(id, {knowledge_graph})` it issued, in order, whether it cleared
the selection and called `onUpdate`, and the error it raised, if any. -/
structure DeleteOutcome where
  alerted : Bool
  updates : List (String × KnowledgeGraph)
  selectionCleared : Bool
  onUpdateCalled : Bool
  error : Option String
deriving DecidableEq, Repr

/-- Callback of `selectedNodes.forEach(nodeId => ...)` in `handleDeleteNodes`;
`nodesByPaper` holds the own properties of the object in the order of their creation. -/
def fileNodeId (allNodes : List FlatNode) (nodesByPaper : List (String × List (Option String)))
    (nodeId : Option String) : Except String (List (String × List (Option String))) :=
  match allNodes.find? (fun n => decide (n.id = nodeId)) with
  | none => .ok nodesByPaper
  | some node =>
    if (nodesByPaper.map (·.1)).contains node.paper_id then
      .ok (nodesByPaper.map (fun e =>
        if e.1 = node.paper_id then (e.1, e.2 ++ [nodeId]) else e))
    else if objectPrototypeKeys.contains node.paper_id then
      .error "TypeError: nodesByPaper[node.paper_id].push is not a function"
    else
      .ok (nodesByPaper ++ [(node.paper_id, [nodeId])])

/-- The object `updatedGraph` made from the lists of a document and the ids filed
under that document. -/
def updatedGraph (nodes : List Node) (relationships : List Relationship)
    (nodeIds : List (Option String)) : KnowledgeGraph :=
  { nodes := some (nodes.filter (fun n => !nodeIds.contains n.id))
    relationships := some (relationships.filter (fun r =>
      !nodeIds.contains (some r.source_id) && !nodeIds.contains (some r.target_id))) }

/-- The loop `for (const [paperId, nodeIds] of Object.entries(nodesByPaper))` on the
entries still to be processed: the updates it issues and the error that ends it, if
any.  `updateRejects id` tells whether the store rejects the update of document `id`. -/
def updateEachPaper (papers : List Paper) (updateRejects : String → Bool) :
    List (String × List (Option String)) → List (String × KnowledgeGraph) × Option String
  | [] => ([], none)
  | (paperId, nodeIds) :: rest =>
    match papers.find? (fun p => p.id == paperId) with
    | none => updateEachPaper papers updateRejects rest
    | some paper =>
      match paper.knowledge_graph.bind (·.nodes),
        paper.knowledge_graph.bind (·.relationships) with
      | some nodes, some relationships =>
        if updateRejects paperId then
          ([(paperId, updatedGraph nodes relationships nodeIds)], some "update rejected")
        else
          ((paperId, updatedGraph nodes relationships nodeIds) ::
              (updateEachPaper papers updateRejects rest).1,
            (updateEachPaper papers updateRejects rest).2)
      | _, _ => ([], some "TypeError: cannot read properties of undefined")

/-- The function `handleDeleteNodes` of the dialog.  `papers` is the component's
constant and `selectedNodes` its state. -/
def Dialog.handleDeleteNodes (papers : List Paper) (updateRejects : String → Bool)
    (selectedNodes : List (Option String)) : DeleteOutcome :=
  if selectedNodes.length = 0 then
    { alerted := false, updates := [], selectionCleared := false, onUpdateCalled := false,
      error := none }
  else if (Dialog.disconnectedNodes papers).length = 0 then
    { alerted := true, updates := [], selectionCleared := false, onUpdateCalled := false,
      error := none }
  else
    match selectedNodes.foldlM (fileNodeId (Dialog.allNodes papers)) [] with
    | .error e =>
      { alerted := false, updates := [], selectionCleared := false, onUpdateCalled := false,
        error := some e }
    | .ok nodesByPaper =>
      match updateEachPaper papers updateRejects (objectEntries nodesByPaper) with
      | (updates, some e) =>
        { alerted := false, updates := updates, selectionCleared := false,
          onUpdateCalled := false, error := some e }
      | (updates, none) =>
        { alerted := false, updates := updates, selectionCleared := true,
          onUpdateCalled := true, error := none }

/-- The store call `ResearchPaper.update(id, {knowledge_graph})` on a list of
documents.  The entity store is an external collaborator; as the specification
describes its `update`, the given fields are merged into the entity with that id: the
document takes the new graph, its other fields and the other documents stay. -/
def Store.update (papers : List Paper) (u : String × KnowledgeGraph) : List Paper :=
  papers.map (fun p => if p.id = u.1 then { p with knowledge_graph := some u.2 } else p)

/-- The documents after a sequence of accepted store updates. -/
def Store.applyUpdates (papers : List Paper) (updates : List (String × KnowledgeGraph)) :
    List Paper :=
  updates.foldl Store.update papers

/-- The document id under which `handleDeleteNodes` files a selected id: that of the
first flattened node with this id. -/
def ownerOf (allNodes : List FlatNode) (nodeId : Option String) : Option String :=
  (allNodes.find? (fun n => decide (n.id = nodeId))).map (·.paper_id)

/-- The selected ids attributed to a document. -/
def attributedTo (papers : List Paper) (selectedNodes : List (Option String))
    (paperId : String) : List (Option String) :=
  selectedNodes.filter (fun nodeId =>
    decide (ownerOf (Dialog.allNodes papers) nodeId = some paperId))

/-- Invariant of the object `nodesByPaper` after the ids `h` were filed without error. -/
structure FiledInv (allNodes : List FlatNode)
    (nodesByPaper : List (String × List (Option String))) (h : List (Option String)) :
    Prop where
  keys : nodesByPaper.map (·.1) = setToArray (h.filterMap (ownerOf allNodes))
  vals : ∀ e ∈ nodesByPaper, e.2 = h.filter (fun i => decide (ownerOf allNodes i = some e.1))
  safe : ∀ e ∈ nodesByPaper, e.1 ∉ objectPrototypeKeys

/-! ## The issue badges of the Graph page -/

/-- The constant `allNodes` of the page. -/
def Page.allNodes (papers : List Paper) (selectedPaperIds : List String) : List FlatNode :=
  ((completedPapers papers).filter (fun p => selectedPaperIds.contains p.id)).flatMap
    (fun paper => ((paper.knowledge_graph.bind (·.nodes)).getD []).map (fun node =>
      { node with paper_id := paper.id, paper_title := paper.title }))

/-- The constant `allRelationships` of the page. -/
def Page.allRelationships (papers : List Paper) (selectedPaperIds : List String) :
    List Relationship :=
  ((completedPapers papers).filter (fun p => selectedPaperIds.contains p.id)).flatMap
    (fun paper => (paper.knowledge_graph.bind (·.relationships)).getD [])

/-- The constant `disconnectedCount` of the page. -/
def Page.disconnectedCount (papers : List Paper) (selectedPaperIds : List String) : Nat :=
  ((Page.allNodes papers selectedPaperIds).filter (fun node =>
    let hasConnection := (Page.allRelationships papers selectedPaperIds).any (fun rel =>
      decide (some rel.source_id = node.id) || decide (some rel.target_id = node.id))
    !hasConnection)).length

/-- Callback of `allNodes.forEach(node => ...)` in `duplicateGroupsCount`. -/
def Page.groupNode (groups : List (String × List FlatNode)) (node : FlatNode) :
    Except String (List (String × List FlatNode)) :=
  match normalizedLabelOf node.label with
  | some normalizedLabel =>
    if normalizedLabel ≠ "" then
      if (groups.map (·.1)).contains normalizedLabel then
        .ok (groups.map (fun e => if e.1 = normalizedLabel then (e.1, e.2 ++ [node]) else e))
      else if objectPrototypeKeys.contains normalizedLabel then
        .error "TypeError: groups[normalizedLabel].push is not a function"
      else
        .ok (groups ++ [(normalizedLabel, [node])])
    else .ok groups
  | none => .ok groups

/-- The function `Object.values` on an object whose own properties, in the order of
their creation, are `props`. -/
def objectValues {α : Type} (props : List (String × α)) : List α :=
  (objectEntries props).map (·.2)

/-- The function `Object.keys` on an object whose own properties, in the order of
their creation, are `props`. -/
def objectKeys {α : Type} (props : List (String × α)) : List String :=
  (objectEntries props).map (·.1)

/-- The constant `duplicateGroupsCount` of the page. -/
def Page.duplicateGroupsCount (papers : List Paper) (selectedPaperIds : List String) :
    Except String Nat :=
  match (Page.allNodes papers selectedPaperIds).foldlM Page.groupNode [] with
  | .error e => .error e
  | .ok groups => .ok ((objectValues groups).filter (fun nodes => decide (nodes.length > 1))).length

/-- The value of the property `papers` the page passes to the dialog. -/
def Page.dialogPapers (papers : List Paper) (selectedPaperIds : List String) : List Paper :=
  (completedPapers papers).filter (fun p => selectedPaperIds.contains p.id)

/-! ## Search filter and export -/

/-- The method `String.prototype.includes`. -/
def includes (s searchString : String) : Bool :=
  decide (searchString.data <:+: s.data)

/-- The constant `filteredGraph` of the page. -/
def filteredGraph (graphData : GraphData) (searchQuery : String) : GraphData :=
  { nodes := graphData.nodes.filter (fun n =>
      decide (searchQuery = "") ||
        (n.label.map (fun l => includes (toLowerCase l) (toLowerCase searchQuery))).getD false ||
        (n.type.map (fun t => includes (toLowerCase t) (toLowerCase searchQuery))).getD false)
    relationships := graphData.relationships }

/-- A value held by a tally object: a number, or the string that `+ 1` makes of a
value that is not a number. -/
inductive Tally where
  | count (n : Nat)
  | text
deriving DecidableEq, Repr

/-- The property key a `type` value is turned into; a missing value gives
`undefined`. -/
def typeKey (type : Option String) : String := type.getD "undefined"

/-- The reducer `acc[type] = (acc[type] || 0) + 1` on a plain object `acc`.  An
inherited property of `Object.prototype` reads as a truthy value that is not a number,
and the assignment creates an own property holding a string; the key `__proto__` is
the exception, its setter ignoring a string, so that no own property is created. -/
def tallyType (acc : List (String × Tally)) (type : Option String) : List (String × Tally) :=
  if typeKey type = "__proto__" then acc
  else
    match acc.lookup (typeKey type) with
    | some (Tally.count n) =>
      acc.map (fun e => if e.1 = typeKey type then (e.1, Tally.count (n + 1)) else e)
    | some Tally.text => acc
    | none =>
      if objectPrototypeKeys.contains (typeKey type) then acc ++ [(typeKey type, Tally.text)]
      else acc ++ [(typeKey type, Tally.count 1)]

/-- The constant `nodeTypeCounts` of the page. -/
def nodeTypeCounts (filteredGraph : GraphData) : List (String × Tally) :=
  filteredGraph.nodes.foldl (fun acc node => tallyType acc node.type) []

/-- The constant `relationshipTypeCounts` of the page. -/
def relationshipTypeCounts (filteredGraph : GraphData) : List (String × Tally) :=
  filteredGraph.relationships.foldl (fun acc rel => tallyType acc rel.type) []

/-- An entry `{id, title, authors}` of the exported document list. -/
structure ExportPaper where
  id : String
  title : String
  authors : List String
deriving DecidableEq, Repr

/-- The field `metadata` of the export. -/
structure ExportMetadata where
  total_nodes : Nat
  total_relationships : Nat
  node_types : List String
  relationship_types : List String
deriving DecidableEq, Repr

/-- The object `exportData`. -/
structure ExportData where
  version : String
  timestamp : String
  papers : List ExportPaper
  graph : GraphData
  metadata : ExportMetadata
deriving DecidableEq, Repr

/-- The object `exportData` built by `handleExportGraph`; `now` is the value of
`new Date().toISOString()`. -/
def handleExportGraph (now : String) (papers : List Paper) (selectedPaperIds : List String)
    (graphData : GraphData) (searchQuery : String) : ExportData :=
  let selectedPapers :=
    (completedPapers papers).filter (fun p => selectedPaperIds.contains p.id)
  { version := "1.0"
    timestamp := now
    papers := selectedPapers.map (fun p => { id := p.id, title := p.title, authors := p.authors })
    graph :=
      { nodes := (filteredGraph graphData searchQuery).nodes
        relationships := (filteredGraph graphData searchQuery).relationships }
    metadata :=
      { total_nodes := (filteredGraph graphData searchQuery).nodes.length
        total_relationships := (filteredGraph graphData searchQuery).relationships.length
        node_types := objectKeys (nodeTypeCounts (filteredGraph graphData searchQuery))
        relationship_types :=
          objectKeys (relationshipTypeCounts (filteredGraph graphData searchQuery)) } }

/-! ## Concrete documents for the delete, the badges and the export -/

/-- Document A of the delete scenarios: `n3` is an orphan, `n1` points to `n2`. -/
def docDeleteA : Paper :=
  graphPaper "A" "A title"
    [labelled "n1" "One", labelled "n2" "Two", labelled "n3" "Three"] [edge "n1" "n2"]

/-- Document B of the delete scenarios: `m2` is an orphan, `m1` points to itself. -/
def docDeleteB : Paper :=
  graphPaper "B" "B title" [labelled "m1" "Uno", labelled "m2" "Dos"] [edge "m1" "m1"]

/-- A document whose nodes have the types `Person` and `__proto__`. -/
def docTyped : Paper :=
  graphPaper "T" "T title"
    [{ labelled "n1" "Ada" with type := some "Person" },
      { labelled "n2" "Prototype chain" with type := some "__proto__" }] []

/-- A document with one node, labelled `constructor`. -/
def docBuiltin : Paper := graphPaper "K" "K title" [labelled "n1" "constructor"] []

/-! ## Concrete documents for the view of two documents and the missing list -/

/-- A completed document whose graph has the nodes `n1` and `n2`, labelled `Apple` and
`apple`, and no field `relationships`. -/
def docNoRelationships : Paper :=
  { id := "N", title := "N title", authors := [], processing_status := "completed",
    knowledge_graph :=
      some { nodes := some [labelled "n1" "Apple", labelled "n2" "apple"],
             relationships := none } }

/-- The duplicate group of `docNoRelationships`. -/
def groupNoRelationships : DuplicateGroup :=
  { label := "apple"
    nodes := [flatten docNoRelationships (labelled "n1" "Apple"),
      flatten docNoRelationships (labelled "n2" "apple")]
    count := 2 }

/-- Document A of a view of two documents: `n1` and `n2`, no relationship. -/
def docCrossA : Paper := graphPaper "A" "A title" [labelled "n1" "One", labelled "n2" "Two"] []

/-- Document B of a view of two documents: `n3`, which points to the id `n1`. -/
def docCrossB : Paper := graphPaper "B" "B title" [labelled "n3" "Three"] [edge "n3" "n1"]

/-! ## Lemmas on `setToArray` -/

theorem setToArray_snoc (l : List String) (t : String) :
    setToArray (l ++ [t]) =
      if t ∈ setToArray l then setToArray l else setToArray l ++ [t] := by
  simp [setToArray, List.foldl_append]

theorem mem_setToArray (l : List String) (t : String) : t ∈ setToArray l ↔ t ∈ l := by
  induction l using List.reverseRecOn with
  | nil => simp [setToArray]
  | append_singleton l a ih =>
    rw [setToArray_snoc]
    by_cases h : a ∈ setToArray l
    · rw [if_pos h]
      constructor
      · intro ht; exact List.mem_append_left _ (ih.mp ht)
      · intro ht
        rcases List.mem_append.mp ht with h1 | h1
        · exact ih.mpr h1
        · have : t = a := by simpa using h1
          rw [this]; exact h
    · rw [if_neg h]
      simp [List.mem_append, ih]

theorem nodup_setToArray (l : List String) : (setToArray l).Nodup := by
  induction l using List.reverseRecOn with
  | nil => simp [setToArray]
  | append_singleton l a ih =>
    rw [setToArray_snoc]
    by_cases h : a ∈ setToArray l
    · rw [if_pos h]; exact ih
    · rw [if_neg h]
      rw [List.nodup_append]
      refine ⟨ih, List.nodup_singleton a, ?_⟩
      intro x hx hx2
      have : x = a := by simpa using hx2
      exact h (this ▸ hx)

theorem setToArray_foldl_nodup (acc l : List String) (h : (acc ++ l).Nodup) :
    l.foldl (fun acc t => if t ∈ acc then acc else acc ++ [t]) acc = acc ++ l := by
  induction l generalizing acc with
  | nil => simp
  | cons a l ih =>
    have ha : a ∉ acc := by
      intro hmem
      have := List.nodup_append.mp h
      exact this.2.2 hmem (List.mem_cons_self a l)
    simp only [List.foldl_cons, if_neg ha]
    rw [ih (acc ++ [a]) (by simpa using h)]
    simp

theorem setToArray_of_nodup (l : List String) (h : l.Nodup) : setToArray l = l := by
  have := setToArray_foldl_nodup [] l (by simpa using h)
  simpa [setToArray] using this

theorem setToArray_setToArray_snoc (l : List String) (t : String) :
    setToArray (setToArray l ++ [t]) = setToArray (l ++ [t]) := by
  rw [setToArray_snoc (setToArray l), setToArray_snoc l,
    setToArray_of_nodup _ (nodup_setToArray l)]

/-! ## The node callback, case by case -/

theorem keyOf_eq_some_iff (node : Node) (k : String) :
    keyOf node = some k ↔ node.label.map toLowerCase = some k ∧ k ≠ "" := by
  unfold keyOf
  cases node.label.map toLowerCase with
  | none => simp
  | some k0 =>
    by_cases hk0 : k0 = ""
    · subst hk0
      simp only [Option.some_bind, if_true, Option.some.injEq]
      constructor
      · intro h; cases h
      · rintro ⟨h1, h2⟩; exact absurd h1.symm h2
    · simp only [Option.some_bind, if_neg hk0, Option.some.injEq]
      constructor
      · intro h; subst h; exact ⟨rfl, hk0⟩
      · rintro ⟨h1, _⟩; exact h1

theorem keyOf_eq_none_iff (node : Node) :
    keyOf node = none ↔
      node.label.map toLowerCase = none ∨ node.label.map toLowerCase = some "" := by
  unfold keyOf
  cases node.label.map toLowerCase with
  | none => simp
  | some k0 =>
    by_cases hk0 : k0 = ""
    · subst hk0; simp
    · simp [hk0]

theorem visitNode_skip (random : Nat → ℚ) (paperId : String) (paper : Paper)
    (st : BuildState) (index : Nat) (node : Node) (hk : keyOf node = none) :
    visitNode random paperId paper st index node = st := by
  unfold visitNode
  rcases (keyOf_eq_none_iff node).mp hk with h | h
  · rw [h]
  · rw [h]; simp

theorem visitNode_seen (random : Nat → ℚ) (paperId : String) (paper : Paper)
    (st : BuildState) (index : Nat) (node : Node) (k : String) (ref : Nat)
    (hk : keyOf node = some k) (hl : st.nodeMap.lookup k = some ref) :
    visitNode random paperId paper st index node =
      { st with allNodes := st.allNodes.modify (mergeInto paper node) ref } := by
  obtain ⟨h1, h2⟩ := (keyOf_eq_some_iff node k).mp hk
  unfold visitNode
  rw [h1]
  simp only [if_neg h2, hl]
  rfl

theorem visitNode_unseen (random : Nat → ℚ) (paperId : String) (paper : Paper)
    (st : BuildState) (index : Nat) (node : Node) (k : String)
    (hk : keyOf node = some k) (hl : st.nodeMap.lookup k = none) :
    visitNode random paperId paper st index node =
      { st with
        allNodes := st.allNodes ++ [newGraphNode random paperId paper st.randomCalls index node]
        nodeMap := st.nodeMap ++ [(k, st.allNodes.length)]
        randomCalls := callsAfter st.randomCalls node } := by
  obtain ⟨h1, h2⟩ := (keyOf_eq_some_iff node k).mp hk
  unfold visitNode
  rw [h1]
  simp only [if_neg h2, hl]
  rfl

/-! ## `nodeMap` as an index of `allNodes` -/

theorem lookup_index_none (gs : List GraphNode) (n : Nat) (k : String)
    (h : ((gs.enumFrom n).map (fun e => (gkey e.2, e.1))).lookup k = none) :
    k ∉ gs.map gkey := by
  induction gs generalizing n with
  | nil => simp
  | cons g gs ih =>
    simp only [List.enumFrom_cons, List.map_cons, List.lookup_cons] at h
    by_cases hkg : k = gkey g
    · subst hkg; simp at h
    · have hb : (k == gkey g) = false := by simpa using hkg
      rw [hb] at h
      have := ih (n + 1) h
      simp only [List.map_cons, List.mem_cons, not_or]
      exact ⟨hkg, this⟩

theorem lookup_index_some (gs : List GraphNode) (n : Nat) (k : String) (i : Nat)
    (h : ((gs.enumFrom n).map (fun e => (gkey e.2, e.1))).lookup k = some i) :
    ∃ pre g post, gs = pre ++ g :: post ∧ i = n + pre.length ∧ gkey g = k := by
  induction gs generalizing n with
  | nil => simp at h
  | cons g gs ih =>
    simp only [List.enumFrom_cons, List.map_cons, List.lookup_cons] at h
    by_cases hkg : k = gkey g
    · subst hkg
      simp only [beq_self_eq_true, Option.some.injEq] at h
      exact ⟨[], g, gs, rfl, by simp [h], rfl⟩
    · have hb : (k == gkey g) = false := by simpa using hkg
      rw [hb] at h
      obtain ⟨pre, g1, post, h1, h2, h3⟩ := ih (n + 1) h
      refine ⟨g :: pre, g1, post, by rw [h1]; rfl, ?_, h3⟩
      simp only [List.length_cons]; omega

theorem modify_at_length {α : Type} (f : α → α) (pre : List α) (a : α) (post : List α) :
    List.modify f pre.length (pre ++ a :: post) = pre ++ f a :: post := by
  induction pre with
  | nil => rfl
  | cons b pre ih => simpa using ih

theorem gkey_mergeInto (paper : Paper) (node : Node) (g : GraphNode) :
    gkey (mergeInto paper node g) = gkey g := rfl

theorem withKey_snoc (k : String) (h : List Visit) (v : Visit) :
    withKey k (h ++ [v]) = withKey k h ++ (if keyOf v.node = some k then [v] else []) := by
  unfold withKey
  rw [List.filter_append]
  by_cases hk : keyOf v.node = some k
  · simp [hk]
  · simp [hk]

theorem index_eq_of_keys (gs : List GraphNode) (n : Nat) :
    (gs.enumFrom n).map (fun e => (gkey e.2, e.1)) =
      ((gs.map gkey).enumFrom n).map (fun e => (e.2, e.1)) := by
  induction gs generalizing n with
  | nil => rfl
  | cons g gs ih => simp [List.enumFrom_cons, ih (n + 1)]

theorem gkey_newGraphNode (random : Nat → ℚ) (paperId : String) (paper : Paper)
    (calls index : Nat) (node : Node) (k : String) (hk : keyOf node = some k) :
    gkey (newGraphNode random paperId paper calls index node) = k := by
  obtain ⟨h1, _⟩ := (keyOf_eq_some_iff node k).mp hk
  show (node.label.map toLowerCase).getD "" = k
  rw [h1]; rfl

theorem withKey_eq_nil_of_not_mem (st : BuildState) (h : List Visit) (k : String)
    (hc : ∀ v ∈ h, ∀ k, keyOf v.node = some k → k ∈ st.allNodes.map gkey)
    (hk : k ∉ st.allNodes.map gkey) : withKey k h = [] := by
  unfold withKey
  rw [List.filter_eq_nil_iff]
  intro v hv
  simp only [decide_eq_true_eq]
  intro hkv
  exact hk (hc v hv k hkv)

theorem Summarises.merge (g : GraphNode) (hk : List Visit) (v : Visit)
    (hs : Summarises g hk) : Summarises (mergeInto v.paper v.node g) (hk ++ [v]) := by
  obtain ⟨w, rest, e, h1, h2, h3, h4, h5, h6, h7, _, h9, h10⟩ := hs
  refine ⟨w, rest ++ [v], by rw [e]; rfl, h1, h2, h3, h4, h5, h6, h7, ?_, ?_, ?_⟩
  · intro hnil
    exact absurd hnil (by simp)
  · show (some (g.source_passages.getD [] ++ v.node.source_passages.getD [])).getD [] = _
    rw [h9, List.flatMap_append]
    simp [Visit.passages]
  · show setToArray (g.papers ++ [v.paper.title]) = _
    rw [h10, List.map_append, List.map_singleton, setToArray_setToArray_snoc]

theorem Summarises.new (random : Nat → ℚ) (calls : Nat) (v : Visit) :
    Summarises (newGraphNode random v.paperId v.paper calls v.index v.node) [v] := by
  refine ⟨v, [], rfl, rfl, rfl, rfl, rfl, rfl, rfl, rfl, fun _ => rfl, ?_, ?_⟩
  · show v.node.source_passages.getD [] = _
    simp [Visit.passages]
  · show [v.paper.title] = _
    simp [setToArray]

/-- The node callback preserves the invariant. -/
theorem inv_visitNode (random : Nat → ℚ) (st : BuildState) (h : List Visit) (v : Visit)
    (hI : Inv st h) : Inv (visitNode random v.paperId v.paper st v.index v.node) (h ++ [v]) := by
  cases hk : keyOf v.node with
  | none =>
    rw [visitNode_skip _ _ _ _ _ _ hk]
    refine ⟨hI.map_eq, hI.key_ne, hI.nodup, ?_, ?_⟩
    · intro w hw k hwk
      rcases List.mem_append.mp hw with hw1 | hw1
      · exact hI.covered w hw1 k hwk
      · have : w = v := by simpa using hw1
        rw [this, hk] at hwk
        cases hwk
    · intro g hg
      rw [withKey_snoc, hk]
      simpa using hI.summ g hg
  | some k =>
    cases hl : st.nodeMap.lookup k with
    | none =>
      rw [visitNode_unseen _ _ _ _ _ _ k hk hl]
      have hnot : k ∉ st.allNodes.map gkey := by
        apply lookup_index_none st.allNodes 0 k
        have := hI.map_eq
        unfold List.enum at this
        rw [← this]; exact hl
      have hgk := gkey_newGraphNode random v.paperId v.paper st.randomCalls v.index v.node k hk
      refine ⟨?_, ?_, ?_, ?_, ?_⟩
      · show st.nodeMap ++ [(k, st.allNodes.length)] = _
        rw [List.enum_append, List.map_append, ← hI.map_eq]
        simp [List.enumFrom, hgk]
      · intro g hg
        rcases List.mem_append.mp hg with hg1 | hg1
        · exact hI.key_ne g hg1
        · have hg2 : g = newGraphNode random v.paperId v.paper st.randomCalls v.index v.node := by
            simpa using hg1
          obtain ⟨h1, h2⟩ := (keyOf_eq_some_iff v.node k).mp hk
          cases hlab : v.node.label with
          | none => rw [hlab] at h1; cases h1
          | some l =>
            rw [hlab] at h1
            simp only [Option.map_some', Option.some.injEq] at h1
            refine ⟨l, ?_, by rw [h1]; exact h2⟩
            rw [hg2]; exact hlab
      · show ((st.allNodes ++ [_]).map gkey).Nodup
        rw [List.map_append, List.nodup_append]
        refine ⟨hI.nodup, by simp, ?_⟩
        intro x hx hx2
        have : x = k := by simpa [hgk] using hx2
        exact hnot (this ▸ hx)
      · intro w hw k1 hwk
        show k1 ∈ (st.allNodes ++ [_]).map gkey
        rw [List.map_append, List.mem_append]
        rcases List.mem_append.mp hw with hw1 | hw1
        · exact Or.inl (hI.covered w hw1 k1 hwk)
        · have hwv : w = v := by simpa using hw1
          rw [hwv, hk] at hwk
          cases hwk
          right; simp [hgk]
      · intro g hg
        rcases List.mem_append.mp hg with hg1 | hg1
        · have hne : k ≠ gkey g := by
            intro e
            exact hnot (e ▸ List.mem_map_of_mem gkey hg1)
          rw [withKey_snoc, hk]
          have : ¬ (some k = some (gkey g)) := by simpa using hne
          rw [if_neg this]
          simpa using hI.summ g hg1
        · have hg2 : g = newGraphNode random v.paperId v.paper st.randomCalls v.index v.node := by
            simpa using hg1
          rw [hg2, hgk, withKey_snoc, hk, if_pos rfl,
            withKey_eq_nil_of_not_mem st h k hI.covered hnot]
          exact Summarises.new random st.randomCalls v
    | some ref =>
      rw [visitNode_seen _ _ _ _ _ _ k ref hk hl]
      have hl2 : ((st.allNodes.enumFrom 0).map (fun e => (gkey e.2, e.1))).lookup k = some ref := by
        have := hI.map_eq
        unfold List.enum at this
        rw [← this]; exact hl
      obtain ⟨pre, g, post, hgs, hi, hgk⟩ := lookup_index_some st.allNodes 0 k ref hl2
      have href : ref = pre.length := by omega
      have hmod : st.allNodes.modify (mergeInto v.paper v.node) ref =
          pre ++ mergeInto v.paper v.node g :: post := by
        rw [hgs, href]; exact modify_at_length _ _ _ _
      have hkeys : (pre ++ mergeInto v.paper v.node g :: post).map gkey = st.allNodes.map gkey := by
        rw [hgs]; simp [gkey_mergeInto]
      have hnd := hI.nodup
      rw [hgs, List.map_append, List.map_cons, hgk] at hnd
      have hpre : ∀ x ∈ pre, gkey x ≠ k := by
        intro x hx e
        have h1 := (List.nodup_append.mp hnd).2.2
        exact h1 (List.mem_map_of_mem gkey hx) (by rw [e]; exact List.mem_cons_self _ _)
      have hpost : ∀ x ∈ post, gkey x ≠ k := by
        intro x hx e
        have h1 := (List.nodup_cons.mp (List.nodup_append.mp hnd).2.1).1
        exact h1 (by rw [← e]; exact List.mem_map_of_mem gkey hx)
      have hother : ∀ x ∈ st.allNodes, gkey x ≠ k →
          Summarises x (withKey (gkey x) (h ++ [v])) := by
        intro x hx hne
        rw [withKey_snoc, hk]
        have : ¬ (some k = some (gkey x)) := by
          intro e; exact hne (Option.some.inj e).symm
        rw [if_neg this]
        simpa using hI.summ x hx
      refine ⟨?_, ?_, ?_, ?_, ?_⟩
      · show st.nodeMap = (List.modify _ ref st.allNodes).enum.map _
        rw [hmod]
        unfold List.enum
        rw [index_eq_of_keys, hkeys, ← index_eq_of_keys]
        exact hI.map_eq
      · intro x hx
        change x ∈ List.modify _ ref st.allNodes at hx
        rw [hmod] at hx
        rcases List.mem_append.mp hx with hx1 | hx1
        · exact hI.key_ne x (by rw [hgs]; exact List.mem_append_left _ hx1)
        · rcases List.mem_cons.mp hx1 with hx2 | hx2
          · rw [hx2]
            exact hI.key_ne g (by rw [hgs]; simp)
          · exact hI.key_ne x (by rw [hgs]; simp [hx2])
      · show ((List.modify _ ref st.allNodes).map gkey).Nodup
        rw [hmod, hkeys]; exact hI.nodup
      · intro w hw k1 hwk
        show k1 ∈ (List.modify _ ref st.allNodes).map gkey
        rw [hmod, hkeys]
        rcases List.mem_append.mp hw with hw1 | hw1
        · exact hI.covered w hw1 k1 hwk
        · have hwv : w = v := by simpa using hw1
          rw [hwv, hk] at hwk
          cases hwk
          rw [hgs]; simp [hgk]
      · intro x hx
        change x ∈ List.modify _ ref st.allNodes at hx
        rw [hmod] at hx
        rcases List.mem_append.mp hx with hx1 | hx1
        · exact hother x (by rw [hgs]; exact List.mem_append_left _ hx1) (hpre x hx1)
        · rcases List.mem_cons.mp hx1 with hx2 | hx2
          · rw [hx2, gkey_mergeInto, hgk, withKey_snoc, hk, if_pos rfl]
            have := hI.summ g (by rw [hgs]; simp)
            rw [hgk] at this
            exact Summarises.merge g _ v this
          · exact hother x (by rw [hgs]; simp [hx2]) (hpost x hx2)

/-! ## The invariant along the folds -/

theorem inv_congr (st st1 : BuildState) (h : List Visit) (hI : Inv st h)
    (hn : st1.allNodes = st.allNodes) (hm : st1.nodeMap = st.nodeMap) :
    Inv st1 h := by
  refine ⟨?_, ?_, ?_, ?_, ?_⟩
  · rw [hn, hm]; exact hI.map_eq
  · rw [hn]; exact hI.key_ne
  · rw [hn]; exact hI.nodup
  · rw [hn]; exact hI.covered
  · rw [hn]; exact hI.summ

theorem inv_init : Inv BuildState.init [] := by
  refine ⟨rfl, ?_, ?_, ?_, ?_⟩
  · intro g hg; cases hg
  · exact List.nodup_nil
  · intro v hv; cases hv
  · intro g hg; cases hg

theorem inv_nodes_fold (random : Nat → ℚ) (paperId : String) (paper : Paper)
    (nodes : List Node) (n : Nat) (st : BuildState) (h : List Visit) (hI : Inv st h) :
    Inv ((nodes.enumFrom n).foldl (fun s e => visitNode random paperId paper s e.1 e.2) st)
      (h ++ (nodes.enumFrom n).map (fun e => ⟨paperId, paper, e.1, e.2⟩)) := by
  induction nodes generalizing n st h with
  | nil => simpa using hI
  | cons node nodes ih =>
    simp only [List.enumFrom_cons, List.foldl_cons, List.map_cons]
    have h1 := inv_visitNode random st h ⟨paperId, paper, n, node⟩ hI
    have h2 := ih (n + 1) _ _ h1
    simpa [List.append_assoc] using h2

theorem rels_fold (paperId : String) (paper : Paper) (rels : List Relationship) (n : Nat)
    (st : BuildState) :
    (rels.enumFrom n).foldl (fun s e => visitRelationship paperId paper s e.1 e.2) st =
      { st with allRelationships := st.allRelationships ++
          (rels.enumFrom n).map (fun e => newGraphRelationship paperId paper e.1 e.2) } := by
  induction rels generalizing n st with
  | nil => simp
  | cons rel rels ih =>
    simp only [List.enumFrom_cons, List.foldl_cons, List.map_cons]
    rw [ih (n + 1)]
    simp [visitRelationship, newGraphRelationship]

theorem visitNode_allRelationships (random : Nat → ℚ) (paperId : String) (paper : Paper)
    (st : BuildState) (index : Nat) (node : Node) :
    (visitNode random paperId paper st index node).allRelationships = st.allRelationships := by
  cases hk : keyOf node with
  | none => rw [visitNode_skip _ _ _ _ _ _ hk]
  | some k =>
    cases hl : st.nodeMap.lookup k with
    | none => rw [visitNode_unseen _ _ _ _ _ _ k hk hl]
    | some ref => rw [visitNode_seen _ _ _ _ _ _ k ref hk hl]

theorem nodes_fold_allRelationships (random : Nat → ℚ) (paperId : String) (paper : Paper)
    (es : List (Nat × Node)) (st : BuildState) :
    (es.foldl (fun s e => visitNode random paperId paper s e.1 e.2) st).allRelationships =
      st.allRelationships := by
  induction es generalizing st with
  | nil => rfl
  | cons e es ih =>
    simp only [List.foldl_cons]
    rw [ih, visitNode_allRelationships]

theorem buildCombinedGraph_nodes (random : Nat → ℚ) (completed : List Paper)
    (sel : List String) :
    (buildCombinedGraph random completed sel).nodes = (finalState random completed sel).allNodes := by
  unfold buildCombinedGraph finalState
  cases sel with
  | nil => rfl
  | cons a sel => simp

theorem buildCombinedGraph_relationships (random : Nat → ℚ) (completed : List Paper)
    (sel : List String) :
    (buildCombinedGraph random completed sel).relationships =
      (finalState random completed sel).allRelationships := by
  unfold buildCombinedGraph finalState
  cases sel with
  | nil => rfl
  | cons a sel => simp

theorem selectedGraphs_cons (completed : List Paper) (paperId : String) (sel : List String) :
    selectedGraphs completed (paperId :: sel) =
      (match completed.find? (fun p => p.id == paperId) with
        | none => []
        | some paper =>
          match paper.knowledge_graph with
          | none => []
          | some kg => [(paperId, paper, kg)]) ++ selectedGraphs completed sel := by
  unfold selectedGraphs
  rw [List.filterMap_cons]
  cases completed.find? (fun p => p.id == paperId) with
  | none => simp
  | some paper =>
    cases hkg : paper.knowledge_graph with
    | none => simp [hkg]
    | some kg => simp [hkg]

theorem inv_visitPaper (random : Nat → ℚ) (completed : List Paper) (paperId : String)
    (st : BuildState) (h : List Visit) (hI : Inv st h) :
    Inv (visitPaper random completed st paperId) (h ++ visits completed [paperId]) := by
  unfold visitPaper visits
  rw [selectedGraphs_cons]
  cases completed.find? (fun p => p.id == paperId) with
  | none => simpa [selectedGraphs] using hI
  | some paper =>
    cases hkg : paper.knowledge_graph with
    | none => simpa [selectedGraphs, hkg] using hI
    | some kg =>
      simp only [selectedGraphs, List.filterMap_nil, List.append_nil, List.flatMap_cons,
        List.flatMap_nil, hkg]
      unfold List.enum
      rw [rels_fold]
      have h1 := inv_nodes_fold random paperId paper (kg.nodes.getD []) 0 st h hI
      exact inv_congr _ _ _ h1 rfl rfl

theorem visits_cons (completed : List Paper) (paperId : String) (sel : List String) :
    visits completed (paperId :: sel) = visits completed [paperId] ++ visits completed sel := by
  unfold visits
  rw [selectedGraphs_cons, selectedGraphs_cons completed paperId []]
  simp [selectedGraphs]

theorem inv_papers_fold (random : Nat → ℚ) (completed : List Paper) (sel : List String)
    (st : BuildState) (h : List Visit) (hI : Inv st h) :
    Inv (sel.foldl (visitPaper random completed) st) (h ++ visits completed sel) := by
  induction sel generalizing st h with
  | nil => simpa [visits, selectedGraphs] using hI
  | cons paperId sel ih =>
    rw [List.foldl_cons, visits_cons, ← List.append_assoc]
    exact ih _ _ (inv_visitPaper random completed paperId st h hI)

/-- The invariant holds of the locals at the end of a run, for all visits of the run. -/
theorem inv_final (random : Nat → ℚ) (completed : List Paper) (sel : List String) :
    Inv (finalState random completed sel) (visits completed sel) := by
  have := inv_papers_fold random completed sel BuildState.init [] inv_init
  simpa [finalState] using this

/-! ## Relationships along the folds -/

theorem visitPaper_allRelationships (random : Nat → ℚ) (completed : List Paper)
    (st : BuildState) (paperId : String) :
    (visitPaper random completed st paperId).allRelationships =
      st.allRelationships ++ (selectedGraphs completed [paperId]).flatMap paperRelationships := by
  unfold visitPaper
  rw [selectedGraphs_cons]
  cases completed.find? (fun p => p.id == paperId) with
  | none => simp [selectedGraphs]
  | some paper =>
    cases hkg : paper.knowledge_graph with
    | none => simp [selectedGraphs, hkg]
    | some kg =>
      simp only [selectedGraphs, List.filterMap_nil, List.append_nil, List.flatMap_cons,
        List.flatMap_nil, hkg]
      unfold List.enum
      rw [rels_fold]
      show (List.foldl _ st _).allRelationships ++ _ = _
      rw [nodes_fold_allRelationships]
      rfl

theorem papers_fold_allRelationships (random : Nat → ℚ) (completed : List Paper)
    (sel : List String) (st : BuildState) :
    (sel.foldl (visitPaper random completed) st).allRelationships =
      st.allRelationships ++ (selectedGraphs completed sel).flatMap paperRelationships := by
  induction sel generalizing st with
  | nil => simp [selectedGraphs]
  | cons paperId sel ih =>
    rw [List.foldl_cons, ih, visitPaper_allRelationships, selectedGraphs_cons completed paperId sel,
      selectedGraphs_cons completed paperId []]
    simp [selectedGraphs, List.flatMap_append]

theorem finalState_allRelationships (random : Nat → ℚ) (completed : List Paper)
    (sel : List String) :
    (finalState random completed sel).allRelationships =
      (selectedGraphs completed sel).flatMap paperRelationships := by
  unfold finalState
  rw [papers_fold_allRelationships]
  rfl

/-! ## Order of `setToArray` -/

theorem pairwise_setToArray (l : List String) :
    (setToArray l).Pairwise (fun a b => l.indexOf a < l.indexOf b) := by
  induction l using List.reverseRecOn with
  | nil => simp [setToArray]
  | append_singleton l t ih =>
    have hS : (setToArray l).Pairwise
        (fun a b => (l ++ [t]).indexOf a < (l ++ [t]).indexOf b) := by
      refine List.Pairwise.imp_of_mem ?_ ih
      intro a b ha hb hab
      rw [List.indexOf_append_of_mem ((mem_setToArray l a).mp ha),
        List.indexOf_append_of_mem ((mem_setToArray l b).mp hb)]
      exact hab
    rw [setToArray_snoc]
    by_cases h : t ∈ setToArray l
    · rw [if_pos h]; exact hS
    · rw [if_neg h, List.pairwise_append]
      refine ⟨hS, List.pairwise_singleton _ _, ?_⟩
      intro a ha b hb
      have hbt : b = t := by simpa using hb
      have hal : a ∈ l := (mem_setToArray l a).mp ha
      have htl : t ∉ l := fun ht => h ((mem_setToArray l t).mpr ht)
      rw [hbt, List.indexOf_append_of_mem hal, List.indexOf_append_of_not_mem htl]
      have := List.indexOf_lt_length.mpr hal
      omega

/-! ## Properties of the combined graph -/

/-- Claim C3. Every node of the combined graph carries, as `source_passages`, the
concatenation in processing order of the `source_passages` of all visited nodes of the
selected documents filed under its key (a missing list counting as empty, nothing
being removed), so their number is the sum of the passage counts of those nodes. -/
theorem source_passages_accumulated (random : Nat → ℚ) (completed : List Paper)
    (selectedPaperIds : List String) :
    ∀ g ∈ (buildCombinedGraph random completed selectedPaperIds).nodes,
      g.source_passages.getD [] =
          ((visits completed selectedPaperIds).filter
            (fun v => decide (keyOf v.node = some (gkey g)))).flatMap
            (fun v => v.node.source_passages.getD []) ∧
        (g.source_passages.getD []).length =
          (((visits completed selectedPaperIds).filter
            (fun v => decide (keyOf v.node = some (gkey g)))).map
            (fun v => (v.node.source_passages.getD []).length)).sum := by
  intro g hg
  rw [buildCombinedGraph_nodes] at hg
  obtain ⟨w, rest, _, _, _, _, _, _, _, _, _, h9, _⟩ :=
    (inv_final random completed selectedPaperIds).summ g hg
  have h : g.source_passages.getD [] =
      ((visits completed selectedPaperIds).filter
        (fun v => decide (keyOf v.node = some (gkey g)))).flatMap
        (fun v => v.node.source_passages.getD []) := h9
  refine ⟨h, ?_⟩
  rw [h, List.length_flatMap]
  rfl

/-- Claim C4. The `papers` list of every node of the combined graph is the
order-preserving set union of the titles of the documents that contributed a node
under its key: no title occurs twice, a title occurs exactly when a visited node with
that key belongs to a document of that title, and titles stand in the order in which
they first contributed. -/
theorem papers_ordered_union (random : Nat → ℚ) (completed : List Paper)
    (selectedPaperIds : List String) :
    ∀ g ∈ (buildCombinedGraph random completed selectedPaperIds).nodes,
      g.papers.Nodup ∧
      (∀ t, t ∈ g.papers ↔
        ∃ v ∈ visits completed selectedPaperIds,
          keyOf v.node = some (gkey g) ∧ v.paper.title = t) ∧
      g.papers.Pairwise (fun a b =>
        (((visits completed selectedPaperIds).filter
            (fun v => decide (keyOf v.node = some (gkey g)))).map
            (fun v => v.paper.title)).indexOf a <
        (((visits completed selectedPaperIds).filter
            (fun v => decide (keyOf v.node = some (gkey g)))).map
            (fun v => v.paper.title)).indexOf b) := by
  intro g hg
  rw [buildCombinedGraph_nodes] at hg
  obtain ⟨w, rest, _, _, _, _, _, _, _, _, _, _, h10⟩ :=
    (inv_final random completed selectedPaperIds).summ g hg
  have h : g.papers = setToArray
      (((visits completed selectedPaperIds).filter
        (fun v => decide (keyOf v.node = some (gkey g)))).map (fun v => v.paper.title)) := h10
  refine ⟨?_, ?_, ?_⟩
  · rw [h]; exact nodup_setToArray _
  · intro t
    rw [h, mem_setToArray, List.mem_map]
    constructor
    · rintro ⟨v, hv, rfl⟩
      rw [List.mem_filter] at hv
      exact ⟨v, hv.1, by simpa using hv.2, rfl⟩
    · rintro ⟨v, hv, hk, rfl⟩
      exact ⟨v, List.mem_filter.mpr ⟨hv, by simpa using hk⟩, rfl⟩
  · rw [h]; exact pairwise_setToArray _

/-- Claim C5. The relationships of the combined graph are the concatenation, in
processing order, of the relationship lists of the selected documents that have a
knowledge graph: each keeps its `source_id`, `target_id` and `type`, carries
`paper_id` and `paper_title` of its document, and the total is the sum of the lengths. -/
theorem relationships_concatenated (random : Nat → ℚ) (completed : List Paper)
    (selectedPaperIds : List String) :
    (buildCombinedGraph random completed selectedPaperIds).relationships.map
        (fun r => (r.source_id, r.target_id, r.type, r.paper_id, r.paper_title)) =
      (selectedGraphs completed selectedPaperIds).flatMap (fun t =>
        (t.2.2.relationships.getD []).map
          (fun r => (r.source_id, r.target_id, r.type, t.2.1.id, t.2.1.title))) ∧
    (buildCombinedGraph random completed selectedPaperIds).relationships.length =
      ((selectedGraphs completed selectedPaperIds).map
        (fun t => (t.2.2.relationships.getD []).length)).sum := by
  rw [buildCombinedGraph_relationships, finalState_allRelationships]
  constructor
  · rw [List.map_flatMap]
    congr 1
    funext t
    unfold paperRelationships List.enum
    generalize 0 = n
    induction t.2.2.relationships.getD [] generalizing n with
    | nil => rfl
    | cons r rs ih =>
      rw [List.enumFrom_cons, List.map_cons, List.map_cons, List.map_cons, ih (n + 1)]
      rfl
  · rw [List.length_flatMap]
    congr 1
    apply List.map_congr_left
    intro t _
    simp [paperRelationships]

/-- The combined graph has exactly one node for each key under which a visited node
is filed, and every node of the combined graph has a label whose lowercase form is
not empty. -/
theorem one_node_per_key (random : Nat → ℚ) (completed : List Paper)
    (selectedPaperIds : List String) :
    ((buildCombinedGraph random completed selectedPaperIds).nodes.map gkey).Nodup ∧
    (∀ k, k ∈ (buildCombinedGraph random completed selectedPaperIds).nodes.map gkey ↔
      ∃ v ∈ visits completed selectedPaperIds, keyOf v.node = some k) ∧
    ∀ g ∈ (buildCombinedGraph random completed selectedPaperIds).nodes,
      ∃ l, g.label = some l ∧ toLowerCase l ≠ "" := by
  have hI := inv_final random completed selectedPaperIds
  rw [buildCombinedGraph_nodes]
  refine ⟨hI.nodup, ?_, hI.key_ne⟩
  intro k
  constructor
  · intro hk
    obtain ⟨g, hg, hgk⟩ := List.mem_map.mp hk
    obtain ⟨v, rest, e, _⟩ := hI.summ g hg
    have hv : v ∈ withKey (gkey g) (visits completed selectedPaperIds) := by rw [e]; simp
    have := List.mem_filter.mp hv
    exact ⟨v, this.1, by rw [← hgk]; simpa using this.2⟩
  · rintro ⟨v, hv, hk⟩
    exact hI.covered v hv k hk

/-! ## First occurrence wins -/

theorem setToArray_foldl_prefix (acc l : List String) :
    ∃ tl, l.foldl (fun acc t => if t ∈ acc then acc else acc ++ [t]) acc = acc ++ tl := by
  induction l generalizing acc with
  | nil => exact ⟨[], by simp⟩
  | cons a l ih =>
    simp only [List.foldl_cons]
    by_cases h : a ∈ acc
    · rw [if_pos h]; exact ih acc
    · rw [if_neg h]
      obtain ⟨tl, htl⟩ := ih (acc ++ [a])
      exact ⟨a :: tl, by rw [htl]; simp⟩

theorem setToArray_cons_head (a : String) (l : List String) :
    (setToArray (a :: l)).head? = some a := by
  obtain ⟨tl, htl⟩ := setToArray_foldl_prefix [a] l
  have : setToArray (a :: l) = [a] ++ tl := by
    rw [← htl]; simp [setToArray]
  rw [this]; rfl

theorem filter_key_singleton (gs : List GraphNode) (k : String) (g : GraphNode)
    (hnd : (gs.map gkey).Nodup) (hg : g ∈ gs) (hk : gkey g = k) :
    gs.filter (fun x => decide (gkey x = k)) = [g] := by
  induction gs with
  | nil => cases hg
  | cons a gs ih =>
    rw [List.map_cons, List.nodup_cons] at hnd
    rcases List.mem_cons.mp hg with h1 | h1
    · subst h1
      have hrest : gs.filter (fun x => decide (gkey x = k)) = [] := by
        rw [List.filter_eq_nil_iff]
        intro x hx
        simp only [decide_eq_true_eq]
        intro hxk
        exact hnd.1 (by rw [hk, ← hxk]; exact List.mem_map_of_mem gkey hx)
      rw [List.filter_cons, hrest]
      simp [hk]
    · have ha : gkey a ≠ k := by
        intro hak
        exact hnd.1 (by rw [hak, ← hk]; exact List.mem_map_of_mem gkey h1)
      rw [List.filter_cons]
      simp only [ha, decide_False, Bool.false_eq_true, if_false]
      exact ih hnd.2 h1

theorem withKey_append (k : String) (a b : List Visit) :
    withKey k (a ++ b) = withKey k a ++ withKey k b := by
  unfold withKey; exact List.filter_append _ _

theorem withKey_cons_pos (k : String) (v : Visit) (b : List Visit)
    (h : keyOf v.node = some k) : withKey k (v :: b) = v :: withKey k b := by
  unfold withKey; rw [List.filter_cons]; simp [h]

/-- Claim C2, as amended. For selected documents none of whose labels carries
leading or trailing white space (the combiner's key, the lowercased label, then
is the normalized label): when `v` is the first visited node with the non-empty
normalized label `k`, the combined graph has exactly one node with that normalized
label; it has the id of `v` when that is a non-empty string and the generated id
`node-<paperId>-<index>` otherwise, the label, type and properties of `v`, the
`paper_id` and `paper_title` of the document of `v`, and a `papers` list that
starts with that document's title (and is exactly that title when no later node has
the same normalized label).  No later node replaces these fields. -/
theorem first_occurrence_wins (random : Nat → ℚ) (completed : List Paper)
    (selectedPaperIds : List String)
    (hTrim : ∀ w ∈ visits completed selectedPaperIds,
      w.node.label.map normalize = w.node.label.map toLowerCase)
    (pre post : List Visit) (v : Visit) (k : String)
    (hsplit : visits completed selectedPaperIds = pre ++ v :: post)
    (hk : v.node.label.map normalize = some k) (hne : k ≠ "")
    (hfirst : ∀ w ∈ pre, w.node.label.map normalize ≠ some k) :
    ∃ g, (buildCombinedGraph random completed selectedPaperIds).nodes.filter
          (fun x => decide (x.label.map normalize = some k)) = [g] ∧
      g.id = strOr v.node.id ("node-" ++ v.paperId ++ "-" ++ toString v.index) ∧
      g.label = v.node.label ∧ g.type = v.node.type ∧ g.properties = v.node.properties ∧
      g.paper_id = v.paper.id ∧ g.paper_title = v.paper.title ∧
      g.papers.head? = some v.paper.title ∧
      ((∀ w ∈ post, w.node.label.map normalize ≠ some k) → g.papers = [v.paper.title]) := by
  have hI := inv_final random completed selectedPaperIds
  rw [buildCombinedGraph_nodes]
  have hvmem : v ∈ visits completed selectedPaperIds := by rw [hsplit]; simp
  -- on visited nodes the key is the normalized label
  have hkey : ∀ w ∈ visits completed selectedPaperIds,
      (keyOf w.node = some k ↔ w.node.label.map normalize = some k) := by
    intro w hw
    rw [keyOf_eq_some_iff, hTrim w hw]
    exact ⟨fun h => h.1, fun h => ⟨h, hne⟩⟩
  have hvk : keyOf v.node = some k := (hkey v hvmem).mpr hk
  have hcov := hI.covered v hvmem k hvk
  obtain ⟨g, hg, hgk⟩ := List.mem_map.mp hcov
  have hpre : withKey k pre = [] := by
    unfold withKey
    rw [List.filter_eq_nil_iff]
    intro w hw
    simp only [decide_eq_true_eq]
    intro hwk
    exact hfirst w hw ((hkey w (by rw [hsplit]; exact List.mem_append_left _ hw)).mp hwk)
  have hwith : withKey k (visits completed selectedPaperIds) = v :: withKey k post := by
    rw [hsplit, withKey_append, hpre, List.nil_append, withKey_cons_pos k v post hvk]
  obtain ⟨w, rest, e, h1, h2, h3, h4, _, h6, h7, _, _, h10⟩ := hI.summ g hg
  rw [hgk, hwith] at e h10
  obtain ⟨hw, hrest⟩ := List.cons.inj e
  subst hw
  -- the output nodes with normalized label `k` are those with key `k`
  have hfilter : (finalState random completed selectedPaperIds).allNodes.filter
        (fun x => decide (x.label.map normalize = some k)) =
      (finalState random completed selectedPaperIds).allNodes.filter
        (fun x => decide (gkey x = k)) := by
    apply List.filter_congr
    intro x hx
    obtain ⟨l, hl, _⟩ := hI.key_ne x hx
    obtain ⟨w, rest, ex, _, hx2, _⟩ := hI.summ x hx
    have hwmem : w ∈ visits completed selectedPaperIds := by
      have : w ∈ withKey (gkey x) (visits completed selectedPaperIds) := by rw [ex]; simp
      exact (List.mem_filter.mp this).1
    have hT := hTrim w hwmem
    rw [← hx2, hl] at hT
    have hgx : gkey x = toLowerCase l := by unfold gkey; rw [hl]; rfl
    simp only [Option.map_some', Option.some.injEq] at hT
    rw [hl, hgx]
    simp only [Option.map_some', Option.some.injEq, hT]
  refine ⟨g, ?_, h1, h2, h3, h4, h6, h7, ?_, ?_⟩
  · rw [hfilter]
    exact filter_key_singleton _ k g hI.nodup hg hgk
  · rw [h10, List.map_cons]
    exact setToArray_cons_head _ _
  · intro hpost
    have hp : withKey k post = [] := by
      unfold withKey
      rw [List.filter_eq_nil_iff]
      intro w hw
      simp only [decide_eq_true_eq]
      intro hwk
      exact hpost w hw
        ((hkey w (by rw [hsplit]; exact List.mem_append_right _ (List.mem_cons_of_mem _ hw))).mp hwk)
    rw [h10, hp]
    simp [setToArray]

/-! ## The combiner on concrete documents -/

/-- Claim C1, evaluated on the scenario of the specification: the labels `Apple` and
` apple ` have the same normalized label `apple`, yet the combined graph of documents
A and B, selected in that order, has two nodes, with `papers` equal to `[A title]` and
`[B title]`: the combiner files nodes under the lowercased label without trimming it. -/
theorem combined_scenario_keeps_both_nodes :
    normalize "Apple" = "apple" ∧ normalize " apple " = "apple" ∧
    (buildCombinedGraph (fun _ => 0) [docA, docB] ["A", "B"]).nodes.map
        (fun g => (g.id, g.label, g.papers)) =
      [("n1", some "Apple", ["A title"]), ("n2", some " apple ", ["B title"])] := by
  decide

/-- Claim C2 as stated fails where the first node has no id: of two nodes labelled
`Apple`, the first without id, the combined graph keeps one node, made from the first,
whose id is the generated `node-P-0`, not the (missing) id of that first node. -/
theorem first_occurrence_id_generated :
    (buildCombinedGraph (fun _ => 0) [docNoId, docBTrimmed] ["P", "B"]).nodes.map
        (fun g => (g.id, g.label, g.paper_id, g.papers)) =
      [("node-P-0", some "Apple", "P", ["P title", "B title"])] ∧
    ¬ (∀ g ∈ (buildCombinedGraph (fun _ => 0) [docNoId, docBTrimmed] ["P", "B"]).nodes,
        some g.id = (plainNode none (some "Apple")).id) := by
  decide

/-- The amended claim C2 on documents A and B (trimmed), selected in that order. -/
theorem first_occurrence_wins_witness :
    (∀ w ∈ visits [docA, docBTrimmed] ["A", "B"],
      w.node.label.map normalize = w.node.label.map toLowerCase) ∧
    visits [docA, docBTrimmed] ["A", "B"] =
      [] ++ ⟨"A", docA, 0, plainNode (some "n1") (some "Apple")⟩ ::
        [⟨"B", docBTrimmed, 0, plainNode (some "n2") (some "apple")⟩] ∧
    (plainNode (some "n1") (some "Apple")).label.map normalize = some "apple" ∧
    "apple" ≠ "" ∧
    (∀ w ∈ ([] : List Visit), w.node.label.map normalize ≠ some "apple") ∧
    ∃ g, (buildCombinedGraph (fun _ => 0) [docA, docBTrimmed] ["A", "B"]).nodes.filter
          (fun x => decide (x.label.map normalize = some "apple")) = [g] ∧
      g.id = strOr (some "n1") ("node-" ++ "A" ++ "-" ++ toString 0) ∧
      g.label = some "Apple" ∧ g.type = none ∧ g.properties = [] ∧
      g.paper_id = "A" ∧ g.paper_title = "A title" ∧
      g.papers.head? = some "A title" ∧
      ((∀ w ∈ [(⟨"B", docBTrimmed, 0, plainNode (some "n2") (some "apple")⟩ : Visit)],
          w.node.label.map normalize ≠ some "apple") → g.papers = ["A title"]) :=
  ⟨by decide, by decide, by decide, by decide, by decide,
    first_occurrence_wins (fun _ => 0) [docA, docBTrimmed] ["A", "B"] (by decide)
      [] [⟨"B", docBTrimmed, 0, plainNode (some "n2") (some "apple")⟩]
      ⟨"A", docA, 0, plainNode (some "n1") (some "Apple")⟩ "apple"
      (by decide) (by decide) (by decide) (by decide)⟩

/-- Claim C6, evaluated on a label made of spaces: its normalized label is empty,
yet the node is kept in the combined graph. -/
theorem blank_label_node_kept :
    normalize "  " = "" ∧
    (buildCombinedGraph (fun _ => 0) [docBlank] ["C"]).nodes.map
        (fun g => (g.id, g.label, g.label.map normalize)) =
      [("n1", some "  ", some "")] := by
  decide

/-! ## Documents that contribute nothing -/

theorem find_remove_of_false (p : Paper → Bool) (A B : List Paper) (d : Paper)
    (h : p d = false) : (A ++ d :: B).find? p = (A ++ B).find? p := by
  rw [List.find?_append, List.find?_append, List.find?_cons, h]

theorem find_eq_none_of_forall (p : Paper → Bool) (L : List Paper)
    (h : ∀ q ∈ L, p q = false) : L.find? p = none := by
  rw [List.find?_eq_none]
  intro q hq
  rw [h q hq]; simp

theorem visitPaper_remove (random : Nat → ℚ) (A B : List Paper) (d : Paper)
    (sel : List String)
    (hd : d.id ∉ sel ∨ (d.knowledge_graph = none ∧ ∀ q ∈ A ++ B, q.id ≠ d.id))
    (paperId : String) (hp : paperId ∈ sel) (st : BuildState) :
    visitPaper random (A ++ d :: B) st paperId = visitPaper random (A ++ B) st paperId := by
  by_cases hid : d.id = paperId
  · rcases hd with h1 | ⟨h1, h2⟩
    · exact absurd (hid ▸ hp) h1
    · have hA : A.find? (fun p => p.id == paperId) = none := by
        apply find_eq_none_of_forall
        intro q hq
        have := h2 q (List.mem_append_left _ hq)
        rw [hid] at this
        simpa using this
      have hB : B.find? (fun p => p.id == paperId) = none := by
        apply find_eq_none_of_forall
        intro q hq
        have := h2 q (List.mem_append_right _ hq)
        rw [hid] at this
        simpa using this
      have hdp : (d.id == paperId) = true := by simpa using hid
      unfold visitPaper
      rw [List.find?_append, List.find?_append, hA, hB, List.find?_cons]
      simp only [hdp, Option.none_or, h1]
  · have hdp : (fun p : Paper => p.id == paperId) d = false := by simpa using hid
    unfold visitPaper
    rw [find_remove_of_false _ A B d hdp]

theorem foldl_visitPaper_remove (random : Nat → ℚ) (A B : List Paper) (d : Paper)
    (sel : List String)
    (hd : d.id ∉ sel ∨ (d.knowledge_graph = none ∧ ∀ q ∈ A ++ B, q.id ≠ d.id))
    (l : List String) (hl : ∀ x ∈ l, x ∈ sel) (st : BuildState) :
    l.foldl (visitPaper random (A ++ d :: B)) st = l.foldl (visitPaper random (A ++ B)) st := by
  induction l generalizing st with
  | nil => rfl
  | cons a l ih =>
    rw [List.foldl_cons, List.foldl_cons,
      visitPaper_remove random A B d sel hd a (hl a (List.mem_cons_self a l)) st]
    exact ih (fun x hx => hl x (List.mem_cons_of_mem a hx)) _

theorem buildCombinedGraph_remove (random : Nat → ℚ) (A B : List Paper) (d : Paper)
    (sel : List String)
    (hd : d.id ∉ sel ∨ (d.knowledge_graph = none ∧ ∀ q ∈ A ++ B, q.id ≠ d.id)) :
    buildCombinedGraph random (A ++ d :: B) sel = buildCombinedGraph random (A ++ B) sel := by
  unfold buildCombinedGraph
  rw [foldl_visitPaper_remove random A B d sel hd sel (fun _ h => h)]

theorem completedPapers_append (A B : List Paper) :
    completedPapers (A ++ B) = completedPapers A ++ completedPapers B := by
  unfold completedPapers; exact List.filter_append _ _

theorem mem_completedPapers (q : Paper) (L : List Paper) (h : q ∈ completedPapers L) : q ∈ L :=
  (List.mem_filter.mp h).1

/-- Claim C7. A document that is not selected, or that has no `knowledge_graph`,
contributes nothing: removing it from the list of documents (whose ids are
distinct) leaves the combined graph unchanged; and the empty selection gives the
empty graph. -/
theorem unselected_or_graphless_contributes_nothing (random : Nat → ℚ)
    (pre post : List Paper) (d : Paper) (selectedPaperIds : List String)
    (hids : ((pre ++ d :: post).map (fun p => p.id)).Nodup)
    (hd : d.id ∉ selectedPaperIds ∨ d.knowledge_graph = none) :
    buildCombinedGraph random (completedPapers (pre ++ d :: post)) selectedPaperIds =
        buildCombinedGraph random (completedPapers (pre ++ post)) selectedPaperIds ∧
      buildCombinedGraph random (completedPapers (pre ++ d :: post)) [] =
        { nodes := [], relationships := [] } := by
  refine ⟨?_, rfl⟩
  have hne : ∀ q ∈ pre ++ post, q.id ≠ d.id := by
    intro q hq e
    rw [List.map_append, List.map_cons, List.nodup_append] at hids
    rcases List.mem_append.mp hq with h1 | h1
    · exact hids.2.2 (List.mem_map_of_mem (fun p => p.id) h1)
        (by rw [e]; exact List.mem_cons_self _ _)
    · have := (List.nodup_cons.mp hids.2.1).1
      exact this (by rw [← e]; exact List.mem_map_of_mem (fun p => p.id) h1)
  rw [completedPapers_append, completedPapers_append]
  by_cases hc : d.processing_status = "completed"
  · have : completedPapers (d :: post) = d :: completedPapers post := by
      unfold completedPapers; rw [List.filter_cons]; simp [hc]
    rw [this]
    apply buildCombinedGraph_remove
    rcases hd with h | h
    · exact Or.inl h
    · refine Or.inr ⟨h, ?_⟩
      intro q hq
      apply hne
      rcases List.mem_append.mp hq with h1 | h1
      · exact List.mem_append_left _ (mem_completedPapers q pre h1)
      · exact List.mem_append_right _ (mem_completedPapers q post h1)
  · have : completedPapers (d :: post) = completedPapers post := by
      unfold completedPapers; rw [List.filter_cons]; simp [hc]
    rw [this]

/-- Claim C7 on documents A and B with only A selected: B can be removed. -/
theorem unselected_or_graphless_contributes_nothing_witness :
    (([docA] ++ docB :: []).map (fun p => p.id)).Nodup ∧
    (docB.id ∉ ["A"] ∨ docB.knowledge_graph = none) ∧
    (buildCombinedGraph (fun _ => 0) (completedPapers ([docA] ++ docB :: [])) ["A"] =
        buildCombinedGraph (fun _ => 0) (completedPapers ([docA] ++ [])) ["A"] ∧
      buildCombinedGraph (fun _ => 0) (completedPapers ([docA] ++ docB :: [])) [] =
        { nodes := [], relationships := [] }) :=
  ⟨by decide, by decide,
    unselected_or_graphless_contributes_nothing (fun _ => 0) [docA] [] docB ["A"]
      (by decide) (by decide)⟩

/-! ## Two runs of the combiner -/

theorem map_modify_comm {α : Type} (e f : α → α) (hc : ∀ x, e (f x) = f (e x))
    (l : List α) (i : Nat) :
    (List.modify f i l).map e = List.modify f i (l.map e) := by
  induction l generalizing i with
  | nil => cases i <;> rfl
  | cons a l ih =>
    cases i with
    | zero => simp [hc]
    | succ i => simp [ih i]

theorem erasePosition_mergeInto (paper : Paper) (node : Node) (g : GraphNode) :
    erasePosition (mergeInto paper node g) = mergeInto paper node (erasePosition g) := rfl

theorem erasePosition_newGraphNode (r1 r2 : Nat → ℚ) (paperId : String) (paper : Paper)
    (c1 c2 index : Nat) (node : Node) :
    erasePosition (newGraphNode r1 paperId paper c1 index node) =
      erasePosition (newGraphNode r2 paperId paper c2 index node) := rfl

theorem sameButPositions_visitNode (r1 r2 : Nat → ℚ) (paperId : String) (paper : Paper)
    (s1 s2 : BuildState) (index : Nat) (node : Node) (h : SameButPositions s1 s2) :
    SameButPositions (visitNode r1 paperId paper s1 index node)
      (visitNode r2 paperId paper s2 index node) := by
  obtain ⟨hn, hm, hr⟩ := h
  cases hk : keyOf node with
  | none => rw [visitNode_skip _ _ _ _ _ _ hk, visitNode_skip _ _ _ _ _ _ hk]; exact ⟨hn, hm, hr⟩
  | some k =>
    cases hl : s1.nodeMap.lookup k with
    | none =>
      rw [visitNode_unseen _ _ _ _ _ _ k hk hl, visitNode_unseen _ _ _ _ _ _ k hk (hm ▸ hl)]
      have hlen : s1.allNodes.length = s2.allNodes.length := by
        have := congrArg List.length hn
        simpa using this
      refine ⟨?_, ?_, hr⟩
      · show (s1.allNodes ++ [_]).map erasePosition = (s2.allNodes ++ [_]).map erasePosition
        rw [List.map_append, List.map_append, hn, List.map_singleton, List.map_singleton,
          erasePosition_newGraphNode r1 r2 paperId paper s1.randomCalls s2.randomCalls]
      · show s1.nodeMap ++ [(k, s1.allNodes.length)] = s2.nodeMap ++ [(k, s2.allNodes.length)]
        rw [hm, hlen]
    | some ref =>
      rw [visitNode_seen _ _ _ _ _ _ k ref hk hl, visitNode_seen _ _ _ _ _ _ k ref hk (hm ▸ hl)]
      refine ⟨?_, hm, hr⟩
      show (List.modify _ ref s1.allNodes).map erasePosition =
        (List.modify _ ref s2.allNodes).map erasePosition
      rw [map_modify_comm _ _ (erasePosition_mergeInto paper node),
        map_modify_comm _ _ (erasePosition_mergeInto paper node), hn]

theorem sameButPositions_nodes_fold (r1 r2 : Nat → ℚ) (paperId : String) (paper : Paper)
    (es : List (Nat × Node)) (s1 s2 : BuildState) (h : SameButPositions s1 s2) :
    SameButPositions (es.foldl (fun s e => visitNode r1 paperId paper s e.1 e.2) s1)
      (es.foldl (fun s e => visitNode r2 paperId paper s e.1 e.2) s2) := by
  induction es generalizing s1 s2 with
  | nil => exact h
  | cons e es ih =>
    simp only [List.foldl_cons]
    exact ih _ _ (sameButPositions_visitNode r1 r2 paperId paper s1 s2 e.1 e.2 h)

theorem sameButPositions_visitPaper (r1 r2 : Nat → ℚ) (completed : List Paper)
    (s1 s2 : BuildState) (paperId : String) (h : SameButPositions s1 s2) :
    SameButPositions (visitPaper r1 completed s1 paperId) (visitPaper r2 completed s2 paperId) := by
  unfold visitPaper
  cases completed.find? (fun p => p.id == paperId) with
  | none => exact h
  | some paper =>
    dsimp only
    cases hkg : paper.knowledge_graph with
    | none => exact h
    | some kg =>
      dsimp only
      unfold List.enum
      rw [rels_fold, rels_fold]
      obtain ⟨hn, hm, hr⟩ :=
        sameButPositions_nodes_fold r1 r2 paperId paper (List.enumFrom 0 (kg.nodes.getD [])) s1 s2 h
      exact ⟨hn, hm, by show _ ++ _ = _ ++ _; rw [hr]⟩

theorem sameButPositions_papers_fold (r1 r2 : Nat → ℚ) (completed : List Paper)
    (sel : List String) (s1 s2 : BuildState) (h : SameButPositions s1 s2) :
    SameButPositions (sel.foldl (visitPaper r1 completed) s1)
      (sel.foldl (visitPaper r2 completed) s2) := by
  induction sel generalizing s1 s2 with
  | nil => exact h
  | cons a sel ih =>
    simp only [List.foldl_cons]
    exact ih _ _ (sameButPositions_visitPaper r1 r2 completed s1 s2 a h)

/-- Claim C10. Two runs of `buildCombinedGraph` on the same documents and selection,
whatever `Math.random` returns in each, give node lists that are equal in length,
order and every field but `x` and `y` (generated ids, `source_passages` and `papers`
included), and equal relationship lists. -/
theorem combine_idempotent (random1 random2 : Nat → ℚ) (completed : List Paper)
    (selectedPaperIds : List String) :
    (buildCombinedGraph random1 completed selectedPaperIds).nodes.map erasePosition =
        (buildCombinedGraph random2 completed selectedPaperIds).nodes.map erasePosition ∧
      (buildCombinedGraph random1 completed selectedPaperIds).relationships =
        (buildCombinedGraph random2 completed selectedPaperIds).relationships := by
  rw [buildCombinedGraph_nodes, buildCombinedGraph_nodes, buildCombinedGraph_relationships,
    buildCombinedGraph_relationships]
  obtain ⟨hn, _, hr⟩ := sameButPositions_papers_fold random1 random2 completed selectedPaperIds
    BuildState.init BuildState.init ⟨rfl, rfl, rfl⟩
  exact ⟨hn, hr⟩

/-! ## Layout -/

/-- Claim C9, evaluated on document A alone, whose node has no stored position: a run
in which `Math.random` returns 0 places the node at (100, 100), a run in which it
returns 1/2 places it at (400, 300), and `renderGraph` keeps these coordinates,
whatever the circle is. -/
theorem layout_depends_on_random :
    (buildCombinedGraph (fun _ => 0) [docA] ["A"]).nodes.map (fun g => (g.x, g.y)) =
      [(100, 100)] ∧
    (buildCombinedGraph (fun _ => 1 / 2) [docA] ["A"]).nodes.map (fun g => (g.x, g.y)) =
      [(400, 300)] ∧
    ∀ circleX circleY : Nat → Nat → ℚ,
      (positionedNodes circleX circleY
          (buildCombinedGraph (fun _ => 1 / 2) [docA] ["A"]).nodes).map
        (fun g => (g.x, g.y)) = [(400, 300)] := by
  have hA : ∀ random : Nat → ℚ, (buildCombinedGraph random [docA] ["A"]).nodes.map
      (fun g => (g.x, g.y)) = [(random 0 * 600 + 100, random 1 * 400 + 100)] := by
    intro random
    rfl
  have h1 : (buildCombinedGraph (fun _ => 0) [docA] ["A"]).nodes.map (fun g => (g.x, g.y)) =
      [(100, 100)] := by rw [hA]; norm_num
  have h2 : (buildCombinedGraph (fun _ => 1 / 2) [docA] ["A"]).nodes.map
      (fun g => (g.x, g.y)) = [(400, 300)] := by rw [hA]; norm_num
  refine ⟨h1, h2, ?_⟩
  intro circleX circleY
  have hn : (buildCombinedGraph (fun _ => 1 / 2) [docA] ["A"]).nodes =
      [newGraphNode (fun _ => 1 / 2) "A" docA 0 0 (plainNode (some "n1") (some "Apple"))] := rfl
  rw [hn]
  simp only [positionedNodes, List.take, List.enum, List.enumFrom, List.map, newGraphNode,
    positionCoord, plainNode, Option.bind, Option.getD]
  norm_num

/-! ## The frame of a run on the heap -/

theorem mem_of_lookup_eq_some (m : List (String × Nat)) (k : String) (r : Nat)
    (h : m.lookup k = some r) : (k, r) ∈ m := by
  induction m with
  | nil => simp at h
  | cons e m ih =>
    obtain ⟨k1, r1⟩ := e
    rw [List.lookup_cons] at h
    by_cases hk : k = k1
    · subst hk
      simp only [beq_self_eq_true, Option.some.injEq] at h
      subst h
      exact List.mem_cons_self _ _
    · have hb : (k == k1) = false := by simpa using hk
      rw [hb] at h
      exact List.mem_cons_of_mem _ (ih h)

theorem frame_visitNodeRef (random : Nat → ℚ) (paperId : String) (paper : HeapPaper)
    (h0 : Heap) (st : HeapState) (index nodeRef : Nat) (hF : Frame h0 st) :
    Frame h0 (visitNodeRef random paperId paper st index nodeRef) := by
  unfold visitNodeRef
  cases st.heap.objects[nodeRef]? with
  | none => exact hF
  | some node =>
    dsimp only
    cases node.label.map toLowerCase with
    | none => exact hF
    | some nodeKey =>
      dsimp only
      by_cases hk : nodeKey = ""
      · rw [if_pos hk]; exact hF
      · rw [if_neg hk]
        cases hl : st.nodeMap.lookup nodeKey with
        | some existingRef =>
          dsimp only
          cases st.heap.objects[existingRef]? with
          | none => exact hF
          | some existingNode =>
            dsimp only
            have hfresh := hF.fresh _ (mem_of_lookup_eq_some _ _ _ hl)
            refine ⟨?_, ?_, ?_, ?_, hF.fresh⟩
            · simpa using hF.objects_le
            · have := hF.arrays_le
              simp only [List.length_append, List.length_singleton]
              omega
            · intro a ha
              have hne : existingRef ≠ a := by
                intro e
                have : h0.objects.length ≤ a := e ▸ hfresh
                omega
              simp only
              rw [List.getElem?_set_ne hne]
              exact hF.objects_eq a ha
            · intro b hb
              have hlt : b < st.heap.arrays.length := lt_of_lt_of_le hb hF.arrays_le
              simp only
              rw [List.getElem?_append_left hlt]
              exact hF.arrays_eq b hb
        | none =>
          dsimp only
          refine ⟨?_, hF.arrays_le, ?_, hF.arrays_eq, ?_⟩
          · have := hF.objects_le
            simp only [List.length_append, List.length_singleton]
            omega
          · intro a ha
            have hlt : a < st.heap.objects.length := lt_of_lt_of_le ha hF.objects_le
            simp only
            rw [List.getElem?_append_left hlt]
            exact hF.objects_eq a ha
          · intro e he
            rcases List.mem_append.mp he with h1 | h1
            · exact hF.fresh e h1
            · have : e = (nodeKey, st.heap.objects.length) := by simpa using h1
              rw [this]; exact hF.objects_le

theorem frame_nodes_fold (random : Nat → ℚ) (paperId : String) (paper : HeapPaper)
    (h0 : Heap) (es : List (Nat × Nat)) (st : HeapState) (hF : Frame h0 st) :
    Frame h0 (es.foldl (fun s e => visitNodeRef random paperId paper s e.1 e.2) st) := by
  induction es generalizing st with
  | nil => exact hF
  | cons e es ih =>
    simp only [List.foldl_cons]
    exact ih _ (frame_visitNodeRef random paperId paper h0 st e.1 e.2 hF)

theorem frame_relationships_fold (paperId : String) (paper : HeapPaper)
    (h0 : Heap) (es : List (Nat × Relationship)) (st : HeapState) (hF : Frame h0 st) :
    Frame h0 (es.foldl (fun s e => visitRelationshipRef paperId paper s e.1 e.2) st) := by
  induction es generalizing st with
  | nil => exact hF
  | cons e es ih =>
    simp only [List.foldl_cons]
    exact ih _ ⟨hF.objects_le, hF.arrays_le, hF.objects_eq, hF.arrays_eq, hF.fresh⟩

theorem frame_visitPaperRef (random : Nat → ℚ) (completed : List HeapPaper)
    (h0 : Heap) (st : HeapState) (paperId : String) (hF : Frame h0 st) :
    Frame h0 (visitPaperRef random completed st paperId) := by
  unfold visitPaperRef
  cases completed.find? (fun p => p.id == paperId) with
  | none => exact hF
  | some paper =>
    dsimp only
    cases paper.knowledge_graph with
    | none => exact hF
    | some kg =>
      dsimp only
      exact frame_relationships_fold paperId paper h0 _ _
        (frame_nodes_fold random paperId paper h0 _ st hF)

theorem frame_papers_fold (random : Nat → ℚ) (completed : List HeapPaper)
    (h0 : Heap) (sel : List String) (st : HeapState) (hF : Frame h0 st) :
    Frame h0 (sel.foldl (visitPaperRef random completed) st) := by
  induction sel generalizing st with
  | nil => exact hF
  | cons a sel ih =>
    simp only [List.foldl_cons]
    exact ih _ (frame_visitPaperRef random completed h0 st a hF)

theorem frame_buildCombinedGraphOnHeap (random : Nat → ℚ) (h : Heap)
    (completed : List HeapPaper) (sel : List String) :
    Frame h (buildCombinedGraphOnHeap random h completed sel) := by
  have h0 : Frame h
      { heap := h, allNodes := [], allRelationships := [], nodeMap := [], randomCalls := 0 } :=
    ⟨le_refl _, le_refl _, fun _ _ => rfl, fun _ _ => rfl, fun e he => by cases he⟩
  unfold buildCombinedGraphOnHeap
  by_cases hs : sel.length = 0
  · rw [if_pos hs]; exact h0
  · rw [if_neg hs]; exact frame_papers_fold random completed h sel _ h0

theorem take_eq_of_getElem? {α : Type} (l0 l : List α) (hle : l0.length ≤ l.length)
    (h : ∀ a, a < l0.length → l[a]? = l0[a]?) : l.take l0.length = l0 := by
  apply List.ext_getElem?
  intro a
  by_cases ha : a < l0.length
  · rw [List.getElem?_take_of_lt ha]; exact h a ha
  · have h1 : l0[a]? = none := List.getElem?_eq_none (by omega)
    have h2 : (l.take l0.length)[a]? = none := by
      apply List.getElem?_eq_none
      rw [List.length_take]
      omega
    rw [h1, h2]

/-- Claim C8. `buildCombinedGraph` has no side effect on its inputs: after a run
started on any heap, every node object and every passage array that was on the heap
before the run (the nodes of all documents and their `source_passages` among them) is
still there with the same content in every field; what the run writes to, also when it
accumulates nodes with the same key into a primary, are objects and arrays it has
allocated itself. -/
theorem inputs_not_modified (random : Nat → ℚ) (h : Heap) (completed : List HeapPaper)
    (selectedPaperIds : List String) :
    (buildCombinedGraphOnHeap random h completed selectedPaperIds).heap.objects.take
        h.objects.length = h.objects ∧
      (buildCombinedGraphOnHeap random h completed selectedPaperIds).heap.arrays.take
        h.arrays.length = h.arrays := by
  have hF := frame_buildCombinedGraphOnHeap random h completed selectedPaperIds
  exact ⟨take_eq_of_getElem? _ _ hF.objects_le hF.objects_eq,
    take_eq_of_getElem? _ _ hF.arrays_le hF.arrays_eq⟩

/-! ## The combiner on documents X and Y -/

theorem mergedXY_mem :
    mergedXY ∈ (buildCombinedGraph (fun _ => 0) [docX, docY] ["X", "Y"]).nodes :=
  List.mem_singleton.mpr rfl

/-- Claim C3 on documents X and Y: the combined node carries three passages. -/
theorem source_passages_accumulated_witness :
    mergedXY ∈ (buildCombinedGraph (fun _ => 0) [docX, docY] ["X", "Y"]).nodes ∧
    (mergedXY.source_passages.getD [] =
          ((visits [docX, docY] ["X", "Y"]).filter
            (fun v => decide (keyOf v.node = some (gkey mergedXY)))).flatMap
            (fun v => v.node.source_passages.getD []) ∧
        (mergedXY.source_passages.getD []).length =
          (((visits [docX, docY] ["X", "Y"]).filter
            (fun v => decide (keyOf v.node = some (gkey mergedXY)))).map
            (fun v => (v.node.source_passages.getD []).length)).sum) :=
  ⟨mergedXY_mem,
    source_passages_accumulated (fun _ => 0) [docX, docY] ["X", "Y"] mergedXY mergedXY_mem⟩

/-- Claim C4 on documents X and Y: the combined node lists both titles, X first. -/
theorem papers_ordered_union_witness :
    mergedXY ∈ (buildCombinedGraph (fun _ => 0) [docX, docY] ["X", "Y"]).nodes ∧
    (mergedXY.papers.Nodup ∧
      (∀ t, t ∈ mergedXY.papers ↔
        ∃ v ∈ visits [docX, docY] ["X", "Y"],
          keyOf v.node = some (gkey mergedXY) ∧ v.paper.title = t) ∧
      mergedXY.papers.Pairwise (fun a b =>
        (((visits [docX, docY] ["X", "Y"]).filter
            (fun v => decide (keyOf v.node = some (gkey mergedXY)))).map
            (fun v => v.paper.title)).indexOf a <
        (((visits [docX, docY] ["X", "Y"]).filter
            (fun v => decide (keyOf v.node = some (gkey mergedXY)))).map
            (fun v => v.paper.title)).indexOf b)) :=
  ⟨mergedXY_mem,
    papers_ordered_union (fun _ => 0) [docX, docY] ["X", "Y"] mergedXY mergedXY_mem⟩

/-! ## The run on the heap computes the run on values -/

theorem passagesAt_append (arrays X : List (List Passage)) (a : Nat)
    (ha : a < arrays.length) : passagesAt (arrays ++ X) a = passagesAt arrays a := by
  unfold passagesAt
  rw [List.getElem?_append_left ha]

theorem storedView_append (arrays X : List (List Passage)) (o : HeapNode)
    (hv : ValidRef arrays o) : storedView (arrays ++ X) o = storedView arrays o := by
  unfold storedView
  cases hsp : o.source_passages with
  | none => rfl
  | some a => simp only [Option.map_some', passagesAt_append arrays X a (hv a hsp)]

theorem graphView_append (arrays X : List (List Passage)) (o : HeapNode)
    (hv : ValidRef arrays o) : graphView (arrays ++ X) o = graphView arrays o := by
  unfold graphView
  cases hsp : o.source_passages with
  | none => rfl
  | some a => simp only [Option.map_some', passagesAt_append arrays X a (hv a hsp)]

theorem validRef_append (arrays X : List (List Passage)) (o : HeapNode)
    (hv : ValidRef arrays o) : ValidRef (arrays ++ X) o := by
  intro a ha
  have := hv a ha
  rw [List.length_append]
  omega

theorem viewsAs_append (arrays X : List (List Passage)) (o : HeapNode) (g : GraphNode)
    (h : ViewsAs arrays o g) : ViewsAs (arrays ++ X) o g :=
  ⟨by rw [graphView_append arrays X o h.2]; exact h.1, validRef_append arrays X o h.2⟩

theorem lookup_map_shift (m : List (String × Nat)) (n : Nat) (k : String) :
    (m.map (fun e => (e.1, n + e.2))).lookup k = (m.lookup k).map (fun i => n + i) := by
  induction m with
  | nil => rfl
  | cons e m ih =>
    obtain ⟨k1, i1⟩ := e
    simp only [List.map_cons, List.lookup_cons]
    cases (k == k1) with
    | true => rfl
    | false => exact ih

theorem forall₂_set {α β : Type} (R : α → β → Prop) (l1 : List α) (l2 : List β)
    (i : Nat) (a : α) (b : β) (h : List.Forall₂ R l1 l2) (hab : R a b) :
    List.Forall₂ R (l1.set i a) (l2.set i b) := by
  induction h generalizing i with
  | nil => exact List.Forall₂.nil
  | cons hxy _ ih =>
    cases i with
    | zero => exact List.Forall₂.cons hab (by assumption)
    | succ i => exact List.Forall₂.cons hxy (ih i)

theorem forall₂_getElem? {α β : Type} (R : α → β → Prop) (l1 : List α) (l2 : List β)
    (i : Nat) (b : β) (h : List.Forall₂ R l1 l2) (hb : l2[i]? = some b) :
    ∃ a, l1[i]? = some a ∧ R a b := by
  induction h generalizing i with
  | nil => simp at hb
  | cons hxy _ ih =>
    cases i with
    | zero =>
      simp only [List.getElem?_cons_zero, Option.some.injEq] at hb
      subst hb
      exact ⟨_, List.getElem?_cons_zero, hxy⟩
    | succ i =>
      simp only [List.getElem?_cons_succ] at hb
      simpa using ih i hb

theorem visitNodeRef_skip (random : Nat → ℚ) (paperId : String) (paper : HeapPaper)
    (hs : HeapState) (index r : Nat) (o : HeapNode) (ho : hs.heap.objects[r]? = some o)
    (hk : o.label.map toLowerCase = none ∨ o.label.map toLowerCase = some "") :
    visitNodeRef random paperId paper hs index r = hs := by
  unfold visitNodeRef
  rw [ho]
  rcases hk with h | h
  · simp only [h]
  · simp only [h, if_true]

theorem visitNodeRef_seen (random : Nat → ℚ) (paperId : String) (paper : HeapPaper)
    (hs : HeapState) (index r : Nat) (o : HeapNode) (k : String) (eref : Nat)
    (eo : HeapNode) (ho : hs.heap.objects[r]? = some o)
    (hk1 : o.label.map toLowerCase = some k) (hk2 : k ≠ "")
    (hl : hs.nodeMap.lookup k = some eref) (he : hs.heap.objects[eref]? = some eo) :
    visitNodeRef random paperId paper hs index r =
      { hs with
        heap :=
          { objects := hs.heap.objects.set eref (mergedHeapNode paper hs.heap.arrays.length eo)
            arrays := hs.heap.arrays ++
              [hs.heap.passagesOf eo.source_passages ++ hs.heap.passagesOf o.source_passages] } } := by
  unfold visitNodeRef
  rw [ho]
  simp only [hk1, if_neg hk2, hl, he]
  rfl

theorem visitNodeRef_unseen (random : Nat → ℚ) (paperId : String) (paper : HeapPaper)
    (hs : HeapState) (index r : Nat) (o : HeapNode) (k : String)
    (ho : hs.heap.objects[r]? = some o)
    (hk1 : o.label.map toLowerCase = some k) (hk2 : k ≠ "")
    (hl : hs.nodeMap.lookup k = none) :
    visitNodeRef random paperId paper hs index r =
      { hs with
        heap := { hs.heap with objects := hs.heap.objects ++
          [newHeapNode random paperId paper hs.randomCalls index o] }
        allNodes := hs.allNodes ++ [hs.heap.objects.length]
        nodeMap := hs.nodeMap ++ [(k, hs.heap.objects.length)]
        randomCalls := callsAfter hs.randomCalls (storedView hs.heap.arrays o) } := by
  unfold visitNodeRef
  rw [ho]
  simp only [hk1, if_neg hk2, hl]
  rfl

theorem passagesOf_eq (h : Heap) (o : HeapNode) :
    h.passagesOf o.source_passages = (o.source_passages.map (passagesAt h.arrays)).getD [] := by
  unfold Heap.passagesOf passagesAt
  cases o.source_passages <;> rfl

theorem graphView_newHeapNode (random : Nat → ℚ) (paperId : String) (paper : HeapPaper)
    (h0 : Heap) (arrays : List (List Passage)) (calls index : Nat) (o : HeapNode) :
    graphView arrays (newHeapNode random paperId paper calls index o) =
      some (newGraphNode random paperId (h0.viewPaper paper) calls index (storedView arrays o)) :=
  rfl

theorem graphView_mergedHeapNode (paper : HeapPaper) (h0 : Heap)
    (arrays : List (List Passage)) (eo o : HeapNode) (e : GraphNode)
    (he : graphView arrays eo = some e) :
    graphView
        (arrays ++ [(eo.source_passages.map (passagesAt arrays)).getD [] ++
          (o.source_passages.map (passagesAt arrays)).getD []])
        (mergedHeapNode paper arrays.length eo) =
      some (mergeInto (h0.viewPaper paper) (storedView arrays o) e) := by
  unfold graphView at he
  unfold graphView mergedHeapNode
  cases h1 : eo.id with
  | none => rw [h1] at he; simp at he
  | some id =>
    cases h2 : eo.x with
    | none => rw [h1, h2] at he; simp at he
    | some x =>
      cases h3 : eo.y with
      | none => rw [h1, h2, h3] at he; simp at he
      | some y =>
        cases h4 : eo.paper_id with
        | none => rw [h1, h2, h3, h4] at he; simp at he
        | some pid =>
          cases h5 : eo.paper_title with
          | none => rw [h1, h2, h3, h4, h5] at he; simp at he
          | some pt =>
            cases h6 : eo.papers with
            | none => rw [h1, h2, h3, h4, h5, h6] at he; simp at he
            | some ps =>
              rw [h1, h2, h3, h4, h5, h6] at he
              simp only [Option.some.injEq] at he
              subst he
              simp only [Option.map_some', passagesAt, List.getElem?_concat_length,
                Option.getD_some, mergeInto, storedView, Heap.viewPaper]

theorem sim_visitNode (random : Nat → ℚ) (paperId : String) (paper : HeapPaper)
    (h0 : Heap) (hs : HeapState) (st : BuildState) (index r : Nat) (node : Node)
    (hS : Sim h0 hs st) (hin : InputView h0 r node) :
    Sim h0 (visitNodeRef random paperId paper hs index r)
      (visitNode random paperId (h0.viewPaper paper) st index node) := by
  obtain ⟨o, ho, hview, hvalid⟩ := hin
  obtain ⟨G, hobj, hG, hall⟩ := hS.objs
  obtain ⟨A, harr⟩ := hS.arrs
  have hr : r < h0.objects.length := by
    by_contra hge
    rw [List.getElem?_eq_none (by omega)] at ho
    cases ho
  have ho1 : hs.heap.objects[r]? = some o := by
    rw [hobj, List.getElem?_append_left hr]; exact ho
  have hvalid1 : ValidRef hs.heap.arrays o := by
    rw [harr]; exact validRef_append _ _ _ hvalid
  have hview1 : storedView hs.heap.arrays o = node := by
    rw [harr, storedView_append _ _ _ hvalid]; exact hview
  have hlabel : o.label = node.label := by rw [← hview]; rfl
  have hlen : G.length = st.allNodes.length := hG.length_eq
  cases hk : keyOf node with
  | none =>
    rw [visitNode_skip _ _ _ _ _ _ hk,
      visitNodeRef_skip random paperId paper hs index r o ho1
        (by rw [hlabel]; exact (keyOf_eq_none_iff node).mp hk)]
    exact hS
  | some k =>
    obtain ⟨hk1, hk2⟩ := (keyOf_eq_some_iff node k).mp hk
    have hk1o : o.label.map toLowerCase = some k := by rw [hlabel]; exact hk1
    cases hl : st.nodeMap.lookup k with
    | none =>
      have hlh : hs.nodeMap.lookup k = none := by
        rw [hS.map, lookup_map_shift, hl]; rfl
      rw [visitNode_unseen _ _ _ _ _ _ k hk hl,
        visitNodeRef_unseen random paperId paper hs index r o k ho1 hk1o hk2 hlh]
      refine ⟨⟨G ++ [newHeapNode random paperId paper hs.randomCalls index o], ?_, ?_, ?_⟩,
        ⟨A, harr⟩, ?_, ?_, hS.rels, ?_⟩
      · show hs.heap.objects ++ [_] = _
        rw [hobj, List.append_assoc]
      · show List.Forall₂ (ViewsAs hs.heap.arrays) _ (st.allNodes ++ [_])
        refine List.rel_append hG (List.Forall₂.cons ⟨?_, ?_⟩ List.Forall₂.nil)
        · rw [graphView_newHeapNode random paperId paper h0, hview1, hS.calls]
        · intro a ha
          exact hvalid1 a ha
      · show hs.allNodes ++ [hs.heap.objects.length] = _
        rw [hall, hobj, List.length_append, List.length_append, List.length_singleton,
          List.range'_concat]
        simp
      · show hs.nodeMap ++ [(k, hs.heap.objects.length)] =
          (st.nodeMap ++ [(k, st.allNodes.length)]).map _
        rw [List.map_append, ← hS.map, hobj, List.length_append, hlen]
        rfl
      · intro e he
        show e.2 < (st.allNodes ++ [_]).length
        rw [List.length_append, List.length_singleton]
        rcases List.mem_append.mp he with h1 | h1
        · have := hS.idx e h1
          omega
        · have : e = (k, st.allNodes.length) := by simpa using h1
          rw [this]
          simp
      · show callsAfter hs.randomCalls (storedView hs.heap.arrays o) = callsAfter st.randomCalls node
        rw [hview1, hS.calls]
    | some i =>
      have hi : i < st.allNodes.length := hS.idx (k, i) (mem_of_lookup_eq_some _ _ _ hl)
      have hlh : hs.nodeMap.lookup k = some (h0.objects.length + i) := by
        rw [hS.map, lookup_map_shift, hl]; rfl
      obtain ⟨e, he⟩ : ∃ e, st.allNodes[i]? = some e := ⟨st.allNodes[i], List.getElem?_eq_getElem hi⟩
      obtain ⟨eo, heo, hR⟩ := forall₂_getElem? _ G st.allNodes i e hG he
      have heo1 : hs.heap.objects[h0.objects.length + i]? = some eo := by
        rw [hobj, List.getElem?_append_right (by omega)]
        simpa using heo
      rw [visitNode_seen _ _ _ _ _ _ k i hk hl,
        visitNodeRef_seen random paperId paper hs index r o k _ eo ho1 hk1o hk2 hlh heo1]
      have hmod : st.allNodes.modify (mergeInto (h0.viewPaper paper) node) i =
          st.allNodes.set i (mergeInto (h0.viewPaper paper) node e) := by
        rw [List.modify_eq_set_get?, List.get?_eq_getElem?, he]
        rfl
      refine ⟨⟨G.set i (mergedHeapNode paper hs.heap.arrays.length eo), ?_, ?_, ?_⟩,
        ⟨A ++ [hs.heap.passagesOf eo.source_passages ++ hs.heap.passagesOf o.source_passages],
          ?_⟩, hS.map, ?_, hS.rels, hS.calls⟩
      · show hs.heap.objects.set _ _ = _
        rw [hobj, List.set_append_right _ _ (by omega)]
        simp
      · show List.Forall₂ (ViewsAs (hs.heap.arrays ++ [_])) _ (List.modify _ i st.allNodes)
        rw [hmod]
        apply forall₂_set
        · exact hG.imp (fun a b hab => viewsAs_append _ _ a b hab)
        · refine ⟨?_, ?_⟩
          · rw [passagesOf_eq, passagesOf_eq,
              graphView_mergedHeapNode paper h0 hs.heap.arrays eo o e hR.1, hview1]
          · intro a ha
            have : a = hs.heap.arrays.length := by
              have h1 : (mergedHeapNode paper hs.heap.arrays.length eo).source_passages =
                  some hs.heap.arrays.length := rfl
              rw [h1] at ha
              exact (Option.some.inj ha).symm
            rw [this, List.length_append, List.length_singleton]
            omega
      · show hs.allNodes = _
        rw [List.length_set]; exact hall
      · show hs.heap.arrays ++ [_] = _
        rw [harr, List.append_assoc]
      · intro e1 he1
        show e1.2 < (List.modify _ i st.allNodes).length
        rw [List.length_modify]
        exact hS.idx e1 he1

theorem sim_nodes_fold (random : Nat → ℚ) (paperId : String) (paper : HeapPaper)
    (h0 : Heap) (refs : List Nat) (nodes : List Node)
    (hin : List.Forall₂ (InputView h0) refs nodes) (n : Nat)
    (hs : HeapState) (st : BuildState) (hS : Sim h0 hs st) :
    Sim h0
      ((refs.enumFrom n).foldl (fun s e => visitNodeRef random paperId paper s e.1 e.2) hs)
      ((nodes.enumFrom n).foldl
        (fun s e => visitNode random paperId (h0.viewPaper paper) s e.1 e.2) st) := by
  induction hin generalizing n hs st with
  | nil => exact hS
  | cons hrn _ ih =>
    simp only [List.enumFrom_cons, List.foldl_cons]
    exact ih (n + 1) _ _ (sim_visitNode random paperId paper h0 hs st n _ _ hS hrn)

theorem sim_relationships_fold (paperId : String) (paper : HeapPaper) (h0 : Heap)
    (es : List (Nat × Relationship)) (hs : HeapState) (st : BuildState) (hS : Sim h0 hs st) :
    Sim h0 (es.foldl (fun s e => visitRelationshipRef paperId paper s e.1 e.2) hs)
      (es.foldl (fun s e => visitRelationship paperId (h0.viewPaper paper) s e.1 e.2) st) := by
  induction es generalizing hs st with
  | nil => exact hS
  | cons e es ih =>
    simp only [List.foldl_cons]
    apply ih
    refine ⟨hS.objs, hS.arrs, hS.map, hS.idx, ?_, hS.calls⟩
    show hs.allRelationships ++ [_] = st.allRelationships ++ [_]
    rw [hS.rels]
    rfl

theorem inputView_of_wellFormed (h0 : Heap) (refs : List Nat)
    (hv : ∀ o ∈ h0.objects, ValidRef h0.arrays o)
    (hr : ∀ r ∈ refs, r < h0.objects.length) :
    List.Forall₂ (InputView h0) refs (refs.filterMap h0.storedNode) := by
  induction refs with
  | nil => exact List.Forall₂.nil
  | cons r refs ih =>
    have hlt : r < h0.objects.length := hr r (List.mem_cons_self r refs)
    have ho : h0.objects[r]? = some h0.objects[r] := List.getElem?_eq_getElem hlt
    have hs : h0.storedNode r = some (storedView h0.arrays h0.objects[r]) := by
      unfold Heap.storedNode; rw [ho]; rfl
    rw [List.filterMap_cons_some hs]
    refine List.Forall₂.cons ⟨h0.objects[r], ho, rfl, hv _ (List.getElem_mem hlt)⟩ ?_
    exact ih (fun x hx => hr x (List.mem_cons_of_mem r hx))

theorem sim_visitPaper (random : Nat → ℚ) (h0 : Heap) (completed : List HeapPaper)
    (hwf : WellFormed h0 completed) (paperId : String)
    (hs : HeapState) (st : BuildState) (hS : Sim h0 hs st) :
    Sim h0 (visitPaperRef random completed hs paperId)
      (visitPaper random (completed.map h0.viewPaper) st paperId) := by
  unfold visitPaperRef visitPaper
  rw [List.find?_map]
  have hcomp : ((fun p : Paper => p.id == paperId) ∘ h0.viewPaper) =
      (fun p : HeapPaper => p.id == paperId) := rfl
  rw [hcomp]
  cases hf : completed.find? (fun p => p.id == paperId) with
  | none => exact hS
  | some paper =>
    have hmem : paper ∈ completed := List.mem_of_find?_eq_some hf
    cases hkg : paper.knowledge_graph with
    | none =>
      simp only [Option.map_some', Heap.viewPaper, hkg, Option.map_none']
      exact hS
    | some kg =>
      have hview : (h0.viewPaper paper).knowledge_graph =
          some { nodes := kg.nodes.map (fun refs => refs.filterMap h0.storedNode)
                 relationships := kg.relationships } := by
        unfold Heap.viewPaper; rw [hkg]; rfl
      simp only [Option.map_some', hview, hkg]
      unfold List.enum
      apply sim_relationships_fold
      cases hn : kg.nodes with
      | none => exact hS
      | some refs =>
        simp only [Option.map_some', Option.getD_some]
        apply sim_nodes_fold
        · exact inputView_of_wellFormed h0 refs hwf.1 (hwf.2 paper hmem kg hkg refs hn)
        · exact hS

theorem sim_papers_fold (random : Nat → ℚ) (h0 : Heap) (completed : List HeapPaper)
    (hwf : WellFormed h0 completed) (sel : List String)
    (hs : HeapState) (st : BuildState) (hS : Sim h0 hs st) :
    Sim h0 (sel.foldl (visitPaperRef random completed) hs)
      (sel.foldl (visitPaper random (completed.map h0.viewPaper)) st) := by
  induction sel generalizing hs st with
  | nil => exact hS
  | cons a sel ih =>
    simp only [List.foldl_cons]
    exact ih _ _ (sim_visitPaper random h0 completed hwf a hs st hS)

theorem map_graphView_of_forall₂ (arrays : List (List Passage)) (G : List HeapNode)
    (L : List GraphNode) (h : List.Forall₂ (ViewsAs arrays) G L) :
    G.map (graphView arrays) = L.map some := by
  induction h with
  | nil => rfl
  | cons hab _ ih => rw [List.map_cons, List.map_cons, hab.1, ih]

/-- The run on the heap computes the run on values: on a well-formed heap, the node
objects the run allocates are, in order and read through the final heap, the nodes of
the combined graph of the documents the heap documents stand for; `allNodes` lists
their addresses and the relationships are the same. -/
theorem buildCombinedGraphOnHeap_refines (random : Nat → ℚ) (h : Heap)
    (completed : List HeapPaper) (selectedPaperIds : List String)
    (hwf : WellFormed h completed) :
    ((buildCombinedGraphOnHeap random h completed selectedPaperIds).heap.objects.drop
          h.objects.length).map
        (graphView (buildCombinedGraphOnHeap random h completed selectedPaperIds).heap.arrays) =
      (buildCombinedGraph random (completed.map h.viewPaper) selectedPaperIds).nodes.map some ∧
    (buildCombinedGraphOnHeap random h completed selectedPaperIds).allNodes =
      List.range' h.objects.length
        (buildCombinedGraph random (completed.map h.viewPaper) selectedPaperIds).nodes.length ∧
    (buildCombinedGraphOnHeap random h completed selectedPaperIds).allRelationships =
      (buildCombinedGraph random (completed.map h.viewPaper) selectedPaperIds).relationships := by
  have h0 : Sim h
      { heap := h, allNodes := [], allRelationships := [], nodeMap := [], randomCalls := 0 }
      BuildState.init :=
    ⟨⟨[], by simp, List.Forall₂.nil, rfl⟩, ⟨[], by simp⟩, rfl,
      (fun e he => by cases he), rfl, rfl⟩
  have hS : Sim h (buildCombinedGraphOnHeap random h completed selectedPaperIds)
      (finalState random (completed.map h.viewPaper) selectedPaperIds) := by
    unfold buildCombinedGraphOnHeap finalState
    by_cases hs : selectedPaperIds.length = 0
    · rw [if_pos hs]
      have : selectedPaperIds = [] := List.length_eq_zero.mp hs
      rw [this]
      exact h0
    · rw [if_neg hs]
      exact sim_papers_fold random h completed hwf selectedPaperIds _ _ h0
  obtain ⟨G, hobj, hG, hall⟩ := hS.objs
  rw [buildCombinedGraph_nodes, buildCombinedGraph_relationships]
  refine ⟨?_, ?_, hS.rels⟩
  · rw [hobj, List.drop_left]
    exact map_graphView_of_forall₂ _ G _ hG
  · rw [hall, hG.length_eq]

/-! ## The enhancement dialog on concrete documents -/

/-- Claim C11, evaluated on a document with two nodes labelled `Constructor`: their
normalized label `constructor` is carried by more than one node, yet `findDuplicates`
returns no group for it; it raises a `TypeError`, because `groups["constructor"]` reads
the inherited `Object.prototype.constructor`. -/
theorem findDuplicates_raises_on_constructor :
    (Dialog.allNodes [docConstructor]).map (fun n => normalizedLabelOf n.label) =
      [some "constructor", some "constructor"] ∧
    Dialog.findDuplicates (Dialog.allNodes [docConstructor]) =
      .error "TypeError: groups[normalizedLabel].push is not a function" := by
  decide

/-- Claim C12, evaluated on labels `b`, `2024`, `10` that first appear in that order:
`findDuplicates` lists the groups as `10`, `2024`, `b`, the keys that are array indices
coming first in ascending numeric order. -/
theorem findDuplicates_lists_digit_labels_first :
    (Dialog.allNodes [docDigits]).map (fun n => normalizedLabelOf n.label) =
      [some "b", some "b", some "2024", some "2024", some "10", some "10"] ∧
    (Dialog.findDuplicates (Dialog.allNodes [docDigits])).map
        (fun groups => groups.map (fun g => (g.label, g.count))) =
      .ok [("10", 2), ("2024", 2), ("b", 2)] := by
  decide

/-- Claim C13, evaluated on documents A and B whose duplicate nodes both have the id
`n1` and carry one and two passages: the primary is the node `n1` of document A, and the
graph sent for document A has no node left, so no node with the primary's id carries the
three passages. -/
theorem merge_loses_primary_passages :
    Dialog.findDuplicates (Dialog.allNodes [docFirst, docSecond]) = .ok [groupFirstSecond] ∧
    groupFirstSecond.nodes.map (fun n => (n.id, n.paper_id, (n.source_passages.getD []).length)) =
      [(some "n1", "A", 1), (some "n1", "B", 2)] ∧
    (Dialog.handleMergeDuplicates [docFirst, docSecond] [groupFirstSecond] (fun _ => false)
        groupFirstSecond).updates = [("A", { nodes := [], relationships := [] })] := by
  decide

/-- Claim C15, evaluated on a group that spans documents A and B: the only update
`handleMergeDuplicates` issues is for document A, the document of the primary; no
update is issued for document B, whose duplicate node `n2` and relationship from `n2`
to `n4` stay as they are. -/
theorem merge_updates_primary_document_only :
    Dialog.findDuplicates (Dialog.allNodes [docApple, docAppleToo]) = .ok [groupApple] ∧
    (Dialog.handleMergeDuplicates [docApple, docAppleToo] [groupApple] (fun _ => false)
        groupApple).updates.map (fun u => (u.1, u.2.nodes.map (fun n => n.id))) =
      [("A", [some "n1"])] := by
  decide

/-- Claim C16, evaluated on documents A and B whose duplicate nodes both have the id
`n1`: after the merge document A has lost the node `n1` and keeps the relationship
from `n1` to `n3`. -/
theorem merge_leaves_dangling_edge :
    Dialog.findDuplicates (Dialog.allNodes [docLeft, docRight]) = .ok [groupLeftRight] ∧
    (Dialog.handleMergeDuplicates [docLeft, docRight] [groupLeftRight] (fun _ => false)
        groupLeftRight).updates.map
        (fun u => (u.1, u.2.nodes.map (fun n => n.id),
          u.2.relationships.map (fun r => (r.source_id, r.target_id)))) =
      [("A", [some "n3"], [(some "n1", some "n3")])] := by
  decide

/-- Claim C17, evaluated on documents A and B whose duplicate nodes both have the id
`n1`: the primary is the node `n1` of document A, and the graph sent for document A has
no node with the id `n1`. -/
theorem merge_removes_primary :
    Dialog.findDuplicates (Dialog.allNodes [docLeft, docRight]) = .ok [groupLeftRight] ∧
    groupLeftRight.nodes.map (fun n => (n.id, n.paper_id)) =
      [(some "n1", "A"), (some "n1", "B")] ∧
    ∀ u ∈ (Dialog.handleMergeDuplicates [docLeft, docRight] [groupLeftRight] (fun _ => false)
        groupLeftRight).updates, u.1 = "A" ∧ ∀ n ∈ u.2.nodes, n.id ≠ some "n1" := by
  decide

/-- Claim C18, evaluated on a group made of `n1` of document A and `n2` of document B:
the node `n2` of document A, labelled `Banana`, is no member of the group, yet it is
removed from document A and the relationship from `n2` to `n1` of document A is
rewritten into one from `n1` to `n1`. -/
theorem merge_removes_non_member :
    Dialog.findDuplicates (Dialog.allNodes [docFruit, docOther]) = .ok [groupFruitOther] ∧
    (Dialog.handleMergeDuplicates [docFruit, docOther] [groupFruitOther] (fun _ => false)
        groupFruitOther).updates.map
        (fun u => (u.1, u.2.nodes.map (fun n => (n.id, n.label)),
          u.2.relationships.map (fun r => (r.source_id, r.target_id)))) =
      [("A", [(some "n1", some "Apple")], [(some "n1", some "n1")])] := by
  decide

/-! ## Orphan detection -/

theorem mem_allNodes (papers : List Paper) (n : FlatNode) :
    n ∈ Dialog.allNodes papers ↔
      ∃ paper ∈ papers, ∃ node ∈ (paper.knowledge_graph.bind (·.nodes)).getD [],
        n = flatten paper node := by
  unfold Dialog.allNodes
  rw [List.mem_flatMap]
  constructor
  · rintro ⟨paper, hp, hn⟩
    obtain ⟨node, hnode, rfl⟩ := List.mem_map.mp hn
    exact ⟨paper, hp, node, hnode, rfl⟩
  · rintro ⟨paper, hp, node, hnode, rfl⟩
    exact ⟨paper, hp, List.mem_map_of_mem _ hnode⟩

/-- Claim C20. The constants `allNodes` and `allRelationships` of the dialog are the
concatenations, in document order, of the tagged node lists and of the relationship
lists of the documents (a missing graph or list counting as empty).  `disconnectedNodes`
is the list of the tagged nodes of the documents, in that order, filtered by: no
relationship of any of the documents has `source_id` or `target_id` equal to the node's
id.  So a tagged node is reported exactly when it is a node of one of the documents,
carrying that document's `paper_id` and `paper_title`, and no relationship of any
document names its id. -/
theorem disconnectedNodes_spec (papers : List Paper) :
    Dialog.allNodes papers =
      papers.flatMap (fun paper =>
        ((paper.knowledge_graph.bind (·.nodes)).getD []).map (fun node =>
          { node with paper_id := paper.id, paper_title := paper.title })) ∧
    Dialog.allRelationships papers =
      papers.flatMap (fun paper => (paper.knowledge_graph.bind (·.relationships)).getD []) ∧
    Dialog.disconnectedNodes papers =
      (papers.flatMap (fun paper =>
        ((paper.knowledge_graph.bind (·.nodes)).getD []).map (fun node =>
          ({ node with paper_id := paper.id, paper_title := paper.title } : FlatNode)))).filter
        (fun n => decide (∀ paper ∈ papers,
          ∀ rel ∈ (paper.knowledge_graph.bind (·.relationships)).getD [],
            some rel.source_id ≠ n.id ∧ some rel.target_id ≠ n.id)) ∧
    (∀ n, n ∈ Dialog.disconnectedNodes papers ↔
      (∃ paper ∈ papers, ∃ node ∈ (paper.knowledge_graph.bind (·.nodes)).getD [],
        n.toNode = node ∧ n.paper_id = paper.id ∧ n.paper_title = paper.title) ∧
        ∀ paper ∈ papers, ∀ rel ∈ (paper.knowledge_graph.bind (·.relationships)).getD [],
          some rel.source_id ≠ n.id ∧ some rel.target_id ≠ n.id) ∧
    (∀ n, n ∈ Dialog.disconnectedNodes papers ↔
      n ∈ Dialog.allNodes papers ∧
        ∀ rel ∈ Dialog.allRelationships papers,
          some rel.source_id ≠ n.id ∧ some rel.target_id ≠ n.id) ∧
    (Dialog.disconnectedNodes papers).Sublist (Dialog.allNodes papers) ∧
    ∀ n, n ∈ Dialog.disconnectedNodes papers →
      ∃ paper ∈ papers, ∃ node ∈ (paper.knowledge_graph.bind (·.nodes)).getD [],
        n.toNode = node ∧ n.paper_id = paper.id ∧ n.paper_title = paper.title := by
  have hiff : ∀ n, n ∈ Dialog.disconnectedNodes papers ↔
      n ∈ Dialog.allNodes papers ∧
        ∀ rel ∈ Dialog.allRelationships papers,
          some rel.source_id ≠ n.id ∧ some rel.target_id ≠ n.id := by
    intro n
    unfold Dialog.disconnectedNodes
    rw [List.mem_filter]
    constructor
    · rintro ⟨hn, hc⟩
      refine ⟨hn, ?_⟩
      intro rel hrel
      simp only [Bool.not_eq_true', List.any_eq_false, Bool.or_eq_true, decide_eq_true_eq,
        not_or] at hc
      exact hc rel hrel
    · rintro ⟨hn, hc⟩
      refine ⟨hn, ?_⟩
      simp only [Bool.not_eq_true', List.any_eq_false, Bool.or_eq_true, decide_eq_true_eq,
        not_or]
      exact hc
  have hrel : ∀ n : FlatNode,
      (∀ rel ∈ Dialog.allRelationships papers,
          some rel.source_id ≠ n.id ∧ some rel.target_id ≠ n.id) ↔
      ∀ paper ∈ papers, ∀ rel ∈ (paper.knowledge_graph.bind (·.relationships)).getD [],
          some rel.source_id ≠ n.id ∧ some rel.target_id ≠ n.id := by
    intro n
    unfold Dialog.allRelationships
    constructor
    · intro h paper hp rel hr
      exact h rel (List.mem_flatMap.mpr ⟨paper, hp, hr⟩)
    · intro h rel hr
      obtain ⟨paper, hp, hr1⟩ := List.mem_flatMap.mp hr
      exact h paper hp rel hr1
  have hnode : ∀ n : FlatNode, n ∈ Dialog.allNodes papers ↔
      ∃ paper ∈ papers, ∃ node ∈ (paper.knowledge_graph.bind (·.nodes)).getD [],
        n.toNode = node ∧ n.paper_id = paper.id ∧ n.paper_title = paper.title := by
    intro n
    rw [mem_allNodes]
    constructor
    · rintro ⟨paper, hp, node, hnode, rfl⟩
      exact ⟨paper, hp, node, hnode, rfl, rfl, rfl⟩
    · rintro ⟨paper, hp, node, hnode, h1, h2, h3⟩
      refine ⟨paper, hp, node, hnode, ?_⟩
      cases n
      simp only at h1 h2 h3
      subst h1 h2 h3
      rfl
  refine ⟨rfl, rfl, ?_, ?_, hiff, ?_, ?_⟩
  · show Dialog.disconnectedNodes papers = (Dialog.allNodes papers).filter _
    unfold Dialog.disconnectedNodes
    apply List.filter_congr
    intro n _
    have h := hrel n
    apply Bool.eq_iff_iff.mpr
    rw [decide_eq_true_iff, ← h]
    simp only [Bool.not_eq_true', List.any_eq_false, Bool.or_eq_true, decide_eq_true_eq,
      not_or]
  · intro n
    rw [hiff n, hnode n, hrel n]
  · unfold Dialog.disconnectedNodes
    exact List.filter_sublist _
  · intro n hn
    exact (hnode n).mp ((hiff n).mp hn).1

/-- Claim C20 on the scenario of the specification, one document with nodes `n1`, `n2`,
`n3` and the relationship from `n1` to `n2`, which gives exactly `n3`; and on a view of
two documents, A with `n1` and `n2` and B with `n3` pointing to `n1`, which gives exactly
`n2` of A: the node `n1` of A is connected by the relationship of B. -/
theorem disconnectedNodes_scenario :
    Dialog.disconnectedNodes [docOrphan] = [flatten docOrphan (labelled "n3" "Three")] ∧
    Dialog.disconnectedNodes [docCrossA, docCrossB] =
      [flatten docCrossA (labelled "n2" "Two")] ∧
    ((∃ paper ∈ [docCrossA, docCrossB],
        ∃ node ∈ (paper.knowledge_graph.bind (·.nodes)).getD [],
          (flatten docCrossA (labelled "n2" "Two")).toNode = node ∧
          (flatten docCrossA (labelled "n2" "Two")).paper_id = paper.id ∧
          (flatten docCrossA (labelled "n2" "Two")).paper_title = paper.title) ∧
      ∀ paper ∈ [docCrossA, docCrossB],
        ∀ rel ∈ (paper.knowledge_graph.bind (·.relationships)).getD [],
          some rel.source_id ≠ (flatten docCrossA (labelled "n2" "Two")).id ∧
          some rel.target_id ≠ (flatten docCrossA (labelled "n2" "Two")).id) :=
  ⟨by decide, by decide,
    ((disconnectedNodes_spec [docCrossA, docCrossB]).2.2.2.1
      (flatten docCrossA (labelled "n2" "Two"))).mp (by decide)⟩

/-! ## Merging a duplicate group -/

/-- Claim C19 as stated fails: invoked with a group of one node, `handleMergeDuplicates`
returns without raising any error; it issues no update, shows no alert and does not call
`onUpdate`. -/
theorem merge_small_group_raises_nothing :
    (Dialog.handleMergeDuplicates [docA] [] (fun _ => false)
        ⟨"apple", [flatten docA (labelled "n1" "Apple")], 1⟩).error = none ∧
    (Dialog.handleMergeDuplicates [docA] [] (fun _ => false)
        ⟨"apple", [flatten docA (labelled "n1" "Apple")], 1⟩).updates = [] := by
  decide

/-- Claim C19, as amended. Invoked with a group of fewer than 2 nodes,
`handleMergeDuplicates` returns at its first guard: it raises no error, issues no
document update, shows no alert and does not call `onUpdate`. -/
theorem merge_small_group_no_effect (papers : List Paper)
    (duplicateGroups : List DuplicateGroup) (updateRejects : String → Bool)
    (group : DuplicateGroup) (hsmall : group.nodes.length < 2) :
    Dialog.handleMergeDuplicates papers duplicateGroups updateRejects group =
      { alerted := false, updates := [], onUpdateCalled := false, error := none } := by
  unfold Dialog.handleMergeDuplicates
  rw [if_pos hsmall]

/-- The amended claim C19 on the empty group of document M. -/
theorem merge_small_group_no_effect_witness :
    (⟨"apple", [], 0⟩ : DuplicateGroup).nodes.length < 2 ∧
    Dialog.handleMergeDuplicates [docMerge] [groupMerge] (fun _ => false) ⟨"apple", [], 0⟩ =
      { alerted := false, updates := [], onUpdateCalled := false, error := none } :=
  ⟨by decide,
    merge_small_group_no_effect [docMerge] [groupMerge] (fun _ => false) ⟨"apple", [], 0⟩
      (by decide)⟩

theorem forall₂_map_of {α β : Type} (R : α → β → Prop) (f : α → β) (l : List α)
    (h : ∀ a, R a (f a)) : List.Forall₂ R l (l.map f) := by
  induction l with
  | nil => exact List.Forall₂.nil
  | cons a l ih => exact List.Forall₂.cons (h a) ih

theorem handleMergeDuplicates_updates (papers : List Paper)
    (duplicateGroups : List DuplicateGroup) (updateRejects : String → Bool)
    (group : DuplicateGroup) (primaryNode : FlatNode) (nodesToMerge : List FlatNode)
    (paper : Paper) (kg : KnowledgeGraph) (nodes : List Node)
    (relationships : List Relationship)
    (hgroup : group.nodes = primaryNode :: nodesToMerge) (hk : 2 ≤ group.nodes.length)
    (hreal : duplicateGroups ≠ [])
    (hpaper : papers.find? (fun p => p.id == primaryNode.paper_id) = some paper)
    (hkg : paper.knowledge_graph = some kg) (hnodes : kg.nodes = some nodes)
    (hrels : kg.relationships = some relationships) :
    (Dialog.handleMergeDuplicates papers duplicateGroups updateRejects group).updates =
      [(paper.id, mergedGraphOf primaryNode nodesToMerge
        (group.nodes.flatMap (fun n => n.source_passages.getD [])) nodes relationships)] := by
  have h1 : ¬ group.nodes.length < 2 := by omega
  have h2 : ¬ duplicateGroups.length = 0 := by
    intro h; exact hreal (List.length_eq_zero.mp h)
  unfold Dialog.handleMergeDuplicates
  rw [if_neg h1, if_neg h2]
  simp only [hgroup, hpaper, hkg, hnodes, hrels, Option.some_bind]
  unfold mergedGraphOf
  by_cases hrej : updateRejects paper.id = true
  · rw [if_pos hrej]
  · rw [if_neg hrej]

/-- What the merge does to the primary, the first node of the group.  After merging a
group of at least 2 nodes whose primary's document is found with its node and
relationship lists, the graph sent for that document is such that every node with the
primary's id is a node of the document whose `source_passages` were replaced by the
concatenation, in group order and without deduplication, of the `source_passages` of
all nodes of the group (a missing list counting as empty), its other fields being
unchanged; the number of these passages is the sum of the passage counts of the group;
and the node is there whenever no other node of the group has the primary's id. -/
theorem merge_primary_passages (papers : List Paper)
    (duplicateGroups : List DuplicateGroup) (updateRejects : String → Bool)
    (group : DuplicateGroup) (primaryNode : FlatNode) (nodesToMerge : List FlatNode)
    (paper : Paper) (kg : KnowledgeGraph) (nodes : List Node)
    (relationships : List Relationship)
    (hgroup : group.nodes = primaryNode :: nodesToMerge) (hk : 2 ≤ group.nodes.length)
    (hreal : duplicateGroups ≠ [])
    (hpaper : papers.find? (fun p => p.id == primaryNode.paper_id) = some paper)
    (hkg : paper.knowledge_graph = some kg) (hnodes : kg.nodes = some nodes)
    (hrels : kg.relationships = some relationships) :
    ∃ graph,
      (Dialog.handleMergeDuplicates papers duplicateGroups updateRejects group).updates =
        [(paper.id, graph)] ∧
      group.nodes[0]? = some primaryNode ∧
      (∀ n ∈ graph.nodes, n.id = primaryNode.id →
        ∃ n0 ∈ nodes, n0.id = primaryNode.id ∧
          n = withPassages n0 (group.nodes.flatMap (fun m => m.source_passages.getD []))) ∧
      (primaryNode.id ∉ nodesToMerge.map (fun m => m.id) →
        ∀ n0 ∈ nodes, n0.id = primaryNode.id →
          withPassages n0 (group.nodes.flatMap (fun m => m.source_passages.getD [])) ∈ graph.nodes) ∧
      (group.nodes.flatMap (fun m => m.source_passages.getD [])).length =
        (group.nodes.map (fun m => (m.source_passages.getD []).length)).sum := by
  refine ⟨_, handleMergeDuplicates_updates papers duplicateGroups updateRejects group
    primaryNode nodesToMerge paper kg nodes relationships hgroup hk hreal hpaper hkg hnodes
    hrels, by rw [hgroup]; simp, ?_, ?_, ?_⟩
  · intro n hn hid
    unfold mergedGraphOf at hn
    obtain ⟨hn1, _⟩ := List.mem_filter.mp hn
    obtain ⟨n0, hn0, hf⟩ := List.mem_map.mp hn1
    by_cases h0 : n0.id = primaryNode.id
    · rw [if_pos h0] at hf
      exact ⟨n0, hn0, h0, hf.symm⟩
    · rw [if_neg h0] at hf
      rw [← hf] at hid
      exact absurd hid h0
  · intro hnot n0 hn0 h0
    unfold mergedGraphOf
    apply List.mem_filter.mpr
    constructor
    · apply List.mem_map.mpr
      exact ⟨n0, hn0, by rw [if_pos h0]; rfl⟩
    · have hid : (withPassages n0
          (group.nodes.flatMap (fun m => m.source_passages.getD []))).id = primaryNode.id := h0
      simp only [Bool.not_eq_true', hid]
      simpa using hnot
  · rw [List.length_flatMap]
    rfl

/-- The primary of the merge scenario of the specification after the merge. -/
theorem merge_primary_passages_witness :
    groupMerge.nodes =
      flatten docMerge (labelled "n1" "Apple") :: [flatten docMerge (labelled "n2" "apple")] ∧
    2 ≤ groupMerge.nodes.length ∧ [groupMerge] ≠ [] ∧
    [docMerge].find? (fun p => p.id == (flatten docMerge (labelled "n1" "Apple")).paper_id) =
      some docMerge ∧
    docMerge.knowledge_graph =
      some { nodes := some [labelled "n1" "Apple", labelled "n2" "apple", labelled "n3" "Pear"],
             relationships := some [edge "n2" "n3"] } ∧
    ∃ graph,
      (Dialog.handleMergeDuplicates [docMerge] [groupMerge] (fun _ => false) groupMerge).updates =
        [(docMerge.id, graph)] ∧
      groupMerge.nodes[0]? = some (flatten docMerge (labelled "n1" "Apple")) ∧
      (∀ n ∈ graph.nodes, n.id = (flatten docMerge (labelled "n1" "Apple")).id →
        ∃ n0 ∈ [labelled "n1" "Apple", labelled "n2" "apple", labelled "n3" "Pear"],
          n0.id = (flatten docMerge (labelled "n1" "Apple")).id ∧
          n = withPassages n0 (groupMerge.nodes.flatMap (fun m => m.source_passages.getD []))) ∧
      ((flatten docMerge (labelled "n1" "Apple")).id ∉
          [flatten docMerge (labelled "n2" "apple")].map (fun m => m.id) →
        ∀ n0 ∈ [labelled "n1" "Apple", labelled "n2" "apple", labelled "n3" "Pear"],
          n0.id = (flatten docMerge (labelled "n1" "Apple")).id →
          withPassages n0 (groupMerge.nodes.flatMap (fun m => m.source_passages.getD [])) ∈
              graph.nodes) ∧
      (groupMerge.nodes.flatMap (fun m => m.source_passages.getD [])).length =
        (groupMerge.nodes.map (fun m => (m.source_passages.getD []).length)).sum :=
  ⟨rfl, by decide, by decide, by decide, rfl,
    merge_primary_passages [docMerge] [groupMerge] (fun _ => false) groupMerge
      (flatten docMerge (labelled "n1" "Apple")) [flatten docMerge (labelled "n2" "apple")]
      docMerge
      { nodes := some [labelled "n1" "Apple", labelled "n2" "apple", labelled "n3" "Pear"],
        relationships := some [edge "n2" "n3"] }
      [labelled "n1" "Apple", labelled "n2" "apple", labelled "n3" "Pear"] [edge "n2" "n3"]
      rfl (by decide) (by decide) (by decide) rfl rfl rfl⟩

/-- What the merge does to the relationships when the lists are there.  After merging a group of at least 2 nodes whose primary's document is
found with its node and relationship lists (in particular a group whose nodes all
belong to that document), the relationships sent for the document are its relationships
in the same number and order, each with `source_id` (resp. `target_id`) equal to the
primary's id where it was the id of a non-primary node of the group and unchanged
otherwise, and no node of the sent node list has the id of a non-primary node of the
group. -/
theorem merge_rewrites_endpoints (papers : List Paper)
    (duplicateGroups : List DuplicateGroup) (updateRejects : String → Bool)
    (group : DuplicateGroup) (primaryNode : FlatNode) (nodesToMerge : List FlatNode)
    (paper : Paper) (kg : KnowledgeGraph) (nodes : List Node)
    (relationships : List Relationship)
    (hgroup : group.nodes = primaryNode :: nodesToMerge) (hk : 2 ≤ group.nodes.length)
    (hreal : duplicateGroups ≠ [])
    (hpaper : papers.find? (fun p => p.id == primaryNode.paper_id) = some paper)
    (hkg : paper.knowledge_graph = some kg) (hnodes : kg.nodes = some nodes)
    (hrels : kg.relationships = some relationships) :
    ∃ graph,
      (Dialog.handleMergeDuplicates papers duplicateGroups updateRejects group).updates =
        [(paper.id, graph)] ∧
      List.Forall₂ (fun rel updated =>
          updated.id = rel.id ∧ updated.type = rel.type ∧
          updated.source_id =
            (if some rel.source_id ∈ nodesToMerge.map (fun m => m.id) then primaryNode.id
              else some rel.source_id) ∧
          updated.target_id =
            (if some rel.target_id ∈ nodesToMerge.map (fun m => m.id) then primaryNode.id
              else some rel.target_id))
        relationships graph.relationships ∧
      (∀ n ∈ graph.nodes, ∀ m ∈ nodesToMerge, n.id ≠ m.id) ∧
      graph.nodes.Sublist (nodes.map (fun n =>
        if n.id = primaryNode.id then
          withPassages n (group.nodes.flatMap (fun m => m.source_passages.getD []))
        else n)) := by
  refine ⟨_, handleMergeDuplicates_updates papers duplicateGroups updateRejects group
    primaryNode nodesToMerge paper kg nodes relationships hgroup hk hreal hpaper hkg hnodes
    hrels, ?_, ?_, ?_⟩
  · unfold mergedGraphOf
    apply forall₂_map_of
    intro rel
    refine ⟨rfl, rfl, ?_, ?_⟩
    · simp
    · simp
  · intro n hn m hm e
    unfold mergedGraphOf at hn
    obtain ⟨_, hn2⟩ := List.mem_filter.mp hn
    simp only [Bool.not_eq_true', List.contains_eq_any_beq, List.any_eq_false, List.mem_map,
      beq_iff_eq, forall_exists_index, and_imp, forall_apply_eq_imp_iff₂] at hn2
    exact hn2 m hm e
  · unfold mergedGraphOf
    exact List.filter_sublist _

/-- The rewriting of endpoints on the merge scenario of the specification: the group `n1`, `n2` of one
document with the relationship from `n2` to `n3` gives the relationship from `n1` to
`n3` and a node list without `n2`. -/
theorem merge_rewrites_endpoints_witness :
    (Dialog.handleMergeDuplicates [docMerge] [groupMerge] (fun _ => false) groupMerge).updates.map
        (fun u => (u.1, u.2.nodes.map (fun n => n.id),
          u.2.relationships.map (fun r => (r.source_id, r.target_id)))) =
      [("M", [some "n1", some "n3"], [(some "n1", some "n3")])] ∧
    groupMerge.nodes =
      flatten docMerge (labelled "n1" "Apple") :: [flatten docMerge (labelled "n2" "apple")] ∧
    2 ≤ groupMerge.nodes.length ∧ [groupMerge] ≠ [] ∧
    [docMerge].find? (fun p => p.id == (flatten docMerge (labelled "n1" "Apple")).paper_id) =
      some docMerge ∧
    docMerge.knowledge_graph =
      some { nodes := some [labelled "n1" "Apple", labelled "n2" "apple", labelled "n3" "Pear"],
             relationships := some [edge "n2" "n3"] } ∧
    ∃ graph,
      (Dialog.handleMergeDuplicates [docMerge] [groupMerge] (fun _ => false) groupMerge).updates =
        [(docMerge.id, graph)] ∧
      List.Forall₂ (fun rel updated =>
          updated.id = rel.id ∧ updated.type = rel.type ∧
          updated.source_id =
            (if some rel.source_id ∈
                [flatten docMerge (labelled "n2" "apple")].map (fun m => m.id) then
              (flatten docMerge (labelled "n1" "Apple")).id
              else some rel.source_id) ∧
          updated.target_id =
            (if some rel.target_id ∈
                [flatten docMerge (labelled "n2" "apple")].map (fun m => m.id) then
              (flatten docMerge (labelled "n1" "Apple")).id
              else some rel.target_id))
        [edge "n2" "n3"] graph.relationships ∧
      (∀ n ∈ graph.nodes, ∀ m ∈ [flatten docMerge (labelled "n2" "apple")], n.id ≠ m.id) ∧
      graph.nodes.Sublist
        ([labelled "n1" "Apple", labelled "n2" "apple", labelled "n3" "Pear"].map (fun n =>
          if n.id = (flatten docMerge (labelled "n1" "Apple")).id then
            withPassages n (groupMerge.nodes.flatMap (fun m => m.source_passages.getD []))
          else n)) :=
  ⟨by decide, rfl, by decide, by decide, by decide, rfl,
    merge_rewrites_endpoints [docMerge] [groupMerge] (fun _ => false) groupMerge
      (flatten docMerge (labelled "n1" "Apple")) [flatten docMerge (labelled "n2" "apple")]
      docMerge
      { nodes := some [labelled "n1" "Apple", labelled "n2" "apple", labelled "n3" "Pear"],
        relationships := some [edge "n2" "n3"] }
      [labelled "n1" "Apple", labelled "n2" "apple", labelled "n3" "Pear"] [edge "n2" "n3"]
      rfl (by decide) (by decide) (by decide) rfl rfl rfl⟩

/-- Claim C14, evaluated on a document whose graph has the duplicate nodes `n1` and `n2`
and no field `relationships`: the group is the one `findDuplicates` returns and both its
nodes belong to that document; the dialog's `allRelationships` reads the missing list as
empty, yet `handleMergeDuplicates` raises a `TypeError` on
`paper.knowledge_graph.relationships.map` and issues no update, so `n2` remains in the
document's node list. -/
theorem merge_raises_without_relationships :
    Dialog.findDuplicates (Dialog.allNodes [docNoRelationships]) =
      .ok [groupNoRelationships] ∧
    groupNoRelationships.nodes.map (fun n => (n.id, n.paper_id)) =
      [(some "n1", "N"), (some "n2", "N")] ∧
    Dialog.allRelationships [docNoRelationships] = [] ∧
    Dialog.handleMergeDuplicates [docNoRelationships] [groupNoRelationships] (fun _ => false)
        groupNoRelationships =
      { alerted := false, updates := [], onUpdateCalled := false,
        error := some "TypeError: cannot read properties of undefined" } := by
  decide

/-! ## Duplicate detection -/

theorem dupKey_eq_some_iff (node : FlatNode) (k : String) :
    dupKey node = some k ↔ normalizedLabelOf node.label = some k ∧ k ≠ "" := by
  unfold dupKey
  cases normalizedLabelOf node.label with
  | none => simp
  | some k0 =>
    by_cases hk0 : k0 = ""
    · subst hk0
      simp only [Option.some_bind, if_true, Option.some.injEq]
      constructor
      · intro h; cases h
      · rintro ⟨h1, h2⟩; exact absurd h1.symm h2
    · simp only [Option.some_bind, if_neg hk0, Option.some.injEq]
      constructor
      · intro h; subst h; exact ⟨rfl, hk0⟩
      · rintro ⟨h1, _⟩; exact h1

theorem dupKey_eq_none_iff (node : FlatNode) :
    dupKey node = none ↔
      normalizedLabelOf node.label = none ∨ normalizedLabelOf node.label = some "" := by
  unfold dupKey
  cases normalizedLabelOf node.label with
  | none => simp
  | some k0 =>
    by_cases hk0 : k0 = ""
    · subst hk0; simp
    · simp [hk0]

theorem groupNode_skip (groups : List (String × List FlatNode)) (node : FlatNode)
    (hk : dupKey node = none) : groupNode groups node = .ok groups := by
  unfold groupNode
  rcases (dupKey_eq_none_iff node).mp hk with h | h
  · rw [h]
  · rw [h]; simp

theorem groupNode_own (groups : List (String × List FlatNode)) (node : FlatNode)
    (k : String) (hk : dupKey node = some k) (hown : k ∈ groups.map (·.1)) :
    groupNode groups node =
      .ok (groups.map (fun e => if e.1 = k then (e.1, e.2 ++ [node]) else e)) := by
  obtain ⟨h1, h2⟩ := (dupKey_eq_some_iff node k).mp hk
  have hc : (groups.map (·.1)).contains k = true := by
    rw [List.contains_iff_exists_mem_beq]
    exact ⟨k, hown, by simp⟩
  unfold groupNode
  rw [h1]
  simp only [if_neg h2, hc, if_true]

theorem groupNode_inherited (groups : List (String × List FlatNode)) (node : FlatNode)
    (k : String) (hk : dupKey node = some k) (hown : k ∉ groups.map (·.1))
    (hproto : k ∈ objectPrototypeKeys) :
    groupNode groups node =
      .error "TypeError: groups[normalizedLabel].push is not a function" := by
  obtain ⟨h1, h2⟩ := (dupKey_eq_some_iff node k).mp hk
  have hc : (groups.map (·.1)).contains k = false := by
    rw [Bool.eq_false_iff]
    intro hcon
    rw [List.contains_iff_exists_mem_beq] at hcon
    obtain ⟨a, ha, hb⟩ := hcon
    have : k = a := by simpa using hb
    exact hown (this ▸ ha)
  have hp : objectPrototypeKeys.contains k = true := by
    rw [List.contains_iff_exists_mem_beq]
    exact ⟨k, hproto, by simp⟩
  unfold groupNode
  rw [h1]
  simp only [if_neg h2, hc, hp, if_true, Bool.false_eq_true, if_false]

theorem groupNode_new (groups : List (String × List FlatNode)) (node : FlatNode)
    (k : String) (hk : dupKey node = some k) (hown : k ∉ groups.map (·.1))
    (hproto : k ∉ objectPrototypeKeys) :
    groupNode groups node = .ok (groups ++ [(k, [node])]) := by
  obtain ⟨h1, h2⟩ := (dupKey_eq_some_iff node k).mp hk
  have hc : (groups.map (·.1)).contains k = false := by
    rw [Bool.eq_false_iff]
    intro hcon
    rw [List.contains_iff_exists_mem_beq] at hcon
    obtain ⟨a, ha, hb⟩ := hcon
    have : k = a := by simpa using hb
    exact hown (this ▸ ha)
  have hp : objectPrototypeKeys.contains k = false := by
    rw [Bool.eq_false_iff]
    intro hcon
    rw [List.contains_iff_exists_mem_beq] at hcon
    obtain ⟨a, ha, hb⟩ := hcon
    have : k = a := by simpa using hb
    exact hproto (this ▸ ha)
  unfold groupNode
  rw [h1]
  simp only [if_neg h2, hc, hp, Bool.false_eq_true, if_false]

theorem filter_dupKey_snoc (h : List FlatNode) (node : FlatNode) (k : String) :
    (h ++ [node]).filter (fun n => decide (dupKey n = some k)) =
      h.filter (fun n => decide (dupKey n = some k)) ++
        (if dupKey node = some k then [node] else []) := by
  rw [List.filter_append]
  by_cases hk : dupKey node = some k
  · simp [hk]
  · simp [hk]

theorem groupsInv_step (groups groups1 : List (String × List FlatNode)) (h : List FlatNode)
    (node : FlatNode) (hI : GroupsInv groups h) (hstep : groupNode groups node = .ok groups1) :
    GroupsInv groups1 (h ++ [node]) := by
  cases hk : dupKey node with
  | none =>
    rw [groupNode_skip groups node hk] at hstep
    cases hstep
    refine ⟨?_, ?_, hI.safe⟩
    · rw [List.filterMap_append, List.filterMap_cons_none hk]
      simpa using hI.keys
    · intro e he
      rw [filter_dupKey_snoc, hk]
      simpa using hI.vals e he
  | some k =>
    have hfm : (h ++ [node]).filterMap dupKey = h.filterMap dupKey ++ [k] := by
      rw [List.filterMap_append, List.filterMap_cons_some hk]
      rfl
    by_cases hown : k ∈ groups.map (·.1)
    · rw [groupNode_own groups node k hk hown] at hstep
      cases hstep
      have hkeys : (groups.map (fun e => if e.1 = k then (e.1, e.2 ++ [node]) else e)).map (·.1) =
          groups.map (·.1) := by
        rw [List.map_map]
        apply List.map_congr_left
        intro e _
        by_cases he : e.1 = k
        · simp [he]
        · simp [he]
      refine ⟨?_, ?_, ?_⟩
      · rw [hkeys, hfm, setToArray_snoc, if_pos (by rw [← hI.keys]; exact hown)]
        exact hI.keys
      · intro e1 he1
        obtain ⟨e, he, rfl⟩ := List.mem_map.mp he1
        by_cases hek : e.1 = k
        · rw [if_pos hek, filter_dupKey_snoc]
          simp only
          rw [hk, hek, if_pos rfl, ← hek]
          rw [hI.vals e he]
        · rw [if_neg hek, filter_dupKey_snoc, hk]
          have : ¬ (some k = some e.1) := fun hh => hek (Option.some.inj hh).symm
          rw [if_neg this]
          simpa using hI.vals e he
      · intro e1 he1
        obtain ⟨e, he, rfl⟩ := List.mem_map.mp he1
        by_cases hek : e.1 = k
        · rw [if_pos hek]; exact hI.safe e he
        · rw [if_neg hek]; exact hI.safe e he
    · by_cases hproto : k ∈ objectPrototypeKeys
      · rw [groupNode_inherited groups node k hk hown hproto] at hstep
        cases hstep
      · rw [groupNode_new groups node k hk hown hproto] at hstep
        cases hstep
        have hnot : k ∉ setToArray (h.filterMap dupKey) := by rw [← hI.keys]; exact hown
        refine ⟨?_, ?_, ?_⟩
        · rw [List.map_append, hfm, setToArray_snoc, if_neg hnot, hI.keys]
          rfl
        · intro e he
          rcases List.mem_append.mp he with he1 | he1
          · have hek : e.1 ≠ k := by
              intro hh
              exact hown (hh ▸ List.mem_map_of_mem (·.1) he1)
            rw [filter_dupKey_snoc, hk]
            have : ¬ (some k = some e.1) := fun hh => hek (Option.some.inj hh).symm
            rw [if_neg this]
            simpa using hI.vals e he1
          · have hee : e = (k, [node]) := by simpa using he1
            rw [hee, filter_dupKey_snoc, hk, if_pos rfl]
            have hnil : h.filter (fun n => decide (dupKey n = some k)) = [] := by
              rw [List.filter_eq_nil_iff]
              intro n hn
              simp only [decide_eq_true_eq]
              intro hnk
              apply hnot
              rw [mem_setToArray, List.mem_filterMap]
              exact ⟨n, hn, hnk⟩
            rw [hnil]
            rfl
        · intro e he
          rcases List.mem_append.mp he with he1 | he1
          · exact hI.safe e he1
          · have hee : e = (k, [node]) := by simpa using he1
            rw [hee]; exact hproto

theorem groupsInv_fold (nodes : List FlatNode) (groups groups1 : List (String × List FlatNode))
    (h : List FlatNode) (hI : GroupsInv groups h)
    (hfold : nodes.foldlM groupNode groups = .ok groups1) :
    GroupsInv groups1 (h ++ nodes) := by
  induction nodes generalizing groups h with
  | nil =>
    simp only [List.foldlM_nil] at hfold
    cases hfold
    simpa using hI
  | cons node nodes ih =>
    rw [List.foldlM_cons] at hfold
    cases hstep : groupNode groups node with
    | error e => rw [hstep] at hfold; cases hfold
    | ok g1 =>
      rw [hstep] at hfold
      have := ih g1 (h ++ [node]) (groupsInv_step groups g1 h node hI hstep) hfold
      simpa using this

theorem groupsInv_nil : GroupsInv [] [] :=
  ⟨rfl, (fun e he => by cases he), (fun e he => by cases he)⟩

theorem perm_objectEntries {α : Type} (props : List (String × α)) :
    (objectEntries props).Perm props := by
  unfold objectEntries
  refine List.Perm.trans (List.Perm.append_right _ (List.perm_insertionSort _ _)) ?_
  exact List.filter_append_perm _ props

theorem mem_objectEntries {α : Type} (props : List (String × α)) (e : String × α) :
    e ∈ objectEntries props ↔ e ∈ props :=
  (perm_objectEntries props).mem_iff

theorem objectEntries_of_no_index {α : Type} (props : List (String × α))
    (h : ∀ e ∈ props, arrayIndexOf e.1 = none) : objectEntries props = props := by
  unfold objectEntries
  have h1 : props.filter (fun e => (arrayIndexOf e.1).isSome) = [] := by
    rw [List.filter_eq_nil_iff]
    intro e he
    rw [h e he]
    simp
  have h2 : props.filter (fun e => !(arrayIndexOf e.1).isSome) = props := by
    rw [List.filter_eq_self]
    intro e he
    rw [h e he]
    rfl
  rw [h1, h2]
  rfl

theorem findDuplicates_eq_ok (allNodes : List FlatNode) (groups : List DuplicateGroup)
    (h : Dialog.findDuplicates allNodes = .ok groups) :
    ∃ props, allNodes.foldlM groupNode [] = .ok props ∧ GroupsInv props allNodes ∧
      groups = ((objectEntries props).filter (fun e => decide (e.2.length > 1))).map
        (fun e => { label := e.1, nodes := e.2, count := e.2.length }) := by
  unfold Dialog.findDuplicates at h
  cases hf : allNodes.foldlM groupNode [] with
  | error e => rw [hf] at h; cases h
  | ok props =>
    rw [hf] at h
    simp only [Except.ok.injEq] at h
    refine ⟨props, rfl, ?_, h.symm⟩
    have := groupsInv_fold allNodes [] props [] groupsInv_nil hf
    simpa using this

/-- What `findDuplicates` returns, when it returns: the groups have distinct labels;
the nodes of a group are all and only the nodes with the group's label as key, in
input order, `count` is their number and exceeds 1; and every key carried by more than
one node has its group. -/
theorem findDuplicates_spec (allNodes : List FlatNode) (groups : List DuplicateGroup)
    (h : Dialog.findDuplicates allNodes = .ok groups) :
    (groups.map (fun g => g.label)).Nodup ∧
    (∀ g ∈ groups,
      g.nodes = allNodes.filter (fun n => decide (dupKey n = some g.label)) ∧
        g.count = g.nodes.length ∧ 1 < g.count) ∧
    ∀ k, 1 < (allNodes.filter (fun n => decide (dupKey n = some k))).length →
      ∃ g ∈ groups, g.label = k := by
  obtain ⟨props, _, hI, rfl⟩ := findDuplicates_eq_ok allNodes groups h
  refine ⟨?_, ?_, ?_⟩
  · rw [List.map_map]
    have hnd : (props.map (·.1)).Nodup := by rw [hI.keys]; exact nodup_setToArray _
    have hnd2 : ((objectEntries props).map (·.1)).Nodup :=
      ((perm_objectEntries props).map (·.1)).nodup_iff.mpr hnd
    exact (List.Sublist.map (fun e : String × List FlatNode => e.1)
      (List.filter_sublist _)).nodup hnd2
  · intro g hg
    obtain ⟨e, he, rfl⟩ := List.mem_map.mp hg
    obtain ⟨he1, he2⟩ := List.mem_filter.mp he
    have hv := hI.vals e ((mem_objectEntries props e).mp he1)
    refine ⟨hv, rfl, ?_⟩
    simpa using he2
  · intro k hk
    have hne : allNodes.filter (fun n => decide (dupKey n = some k)) ≠ [] := by
      intro hnil; rw [hnil] at hk; simp at hk
    obtain ⟨n, hn⟩ := List.exists_mem_of_ne_nil _ hne
    obtain ⟨hn1, hn2⟩ := List.mem_filter.mp hn
    have hkn : dupKey n = some k := by simpa using hn2
    have hkey : k ∈ props.map (·.1) := by
      rw [hI.keys, mem_setToArray, List.mem_filterMap]
      exact ⟨n, hn1, hkn⟩
    obtain ⟨e, he, hek⟩ := List.mem_map.mp hkey
    have hv := hI.vals e he
    refine ⟨{ label := e.1, nodes := e.2, count := e.2.length }, ?_, hek⟩
    apply List.mem_map.mpr
    refine ⟨e, List.mem_filter.mpr ⟨(mem_objectEntries props e).mpr he, ?_⟩, rfl⟩
    have hek1 : e.1 = k := hek
    rw [hv, hek1]
    simpa using hk

theorem foldlM_groupNode_ok (nodes : List FlatNode) (groups : List (String × List FlatNode))
    (hsafe : ∀ n ∈ nodes, ∀ k, dupKey n = some k → k ∉ objectPrototypeKeys) :
    ∃ groups1, nodes.foldlM groupNode groups = .ok groups1 := by
  induction nodes generalizing groups with
  | nil => exact ⟨groups, rfl⟩
  | cons node nodes ih =>
    have hrest : ∀ n ∈ nodes, ∀ k, dupKey n = some k → k ∉ objectPrototypeKeys :=
      fun n hn => hsafe n (List.mem_cons_of_mem node hn)
    rw [List.foldlM_cons]
    cases hk : dupKey node with
    | none =>
      rw [groupNode_skip groups node hk]
      exact ih groups hrest
    | some k =>
      by_cases hown : k ∈ groups.map (·.1)
      · rw [groupNode_own groups node k hk hown]
        exact ih _ hrest
      · rw [groupNode_new groups node k hk hown (hsafe node (List.mem_cons_self node nodes) k hk)]
        exact ih _ hrest

/-- The function `findDuplicates` returns exactly when no node has a key that names a
property of `Object.prototype`; otherwise it raises. -/
theorem findDuplicates_returns_iff (allNodes : List FlatNode) :
    (∃ groups, Dialog.findDuplicates allNodes = .ok groups) ↔
      ∀ n ∈ allNodes, ∀ k, dupKey n = some k → k ∉ objectPrototypeKeys := by
  constructor
  · rintro ⟨groups, h⟩ n hn k hk
    obtain ⟨props, _, hI, _⟩ := findDuplicates_eq_ok allNodes groups h
    have hkey : k ∈ props.map (·.1) := by
      rw [hI.keys, mem_setToArray, List.mem_filterMap]
      exact ⟨n, hn, hk⟩
    obtain ⟨e, he, hek⟩ := List.mem_map.mp hkey
    have hek1 : e.1 = k := hek
    rw [← hek1]
    exact hI.safe e he
  · intro hsafe
    obtain ⟨props, hp⟩ := foldlM_groupNode_ok allNodes [] hsafe
    unfold Dialog.findDuplicates
    rw [hp]
    exact ⟨_, rfl⟩

theorem labels_of_entries (allNodes : List FlatNode) (props : List (String × List FlatNode))
    (hvals : ∀ e ∈ props, e.2 = allNodes.filter (fun n => decide (dupKey n = some e.1))) :
    ((props.filter (fun e => decide (e.2.length > 1))).map
        (fun e => ({ label := e.1, nodes := e.2, count := e.2.length } : DuplicateGroup))).map
        (fun g => g.label) =
      (props.map (·.1)).filter (fun k =>
        decide (1 < (allNodes.filter (fun n => decide (dupKey n = some k))).length)) := by
  induction props with
  | nil => rfl
  | cons e props ih =>
    have hrest : ∀ e1 ∈ props,
        e1.2 = allNodes.filter (fun n => decide (dupKey n = some e1.1)) :=
      fun e1 he1 => hvals e1 (List.mem_cons_of_mem e he1)
    have he := hvals e (List.mem_cons_self e props)
    rw [List.filter_cons, List.map_cons, List.filter_cons]
    by_cases hlen : e.2.length > 1
    · have h2 : 1 < (allNodes.filter (fun n => decide (dupKey n = some e.1))).length := by
        rw [← he]; exact hlen
      simp only [hlen, h2, decide_True, if_true, List.map_cons]
      rw [ih hrest]
    · have h2 : ¬ 1 < (allNodes.filter (fun n => decide (dupKey n = some e.1))).length := by
        rw [← he]; exact hlen
      simp only [hlen, h2, decide_False, Bool.false_eq_true, if_false]
      exact ih hrest

/-- When no key is an array index, `findDuplicates` lists its groups in the order in
which their labels first appear among the nodes. -/
theorem findDuplicates_order_of_no_index (allNodes : List FlatNode)
    (groups : List DuplicateGroup) (h : Dialog.findDuplicates allNodes = .ok groups)
    (hidx : ∀ n ∈ allNodes, ∀ k, dupKey n = some k → arrayIndexOf k = none) :
    groups.map (fun g => g.label) =
      (setToArray (allNodes.filterMap dupKey)).filter (fun k =>
        decide (1 < (allNodes.filter (fun n => decide (dupKey n = some k))).length)) := by
  obtain ⟨props, _, hI, rfl⟩ := findDuplicates_eq_ok allNodes groups h
  have hno : ∀ e ∈ props, arrayIndexOf e.1 = none := by
    intro e he
    have hkey : e.1 ∈ setToArray (allNodes.filterMap dupKey) := by
      rw [← hI.keys]; exact List.mem_map_of_mem (·.1) he
    rw [mem_setToArray, List.mem_filterMap] at hkey
    obtain ⟨n, hn, hk⟩ := hkey
    exact hidx n hn e.1 hk
  rw [objectEntries_of_no_index props hno, ← hI.keys]
  exact labels_of_entries allNodes props hI.vals

/-! ## Search filter and export -/

/-- Claim C23. The export built by `handleExportGraph` has the version `1.0`, its
`metadata.total_nodes` is the length of its `graph.nodes` and its
`metadata.total_relationships` is the length of its `graph.relationships`, the exported
graph being the filtered graph of the page, for every combined graph, search query,
document list, selection and timestamp. -/
theorem export_counts_match_graph (now : String) (papers : List Paper)
    (selectedPaperIds : List String) (graphData : GraphData) (searchQuery : String) :
    (handleExportGraph now papers selectedPaperIds graphData searchQuery).version = "1.0" ∧
    (handleExportGraph now papers selectedPaperIds graphData searchQuery).metadata.total_nodes =
      (handleExportGraph now papers selectedPaperIds graphData searchQuery).graph.nodes.length ∧
    (handleExportGraph now papers selectedPaperIds graphData
        searchQuery).metadata.total_relationships =
      (handleExportGraph now papers selectedPaperIds graphData
        searchQuery).graph.relationships.length ∧
    (handleExportGraph now papers selectedPaperIds graphData searchQuery).graph =
      filteredGraph graphData searchQuery :=
  ⟨rfl, rfl, rfl, rfl⟩

/-- Claim C29. For every combined graph and search query, the relationships of
`filteredGraph` are those of `graphData`; its nodes are the nodes of `graphData`, in
order, for which the query is empty or the lowercased label or the lowercased type
contains the lowercased query; with the empty query they are all the nodes; and the
`total_relationships` of the export is the number of relationships of `graphData`,
whatever the query. -/
theorem search_filter_keeps_relationships (graphData : GraphData) (searchQuery : String) :
    (filteredGraph graphData searchQuery).relationships = graphData.relationships ∧
    (∃ keep : GraphNode → Bool,
      (∀ n, keep n = true ↔
        (searchQuery = "" ∨
          (∃ l, n.label = some l ∧ (toLowerCase searchQuery).data <:+: (toLowerCase l).data) ∨
          ∃ t, n.type = some t ∧ (toLowerCase searchQuery).data <:+: (toLowerCase t).data)) ∧
      (filteredGraph graphData searchQuery).nodes = graphData.nodes.filter keep) ∧
    (filteredGraph graphData "").nodes = graphData.nodes ∧
    ∀ (now : String) (papers : List Paper) (selectedPaperIds : List String)
      (otherQuery : String),
      (handleExportGraph now papers selectedPaperIds graphData
          searchQuery).metadata.total_relationships = graphData.relationships.length ∧
      (handleExportGraph now papers selectedPaperIds graphData
          searchQuery).metadata.total_relationships =
        (handleExportGraph now papers selectedPaperIds graphData
          otherQuery).metadata.total_relationships := by
  refine ⟨rfl, ⟨_, ?_, rfl⟩, ?_, fun _ _ _ _ => ⟨rfl, rfl⟩⟩
  · intro n
    cases hl : n.label <;> cases ht : n.type <;> simp [includes, or_assoc]
  · unfold filteredGraph
    simp

theorem tallyType_keys (acc : List (String × Tally)) (type : Option String)
    (hnd : (acc.map (·.1)).Nodup) :
    ((tallyType acc type).map (·.1)).Nodup ∧
      ∀ k, k ∈ (tallyType acc type).map (·.1) ↔
        k ∈ acc.map (·.1) ∨ (k = typeKey type ∧ k ≠ "__proto__") := by
  unfold tallyType
  by_cases hp : typeKey type = "__proto__"
  · rw [if_pos hp]
    refine ⟨hnd, fun k => ⟨fun h => Or.inl h, ?_⟩⟩
    rintro (h | ⟨h1, h2⟩)
    · exact h
    · exact absurd (h1.trans hp) h2
  · rw [if_neg hp]
    cases hl : acc.lookup (typeKey type) with
    | none =>
      have hnot : typeKey type ∉ acc.map (·.1) := by
        intro hmem
        obtain ⟨e, he, hek⟩ := List.mem_map.mp hmem
        have := List.lookup_eq_none_iff.mp hl e he
        simp only [bne_iff_ne, ne_eq] at this
        exact this hek.symm
      have key : ∀ v : Tally, ((acc ++ [(typeKey type, v)]).map (·.1)).Nodup ∧
          ∀ k, k ∈ (acc ++ [(typeKey type, v)]).map (·.1) ↔
            k ∈ acc.map (·.1) ∨ (k = typeKey type ∧ k ≠ "__proto__") := by
        intro v
        constructor
        · rw [List.map_append, List.nodup_append]
          refine ⟨hnd, by simp, ?_⟩
          intro a ha hb
          have : a = typeKey type := by simpa using hb
          exact hnot (this ▸ ha)
        · intro k
          rw [List.map_append, List.mem_append]
          constructor
          · rintro (h | h)
            · exact Or.inl h
            · have : k = typeKey type := by simpa using h
              exact Or.inr ⟨this, this ▸ hp⟩
          · rintro (h | ⟨h, _⟩)
            · exact Or.inl h
            · right; simp [h]
      by_cases hproto : objectPrototypeKeys.contains (typeKey type) = true
      · simp only [hproto, if_true]
        exact key Tally.text
      · simp only [hproto, if_false]
        exact key (Tally.count 1)
    | some v =>
      have hmem : typeKey type ∈ acc.map (·.1) := by
        obtain ⟨l1, l2, hacc, _⟩ := List.lookup_eq_some_iff.mp hl
        rw [hacc]
        simp
      have hsame : ∀ acc1 : List (String × Tally), acc1.map (·.1) = acc.map (·.1) →
          (acc1.map (·.1)).Nodup ∧
            ∀ k, k ∈ acc1.map (·.1) ↔
              k ∈ acc.map (·.1) ∨ (k = typeKey type ∧ k ≠ "__proto__") := by
        intro acc1 h1
        rw [h1]
        refine ⟨hnd, fun k => ⟨fun h => Or.inl h, ?_⟩⟩
        rintro (h | ⟨h, _⟩)
        · exact h
        · rw [h]; exact hmem
      cases v with
      | text => exact hsame acc rfl
      | count n =>
        apply hsame
        rw [List.map_map]
        apply List.map_congr_left
        intro e _
        by_cases he : e.1 = typeKey type
        · simp [he]
        · simp [he]

theorem tally_keys (types : List (Option String)) (acc : List (String × Tally))
    (hnd : (acc.map (·.1)).Nodup) :
    ((types.foldl tallyType acc).map (·.1)).Nodup ∧
      ∀ k, k ∈ (types.foldl tallyType acc).map (·.1) ↔
        k ∈ acc.map (·.1) ∨ (k ∈ types.map typeKey ∧ k ≠ "__proto__") := by
  induction types generalizing acc with
  | nil => exact ⟨hnd, fun k => by simp⟩
  | cons t types ih =>
    obtain ⟨h1, h2⟩ := tallyType_keys acc t hnd
    obtain ⟨h3, h4⟩ := ih (tallyType acc t) h1
    refine ⟨h3, fun k => ?_⟩
    rw [List.foldl_cons, h4 k, h2 k, List.map_cons, List.mem_cons]
    constructor
    · rintro ((h | ⟨h, hp⟩) | ⟨h, hp⟩)
      · exact Or.inl h
      · exact Or.inr ⟨Or.inl h, hp⟩
      · exact Or.inr ⟨Or.inr h, hp⟩
    · rintro (h | ⟨h | h, hp⟩)
      · exact Or.inl (Or.inl h)
      · exact Or.inl (Or.inr ⟨h, hp⟩)
      · exact Or.inr ⟨h, hp⟩

theorem foldl_tallyType_map {α : Type} (f : α → Option String) (l : List α)
    (acc : List (String × Tally)) :
    l.foldl (fun acc x => tallyType acc (f x)) acc = (l.map f).foldl tallyType acc := by
  rw [List.foldl_map]

theorem mem_objectKeys {α : Type} (props : List (String × α)) (k : String) :
    k ∈ objectKeys props ↔ k ∈ props.map (·.1) :=
  ((perm_objectEntries props).map (fun e : String × α => e.1)).mem_iff

theorem nodup_objectKeys {α : Type} (props : List (String × α)) :
    (objectKeys props).Nodup ↔ (props.map (·.1)).Nodup :=
  ((perm_objectEntries props).map (fun e : String × α => e.1)).nodup_iff

/-- The type lists of the export: each lists without repetition the keys of the type
values of the exported nodes (relationships), the key `__proto__` left out; a missing
type has the key `undefined`. -/
theorem export_types_spec (now : String) (papers : List Paper)
    (selectedPaperIds : List String) (graphData : GraphData) (searchQuery : String) :
    (handleExportGraph now papers selectedPaperIds graphData
        searchQuery).metadata.node_types.Nodup ∧
    (∀ k, k ∈ (handleExportGraph now papers selectedPaperIds graphData
          searchQuery).metadata.node_types ↔
        k ≠ "__proto__" ∧
          ∃ n ∈ (handleExportGraph now papers selectedPaperIds graphData
            searchQuery).graph.nodes, typeKey n.type = k) ∧
    (handleExportGraph now papers selectedPaperIds graphData
        searchQuery).metadata.relationship_types.Nodup ∧
    ∀ k, k ∈ (handleExportGraph now papers selectedPaperIds graphData
          searchQuery).metadata.relationship_types ↔
        k ≠ "__proto__" ∧
          ∃ r ∈ (handleExportGraph now papers selectedPaperIds graphData
            searchQuery).graph.relationships, typeKey r.type = k := by
  have hn := tally_keys ((filteredGraph graphData searchQuery).nodes.map (fun n => n.type)) []
    List.nodup_nil
  have hr := tally_keys
    ((filteredGraph graphData searchQuery).relationships.map (fun r => r.type)) []
    List.nodup_nil
  rw [← foldl_tallyType_map] at hn hr
  refine ⟨(nodup_objectKeys _).mpr hn.1, fun k => ?_, (nodup_objectKeys _).mpr hr.1,
    fun k => ?_⟩
  · show k ∈ objectKeys (nodeTypeCounts (filteredGraph graphData searchQuery)) ↔ _
    rw [mem_objectKeys]
    unfold nodeTypeCounts
    rw [hn.2 k]
    simp only [List.map_nil, List.not_mem_nil, false_or, List.map_map, List.mem_map,
      Function.comp]
    constructor
    · rintro ⟨⟨n, hn1, hn2⟩, hp⟩
      exact ⟨hp, n, hn1, hn2⟩
    · rintro ⟨hp, n, hn1, hn2⟩
      exact ⟨⟨n, hn1, hn2⟩, hp⟩
  · show k ∈ objectKeys (relationshipTypeCounts (filteredGraph graphData searchQuery)) ↔ _
    rw [mem_objectKeys]
    unfold relationshipTypeCounts
    rw [hr.2 k]
    simp only [List.map_nil, List.not_mem_nil, false_or, List.map_map, List.mem_map,
      Function.comp]
    constructor
    · rintro ⟨⟨n, hn1, hn2⟩, hp⟩
      exact ⟨hp, n, hn1, hn2⟩
    · rintro ⟨hp, n, hn1, hn2⟩
      exact ⟨⟨n, hn1, hn2⟩, hp⟩

/-- Claim C24, evaluated on the combined graph of a document whose two nodes have the
types `Person` and `__proto__`: both nodes are exported, yet `metadata.node_types` is
`[Person]`.  The assignment `acc["__proto__"] = ...` on the plain object of
`nodeTypeCounts` creates no own property, so `Object.keys` does not list that type. -/
theorem export_omits_proto_type :
    (handleExportGraph "2024-01-01T00:00:00.000Z" [docTyped] ["T"]
        (buildCombinedGraph (fun _ => 0) [docTyped] ["T"]) "").graph.nodes.map
        (fun n => (n.id, n.type)) =
      [("n1", some "Person"), ("n2", some "__proto__")] ∧
    (handleExportGraph "2024-01-01T00:00:00.000Z" [docTyped] ["T"]
        (buildCombinedGraph (fun _ => 0) [docTyped] ["T"]) "").metadata.node_types =
      ["Person"] := by
  decide

/-! ## The issue badges of the Graph page -/

theorem page_groupNode_eq (groups : List (String × List FlatNode)) (node : FlatNode) :
    Page.groupNode groups node = groupNode groups node := by
  unfold Page.groupNode groupNode
  cases normalizedLabelOf node.label with
  | none => rfl
  | some k =>
    by_cases hk : k = ""
    · simp [hk]
    · simp [hk]

theorem page_allNodes_eq (papers : List Paper) (selectedPaperIds : List String) :
    Page.allNodes papers selectedPaperIds =
      Dialog.allNodes (Page.dialogPapers papers selectedPaperIds) := rfl

theorem page_allRelationships_eq (papers : List Paper) (selectedPaperIds : List String) :
    Page.allRelationships papers selectedPaperIds =
      Dialog.allRelationships (Page.dialogPapers papers selectedPaperIds) := rfl

/-- Claim C27. For every document list and selection, `duplicateGroupsCount` of the page
is the number of groups `findDuplicates` returns on the documents the page passes to the
dialog, the completed documents filtered by the selection (and it raises exactly when
`findDuplicates` raises, with the same error), and `disconnectedCount` is the length of
`disconnectedNodes` on these documents. -/
theorem badges_agree_with_dialog (papers : List Paper) (selectedPaperIds : List String) :
    Page.duplicateGroupsCount papers selectedPaperIds =
      (Dialog.findDuplicates
        (Dialog.allNodes (Page.dialogPapers papers selectedPaperIds))).map List.length ∧
    Page.disconnectedCount papers selectedPaperIds =
      (Dialog.disconnectedNodes (Page.dialogPapers papers selectedPaperIds)).length := by
  refine ⟨?_, rfl⟩
  unfold Page.duplicateGroupsCount Dialog.findDuplicates
  rw [page_allNodes_eq]
  have hf : (fun groups node => Page.groupNode groups node) = groupNode := by
    funext groups node
    exact page_groupNode_eq groups node
  have hf2 : Page.groupNode = groupNode := hf
  rw [hf2]
  cases (Dialog.allNodes (Page.dialogPapers papers selectedPaperIds)).foldlM groupNode [] with
  | error e => rfl
  | ok groups =>
    simp only [Except.map, objectValues, List.filter_map, List.length_map, Except.ok.injEq]
    rfl

/-- Claim C26, evaluated on a document whose only node has the string id `n1` and the
string label `constructor`: `findDuplicates` and the page's `duplicateGroupsCount` both
raise a `TypeError`; orphan detection returns the node. -/
theorem detectors_raise_on_builtin_label :
    (Dialog.allNodes [docBuiltin]).map (fun n => (n.id, n.label)) =
      [(some "n1", some "constructor")] ∧
    Dialog.findDuplicates (Dialog.allNodes [docBuiltin]) =
      .error "TypeError: groups[normalizedLabel].push is not a function" ∧
    Page.duplicateGroupsCount [docBuiltin] ["K"] =
      .error "TypeError: groups[normalizedLabel].push is not a function" ∧
    (Dialog.disconnectedNodes [docBuiltin]).map (fun n => n.id) = [some "n1"] := by
  decide

/-- Claim C28, evaluated on documents A and B, listed in that order and selected in the
order B, A, whose nodes `n1` of A and `n2` of B are labelled `Apple` and `apple`: the
dialog is given the documents in list order, so the first node of the group `apple` is
`n1` of document A, while the combined view, built in selection order, keeps `n2` of
document B for that label. -/
theorem primary_differs_from_kept_node :
    Page.dialogPapers [docApple, docOther] ["B", "A"] = [docApple, docOther] ∧
    (Dialog.findDuplicates (Dialog.allNodes (Page.dialogPapers [docApple, docOther]
        ["B", "A"]))).map
        (fun groups => groups.map (fun g =>
          (g.label, g.nodes.head?.map (fun n => (n.id, n.paper_id))))) =
      .ok [("apple", some (some "n1", "A"))] ∧
    (buildCombinedGraph (fun _ => 0) (completedPapers [docApple, docOther])
        ["B", "A"]).nodes.map (fun g => (g.label.map normalize, g.id, g.paper_id)) =
      [(some "apple", "n2", "B")] := by
  decide

/-! ## Deleting the selected nodes -/

theorem contains_eq_true_iff_mem {α : Type} [DecidableEq α] (l : List α) (a : α) :
    l.contains a = true ↔ a ∈ l := by
  rw [List.contains_iff_exists_mem_beq]
  constructor
  · rintro ⟨b, hb, hab⟩
    have : a = b := by simpa using hab
    exact this ▸ hb
  · intro h
    exact ⟨a, h, by simp⟩

theorem contains_eq_false_iff_not_mem {α : Type} [DecidableEq α] (l : List α) (a : α) :
    l.contains a = false ↔ a ∉ l := by
  rw [← contains_eq_true_iff_mem, Bool.not_eq_true]

theorem ownerOf_eq_none_iff (allNodes : List FlatNode) (nodeId : Option String) :
    ownerOf allNodes nodeId = none ↔
      allNodes.find? (fun n => decide (n.id = nodeId)) = none := by
  unfold ownerOf
  cases allNodes.find? (fun n => decide (n.id = nodeId)) <;> simp

theorem ownerOf_eq_some_iff (allNodes : List FlatNode) (nodeId : Option String) (k : String) :
    ownerOf allNodes nodeId = some k ↔
      ∃ node, allNodes.find? (fun n => decide (n.id = nodeId)) = some node ∧
        node.paper_id = k := by
  unfold ownerOf
  cases allNodes.find? (fun n => decide (n.id = nodeId)) <;> simp

theorem fileNodeId_skip (allNodes : List FlatNode)
    (groups : List (String × List (Option String))) (nodeId : Option String)
    (hk : ownerOf allNodes nodeId = none) : fileNodeId allNodes groups nodeId = .ok groups := by
  unfold fileNodeId
  rw [(ownerOf_eq_none_iff allNodes nodeId).mp hk]

theorem fileNodeId_own (allNodes : List FlatNode)
    (groups : List (String × List (Option String))) (nodeId : Option String)
    (k : String) (hk : ownerOf allNodes nodeId = some k) (hown : k ∈ groups.map (·.1)) :
    fileNodeId allNodes groups nodeId =
      .ok (groups.map (fun e => if e.1 = k then (e.1, e.2 ++ [nodeId]) else e)) := by
  obtain ⟨node, h1, h2⟩ := (ownerOf_eq_some_iff allNodes nodeId k).mp hk
  have hc : (groups.map (·.1)).contains k = true := (contains_eq_true_iff_mem _ _).mpr hown
  unfold fileNodeId
  rw [h1]
  simp only [h2, hc, if_true]

theorem fileNodeId_inherited (allNodes : List FlatNode)
    (groups : List (String × List (Option String))) (nodeId : Option String)
    (k : String) (hk : ownerOf allNodes nodeId = some k) (hown : k ∉ groups.map (·.1))
    (hproto : k ∈ objectPrototypeKeys) :
    fileNodeId allNodes groups nodeId =
      .error "TypeError: nodesByPaper[node.paper_id].push is not a function" := by
  obtain ⟨node, h1, h2⟩ := (ownerOf_eq_some_iff allNodes nodeId k).mp hk
  have hc : (groups.map (·.1)).contains k = false :=
    (contains_eq_false_iff_not_mem _ _).mpr hown
  have hp : objectPrototypeKeys.contains k = true := (contains_eq_true_iff_mem _ _).mpr hproto
  unfold fileNodeId
  rw [h1]
  simp only [h2, hc, hp, if_true, Bool.false_eq_true, if_false]

theorem fileNodeId_new (allNodes : List FlatNode)
    (groups : List (String × List (Option String))) (nodeId : Option String)
    (k : String) (hk : ownerOf allNodes nodeId = some k) (hown : k ∉ groups.map (·.1))
    (hproto : k ∉ objectPrototypeKeys) :
    fileNodeId allNodes groups nodeId = .ok (groups ++ [(k, [nodeId])]) := by
  obtain ⟨node, h1, h2⟩ := (ownerOf_eq_some_iff allNodes nodeId k).mp hk
  have hc : (groups.map (·.1)).contains k = false :=
    (contains_eq_false_iff_not_mem _ _).mpr hown
  have hp : objectPrototypeKeys.contains k = false :=
    (contains_eq_false_iff_not_mem _ _).mpr hproto
  unfold fileNodeId
  rw [h1]
  simp only [h2, hc, hp, Bool.false_eq_true, if_false]

theorem filter_ownerOf_snoc (allNodes : List FlatNode) (h : List (Option String))
    (nodeId : Option String) (k : String) :
    (h ++ [nodeId]).filter (fun i => decide (ownerOf allNodes i = some k)) =
      h.filter (fun i => decide (ownerOf allNodes i = some k)) ++
        (if ownerOf allNodes nodeId = some k then [nodeId] else []) := by
  rw [List.filter_append]
  by_cases hk : ownerOf allNodes nodeId = some k
  · simp [hk]
  · simp [hk]

theorem filedInv_step (allNodes : List FlatNode)
    (groups groups1 : List (String × List (Option String))) (h : List (Option String))
    (nodeId : Option String) (hI : FiledInv allNodes groups h)
    (hstep : fileNodeId allNodes groups nodeId = .ok groups1) :
    FiledInv allNodes groups1 (h ++ [nodeId]) := by
  cases hk : ownerOf allNodes nodeId with
  | none =>
    rw [fileNodeId_skip allNodes groups nodeId hk] at hstep
    cases hstep
    refine ⟨?_, ?_, hI.safe⟩
    · rw [List.filterMap_append, List.filterMap_cons_none hk]
      simpa using hI.keys
    · intro e he
      rw [filter_ownerOf_snoc, hk]
      simpa using hI.vals e he
  | some k =>
    have hfm : (h ++ [nodeId]).filterMap (ownerOf allNodes) =
        h.filterMap (ownerOf allNodes) ++ [k] := by
      rw [List.filterMap_append, List.filterMap_cons_some hk]
      rfl
    by_cases hown : k ∈ groups.map (·.1)
    · rw [fileNodeId_own allNodes groups nodeId k hk hown] at hstep
      cases hstep
      have hkeys :
          (groups.map (fun e => if e.1 = k then (e.1, e.2 ++ [nodeId]) else e)).map (·.1) =
            groups.map (·.1) := by
        rw [List.map_map]
        apply List.map_congr_left
        intro e _
        by_cases he : e.1 = k
        · simp [he]
        · simp [he]
      refine ⟨?_, ?_, ?_⟩
      · rw [hkeys, hfm, setToArray_snoc, if_pos (by rw [← hI.keys]; exact hown)]
        exact hI.keys
      · intro e1 he1
        obtain ⟨e, he, rfl⟩ := List.mem_map.mp he1
        by_cases hek : e.1 = k
        · rw [if_pos hek, filter_ownerOf_snoc]
          simp only
          rw [hk, hek, if_pos rfl, ← hek]
          rw [hI.vals e he]
        · rw [if_neg hek, filter_ownerOf_snoc, hk]
          have : ¬ (some k = some e.1) := fun hh => hek (Option.some.inj hh).symm
          rw [if_neg this]
          simpa using hI.vals e he
      · intro e1 he1
        obtain ⟨e, he, rfl⟩ := List.mem_map.mp he1
        by_cases hek : e.1 = k
        · rw [if_pos hek]; exact hI.safe e he
        · rw [if_neg hek]; exact hI.safe e he
    · by_cases hproto : k ∈ objectPrototypeKeys
      · rw [fileNodeId_inherited allNodes groups nodeId k hk hown hproto] at hstep
        cases hstep
      · rw [fileNodeId_new allNodes groups nodeId k hk hown hproto] at hstep
        cases hstep
        have hnot : k ∉ setToArray (h.filterMap (ownerOf allNodes)) := by
          rw [← hI.keys]; exact hown
        refine ⟨?_, ?_, ?_⟩
        · rw [List.map_append, hfm, setToArray_snoc, if_neg hnot, hI.keys]
          rfl
        · intro e he
          rcases List.mem_append.mp he with he1 | he1
          · have hek : e.1 ≠ k := by
              intro hh
              exact hown (hh ▸ List.mem_map_of_mem (·.1) he1)
            rw [filter_ownerOf_snoc, hk]
            have : ¬ (some k = some e.1) := fun hh => hek (Option.some.inj hh).symm
            rw [if_neg this]
            simpa using hI.vals e he1
          · have hee : e = (k, [nodeId]) := by simpa using he1
            rw [hee, filter_ownerOf_snoc, hk, if_pos rfl]
            have hnil : h.filter (fun i => decide (ownerOf allNodes i = some k)) = [] := by
              rw [List.filter_eq_nil_iff]
              intro n hn
              simp only [decide_eq_true_eq]
              intro hnk
              apply hnot
              rw [mem_setToArray, List.mem_filterMap]
              exact ⟨n, hn, hnk⟩
            rw [hnil]
            rfl
        · intro e he
          rcases List.mem_append.mp he with he1 | he1
          · exact hI.safe e he1
          · have hee : e = (k, [nodeId]) := by simpa using he1
            rw [hee]; exact hproto

theorem filedInv_fold (allNodes : List FlatNode) (ids : List (Option String))
    (groups groups1 : List (String × List (Option String))) (h : List (Option String))
    (hI : FiledInv allNodes groups h)
    (hfold : ids.foldlM (fileNodeId allNodes) groups = .ok groups1) :
    FiledInv allNodes groups1 (h ++ ids) := by
  induction ids generalizing groups h with
  | nil =>
    simp only [List.foldlM_nil] at hfold
    cases hfold
    simpa using hI
  | cons nodeId ids ih =>
    rw [List.foldlM_cons] at hfold
    cases hstep : fileNodeId allNodes groups nodeId with
    | error e => rw [hstep] at hfold; cases hfold
    | ok g1 =>
      rw [hstep] at hfold
      have := ih g1 (h ++ [nodeId]) (filedInv_step allNodes groups g1 h nodeId hI hstep) hfold
      simpa using this

theorem filedInv_nil (allNodes : List FlatNode) : FiledInv allNodes [] [] :=
  ⟨rfl, (fun e he => by cases he), (fun e he => by cases he)⟩

theorem foldlM_fileNodeId_ok (allNodes : List FlatNode) (ids : List (Option String))
    (groups : List (String × List (Option String)))
    (hsafe : ∀ i ∈ ids, ∀ k, ownerOf allNodes i = some k → k ∉ objectPrototypeKeys) :
    ∃ groups1, ids.foldlM (fileNodeId allNodes) groups = .ok groups1 := by
  induction ids generalizing groups with
  | nil => exact ⟨groups, rfl⟩
  | cons nodeId ids ih =>
    have hrest : ∀ i ∈ ids, ∀ k, ownerOf allNodes i = some k → k ∉ objectPrototypeKeys :=
      fun i hi => hsafe i (List.mem_cons_of_mem nodeId hi)
    rw [List.foldlM_cons]
    cases hk : ownerOf allNodes nodeId with
    | none =>
      rw [fileNodeId_skip allNodes groups nodeId hk]
      exact ih groups hrest
    | some k =>
      by_cases hown : k ∈ groups.map (·.1)
      · rw [fileNodeId_own allNodes groups nodeId k hk hown]
        exact ih _ hrest
      · rw [fileNodeId_new allNodes groups nodeId k hk hown
          (hsafe nodeId (List.mem_cons_self nodeId ids) k hk)]
        exact ih _ hrest

theorem updateEachPaper_mem (papers : List Paper) (updateRejects : String → Bool)
    (entries : List (String × List (Option String))) (u : String × KnowledgeGraph)
    (hu : u ∈ (updateEachPaper papers updateRejects entries).1) :
    ∃ e ∈ entries, ∃ paper nodes relationships,
      u.1 = e.1 ∧ papers.find? (fun p => p.id == e.1) = some paper ∧
      paper.knowledge_graph.bind (·.nodes) = some nodes ∧
      paper.knowledge_graph.bind (·.relationships) = some relationships ∧
      u.2 = updatedGraph nodes relationships e.2 := by
  induction entries with
  | nil => simp [updateEachPaper] at hu
  | cons e rest ih =>
    obtain ⟨paperId, nodeIds⟩ := e
    have lift : (∃ e ∈ rest, ∃ paper nodes relationships,
        u.1 = e.1 ∧ papers.find? (fun p => p.id == e.1) = some paper ∧
        paper.knowledge_graph.bind (·.nodes) = some nodes ∧
        paper.knowledge_graph.bind (·.relationships) = some relationships ∧
        u.2 = updatedGraph nodes relationships e.2) →
        ∃ e ∈ (paperId, nodeIds) :: rest, ∃ paper nodes relationships,
        u.1 = e.1 ∧ papers.find? (fun p => p.id == e.1) = some paper ∧
        paper.knowledge_graph.bind (·.nodes) = some nodes ∧
        paper.knowledge_graph.bind (·.relationships) = some relationships ∧
        u.2 = updatedGraph nodes relationships e.2 := by
      rintro ⟨e, he, h⟩
      exact ⟨e, List.mem_cons_of_mem _ he, h⟩
    unfold updateEachPaper at hu
    cases hf : papers.find? (fun p => p.id == paperId) with
    | none =>
      rw [hf] at hu
      exact lift (ih hu)
    | some paper =>
      rw [hf] at hu
      cases hn : paper.knowledge_graph.bind (·.nodes) with
      | none => simp [hn] at hu
      | some nodes =>
        cases hr : paper.knowledge_graph.bind (·.relationships) with
        | none => simp [hn, hr] at hu
        | some relationships =>
          simp only [hn, hr] at hu
          by_cases hrej : updateRejects paperId = true
          · rw [if_pos hrej] at hu
            have hu1 : u = (paperId, updatedGraph nodes relationships nodeIds) := by
              simpa using hu
            exact ⟨(paperId, nodeIds), List.mem_cons_self _ _, paper, nodes, relationships,
              by rw [hu1], hf, hn, hr, by rw [hu1]⟩
          · rw [if_neg hrej] at hu
            rcases List.mem_cons.mp hu with hu1 | hu1
            · exact ⟨(paperId, nodeIds), List.mem_cons_self _ _, paper, nodes, relationships,
                by rw [hu1], hf, hn, hr, by rw [hu1]⟩
            · exact lift (ih hu1)

theorem updateEachPaper_ok (papers : List Paper) (updateRejects : String → Bool)
    (entries : List (String × List (Option String)))
    (haccept : ∀ id, updateRejects id = false)
    (hlists : ∀ e ∈ entries, ∀ paper, papers.find? (fun p => p.id == e.1) = some paper →
      ∃ nodes relationships, paper.knowledge_graph.bind (·.nodes) = some nodes ∧
        paper.knowledge_graph.bind (·.relationships) = some relationships) :
    (updateEachPaper papers updateRejects entries).2 = none ∧
    ∀ e ∈ entries, ∀ paper nodes relationships,
      papers.find? (fun p => p.id == e.1) = some paper →
      paper.knowledge_graph.bind (·.nodes) = some nodes →
      paper.knowledge_graph.bind (·.relationships) = some relationships →
      (e.1, updatedGraph nodes relationships e.2) ∈
        (updateEachPaper papers updateRejects entries).1 := by
  induction entries with
  | nil => exact ⟨rfl, fun e he => by cases he⟩
  | cons e0 rest ih =>
    obtain ⟨paperId, nodeIds⟩ := e0
    obtain ⟨ih1, ih2⟩ := ih (fun e he => hlists e (List.mem_cons_of_mem _ he))
    unfold updateEachPaper
    cases hf : papers.find? (fun p => p.id == paperId) with
    | none =>
      refine ⟨ih1, ?_⟩
      intro e he paper nodes relationships hp hn hr
      rcases List.mem_cons.mp he with he1 | he1
      · rw [he1] at hp
        rw [hf] at hp
        cases hp
      · exact ih2 e he1 paper nodes relationships hp hn hr
    | some paper0 =>
      obtain ⟨nodes0, rels0, hn0, hr0⟩ :=
        hlists (paperId, nodeIds) (List.mem_cons_self _ _) paper0 hf
      simp only [hn0, hr0, haccept paperId, Bool.false_eq_true, if_false]
      refine ⟨ih1, ?_⟩
      intro e he paper nodes relationships hp hn hr
      rcases List.mem_cons.mp he with he1 | he1
      · rw [he1] at hp
        rw [hf] at hp
        cases hp
        rw [hn0] at hn
        rw [hr0] at hr
        cases hn
        cases hr
        rw [he1]
        exact List.mem_cons_self _ _
      · exact List.mem_cons_of_mem _ (ih2 e he1 paper nodes relationships hp hn hr)

theorem handleDeleteNodes_of_fold (papers : List Paper) (updateRejects : String → Bool)
    (selectedNodes : List (Option String)) (hsel : selectedNodes ≠ [])
    (horphan : Dialog.disconnectedNodes papers ≠ [])
    (nodesByPaper : List (String × List (Option String)))
    (hfold : selectedNodes.foldlM (fileNodeId (Dialog.allNodes papers)) [] = .ok nodesByPaper) :
    (Dialog.handleDeleteNodes papers updateRejects selectedNodes).updates =
      (updateEachPaper papers updateRejects (objectEntries nodesByPaper)).1 ∧
    (Dialog.handleDeleteNodes papers updateRejects selectedNodes).error =
      (updateEachPaper papers updateRejects (objectEntries nodesByPaper)).2 ∧
    (Dialog.handleDeleteNodes papers updateRejects selectedNodes).alerted = false := by
  have h1 : ¬ selectedNodes.length = 0 := by
    intro h; exact hsel (List.length_eq_zero.mp h)
  have h2 : ¬ (Dialog.disconnectedNodes papers).length = 0 := by
    intro h; exact horphan (List.length_eq_zero.mp h)
  unfold Dialog.handleDeleteNodes
  rw [if_neg h1, if_neg h2, hfold]
  simp only
  rcases hres : updateEachPaper papers updateRejects (objectEntries nodesByPaper) with
    ⟨updates, err⟩
  cases err <;> exact ⟨rfl, rfl, rfl⟩

theorem handleDeleteNodes_updates_mem (papers : List Paper) (updateRejects : String → Bool)
    (selectedNodes : List (Option String)) (u : String × KnowledgeGraph)
    (hu : u ∈ (Dialog.handleDeleteNodes papers updateRejects selectedNodes).updates) :
    attributedTo papers selectedNodes u.1 ≠ [] ∧
    ∃ paper nodes relationships,
      papers.find? (fun p => p.id == u.1) = some paper ∧
      paper.knowledge_graph.bind (·.nodes) = some nodes ∧
      paper.knowledge_graph.bind (·.relationships) = some relationships ∧
      u.2 = updatedGraph nodes relationships (attributedTo papers selectedNodes u.1) := by
  by_cases hsel : selectedNodes = []
  · subst hsel
    simp [Dialog.handleDeleteNodes] at hu
  by_cases horphan : Dialog.disconnectedNodes papers = []
  · exfalso
    unfold Dialog.handleDeleteNodes at hu
    rw [horphan] at hu
    have h1 : ¬ selectedNodes.length = 0 := by
      intro h; exact hsel (List.length_eq_zero.mp h)
    simp [h1] at hu
  cases hfold : selectedNodes.foldlM (fileNodeId (Dialog.allNodes papers)) [] with
  | error e =>
    exfalso
    have h1 : ¬ selectedNodes.length = 0 := by
      intro h; exact hsel (List.length_eq_zero.mp h)
    have h2 : ¬ (Dialog.disconnectedNodes papers).length = 0 := by
      intro h; exact horphan (List.length_eq_zero.mp h)
    unfold Dialog.handleDeleteNodes at hu
    rw [if_neg h1, if_neg h2, hfold] at hu
    simp at hu
  | ok nodesByPaper =>
    obtain ⟨hupd, _, _⟩ := handleDeleteNodes_of_fold papers updateRejects selectedNodes hsel
      horphan nodesByPaper hfold
    rw [hupd] at hu
    obtain ⟨e, he, paper, nodes, relationships, hu1, hp, hn, hr, hu2⟩ :=
      updateEachPaper_mem papers updateRejects _ u hu
    have hI : FiledInv (Dialog.allNodes papers) nodesByPaper selectedNodes := by
      have := filedInv_fold (Dialog.allNodes papers) selectedNodes [] nodesByPaper []
        (filedInv_nil _) hfold
      simpa using this
    have he1 : e ∈ nodesByPaper := (mem_objectEntries nodesByPaper e).mp he
    have hv : e.2 = attributedTo papers selectedNodes e.1 := hI.vals e he1
    have hkey : e.1 ∈ setToArray (selectedNodes.filterMap (ownerOf (Dialog.allNodes papers))) := by
      rw [← hI.keys]; exact List.mem_map_of_mem (·.1) he1
    rw [mem_setToArray, List.mem_filterMap] at hkey
    obtain ⟨i, hi, hik⟩ := hkey
    rw [hu1]
    refine ⟨?_, paper, nodes, relationships, hp, hn, hr, by rw [hu2, hv]⟩
    intro hnil
    have : i ∈ attributedTo papers selectedNodes e.1 := by
      unfold attributedTo
      rw [List.mem_filter]
      exact ⟨hi, by simpa using hik⟩
    rw [hnil] at this
    cases this

theorem updatedGraph_nodes (nodes : List Node) (relationships : List Relationship)
    (nodeIds : List (Option String)) :
    (updatedGraph nodes relationships nodeIds).nodes =
      some (nodes.filter (fun n => decide (n.id ∉ nodeIds))) := by
  unfold updatedGraph
  simp only [Option.some.injEq]
  apply List.filter_congr
  intro n _
  by_cases h : n.id ∈ nodeIds
  · simp [h]
  · simp [h]

theorem updatedGraph_relationships (nodes : List Node) (relationships : List Relationship)
    (nodeIds : List (Option String)) :
    (updatedGraph nodes relationships nodeIds).relationships =
      some (relationships.filter (fun r =>
        decide (some r.source_id ∉ nodeIds ∧ some r.target_id ∉ nodeIds))) := by
  unfold updatedGraph
  simp only [Option.some.injEq]
  apply List.filter_congr
  intro r _
  by_cases h1 : some r.source_id ∈ nodeIds <;> by_cases h2 : some r.target_id ∈ nodeIds <;>
    simp [h1, h2]

theorem ownerOf_paper (papers : List Paper) (nodeId : Option String) (k : String)
    (h : ownerOf (Dialog.allNodes papers) nodeId = some k) :
    ∃ paper ∈ papers, paper.id = k ∧
      ∃ node ∈ (paper.knowledge_graph.bind (·.nodes)).getD [], node.id = nodeId := by
  obtain ⟨n, hn, hk⟩ := (ownerOf_eq_some_iff _ _ _).mp h
  have hmem := List.mem_of_find?_eq_some hn
  have hid : n.id = nodeId := by simpa using List.find?_some hn
  obtain ⟨paper, hp, node, hnode, rfl⟩ := (mem_allNodes papers n).mp hmem
  exact ⟨paper, hp, hk, node, hnode, hid⟩

theorem find_paper_of_nodup (papers : List Paper) (paper : Paper) (hp : paper ∈ papers)
    (hids : (papers.map (·.id)).Nodup) :
    papers.find? (fun p => p.id == paper.id) = some paper := by
  induction papers with
  | nil => cases hp
  | cons q rest ih =>
    rw [List.map_cons, List.nodup_cons] at hids
    rw [List.find?_cons]
    rcases List.mem_cons.mp hp with h | h
    · subst h
      simp
    · have hne : q.id ≠ paper.id := by
        intro heq
        exact hids.1 (heq ▸ List.mem_map_of_mem (·.id) h)
      have : (q.id == paper.id) = false := by simpa using hne
      rw [this]
      exact ih h hids.2

/-- What the delete does for the documents it files ids under.  A selected id is attributed to the document of the first flattened node
that has it.  When some id is selected, detection reports an orphan, the documents have
distinct ids that are no property names of `Object.prototype`, every graph with a node
list has a relationship list and the store accepts the updates, `handleDeleteNodes` ends
without error, issues an update for every document to which a selected id is attributed,
and every graph it sends has no node whose id is attributed to that document and no
relationship with such an id as `source_id` or `target_id`. -/
theorem delete_removes_attributed (papers : List Paper) (updateRejects : String → Bool)
    (selectedNodes : List (Option String))
    (hsel : selectedNodes ≠ [])
    (horphan : Dialog.disconnectedNodes papers ≠ [])
    (hids : (papers.map (·.id)).Nodup)
    (hsafe : ∀ p ∈ papers, p.id ∉ objectPrototypeKeys)
    (hlists : ∀ p ∈ papers, (p.knowledge_graph.bind (·.nodes)).isSome = true →
      (p.knowledge_graph.bind (·.relationships)).isSome = true)
    (haccept : ∀ id, updateRejects id = false) :
    (Dialog.handleDeleteNodes papers updateRejects selectedNodes).error = none ∧
    (∀ paper ∈ papers, attributedTo papers selectedNodes paper.id ≠ [] →
      ∃ graph, (paper.id, graph) ∈
        (Dialog.handleDeleteNodes papers updateRejects selectedNodes).updates) ∧
    ∀ u ∈ (Dialog.handleDeleteNodes papers updateRejects selectedNodes).updates,
      ∃ nodes relationships,
        u.2.nodes = some nodes ∧ u.2.relationships = some relationships ∧
        (∀ n ∈ nodes, n.id ∉ attributedTo papers selectedNodes u.1) ∧
        ∀ r ∈ relationships, some r.source_id ∉ attributedTo papers selectedNodes u.1 ∧
          some r.target_id ∉ attributedTo papers selectedNodes u.1 := by
  have howner : ∀ i k, ownerOf (Dialog.allNodes papers) i = some k →
      ∃ paper ∈ papers, paper.id = k ∧
        papers.find? (fun p => p.id == k) = some paper ∧
        ∃ nodes relationships, paper.knowledge_graph.bind (·.nodes) = some nodes ∧
          paper.knowledge_graph.bind (·.relationships) = some relationships := by
    intro i k hik
    obtain ⟨paper, hp, hpk, node, hnode, _⟩ := ownerOf_paper papers i k hik
    have hfind := find_paper_of_nodup papers paper hp hids
    rw [hpk] at hfind
    cases hn : paper.knowledge_graph.bind (·.nodes) with
    | none => rw [hn] at hnode; cases hnode
    | some nodes =>
      have hr := hlists paper hp (by rw [hn]; rfl)
      cases hr2 : paper.knowledge_graph.bind (·.relationships) with
      | none => rw [hr2] at hr; cases hr
      | some relationships => exact ⟨paper, hp, hpk, hfind, nodes, relationships, hn, hr2⟩
  obtain ⟨nodesByPaper, hfold⟩ := foldlM_fileNodeId_ok (Dialog.allNodes papers) selectedNodes []
    (by
      intro i _ k hik
      obtain ⟨paper, hp, hpk, _⟩ := howner i k hik
      rw [← hpk]
      exact hsafe paper hp)
  obtain ⟨hupd, herr, _⟩ := handleDeleteNodes_of_fold papers updateRejects selectedNodes hsel
    horphan nodesByPaper hfold
  have hI : FiledInv (Dialog.allNodes papers) nodesByPaper selectedNodes := by
    have := filedInv_fold (Dialog.allNodes papers) selectedNodes [] nodesByPaper []
      (filedInv_nil _) hfold
    simpa using this
  have hentry : ∀ e ∈ objectEntries nodesByPaper,
      ∃ i ∈ selectedNodes, ownerOf (Dialog.allNodes papers) i = some e.1 := by
    intro e he
    have he1 : e ∈ nodesByPaper := (mem_objectEntries nodesByPaper e).mp he
    have hkey : e.1 ∈ setToArray (selectedNodes.filterMap (ownerOf (Dialog.allNodes papers))) := by
      rw [← hI.keys]; exact List.mem_map_of_mem (·.1) he1
    rw [mem_setToArray, List.mem_filterMap] at hkey
    exact hkey
  obtain ⟨hok1, hok2⟩ := updateEachPaper_ok papers updateRejects (objectEntries nodesByPaper)
    haccept (by
      intro e he paper hfind
      obtain ⟨i, _, hik⟩ := hentry e he
      obtain ⟨paper1, _, _, hfind1, nodes, relationships, hn, hr⟩ := howner i e.1 hik
      rw [hfind] at hfind1
      cases hfind1
      exact ⟨nodes, relationships, hn, hr⟩)
  refine ⟨by rw [herr]; exact hok1, ?_, ?_⟩
  · intro paper hp hattr
    obtain ⟨i, hi⟩ := List.exists_mem_of_ne_nil _ hattr
    unfold attributedTo at hi
    obtain ⟨hi1, hi2⟩ := List.mem_filter.mp hi
    have hik : ownerOf (Dialog.allNodes papers) i = some paper.id := by simpa using hi2
    have hkey : paper.id ∈ nodesByPaper.map (·.1) := by
      rw [hI.keys, mem_setToArray, List.mem_filterMap]
      exact ⟨i, hi1, hik⟩
    obtain ⟨e, he, hek⟩ := List.mem_map.mp hkey
    have hek1 : e.1 = paper.id := hek
    obtain ⟨paper1, _, _, hfind1, nodes, relationships, hn, hr⟩ := howner i paper.id hik
    have := hok2 e ((mem_objectEntries nodesByPaper e).mpr he) paper1 nodes relationships
      (by rw [hek1]; exact hfind1) hn hr
    rw [hek1] at this
    rw [hupd]
    exact ⟨_, this⟩
  · intro u hu
    obtain ⟨_, paper, nodes, relationships, _, _, _, hu2⟩ :=
      handleDeleteNodes_updates_mem papers updateRejects selectedNodes u hu
    refine ⟨_, _, by rw [hu2]; exact updatedGraph_nodes _ _ _,
      by rw [hu2]; exact updatedGraph_relationships _ _ _, ?_, ?_⟩
    · intro n hn
      simpa using (List.mem_filter.mp hn).2
    · intro r hr
      simpa using (List.mem_filter.mp hr).2

/-- The delete on documents A and B with the orphans `n3` and `m2` and the connected node
`n2` selected: document A keeps `n1` and loses the relationship from `n1` to `n2`,
document B keeps `m1` and its relationship. -/
theorem delete_removes_attributed_witness :
    ([some "n3", some "n2", some "m2"] : List (Option String)) ≠ [] ∧
    Dialog.disconnectedNodes [docDeleteA, docDeleteB] ≠ [] ∧
    (Dialog.handleDeleteNodes [docDeleteA, docDeleteB] (fun _ => false)
      [some "n3", some "n2", some "m2"]).updates.map
        (fun u => (u.1, (u.2.nodes.getD []).map (fun n => n.id),
          (u.2.relationships.getD []).map (fun r => (r.source_id, r.target_id)))) =
      [("A", [some "n1"], []), ("B", [some "m1"], [("m1", "m1")])] ∧
    ((Dialog.handleDeleteNodes [docDeleteA, docDeleteB] (fun _ => false)
      [some "n3", some "n2", some "m2"]).error = none ∧
    (∀ paper ∈ [docDeleteA, docDeleteB],
      attributedTo [docDeleteA, docDeleteB] [some "n3", some "n2", some "m2"] paper.id ≠ [] →
      ∃ graph, (paper.id, graph) ∈
        (Dialog.handleDeleteNodes [docDeleteA, docDeleteB] (fun _ => false)
          [some "n3", some "n2", some "m2"]).updates) ∧
    ∀ u ∈ (Dialog.handleDeleteNodes [docDeleteA, docDeleteB] (fun _ => false)
        [some "n3", some "n2", some "m2"]).updates,
      ∃ nodes relationships,
        u.2.nodes = some nodes ∧ u.2.relationships = some relationships ∧
        (∀ n ∈ nodes, n.id ∉
          attributedTo [docDeleteA, docDeleteB] [some "n3", some "n2", some "m2"] u.1) ∧
        ∀ r ∈ relationships,
          some r.source_id ∉
            attributedTo [docDeleteA, docDeleteB] [some "n3", some "n2", some "m2"] u.1 ∧
          some r.target_id ∉
            attributedTo [docDeleteA, docDeleteB] [some "n3", some "n2", some "m2"] u.1) :=
  ⟨by decide, by decide, by decide,
    delete_removes_attributed [docDeleteA, docDeleteB] (fun _ => false)
      [some "n3", some "n2", some "m2"] (by decide) (by decide) (by decide) (by decide)
      (by decide) (fun _ => rfl)⟩

/-- Claim C30. Every update `handleDeleteNodes` issues is for a document to which some
selected id is attributed, and the graph it sends holds the nodes of that document whose
id is not attributed to it and the relationships of that document with neither endpoint
attributed to it, as they were and in their order. -/
theorem delete_keeps_the_rest (papers : List Paper) (updateRejects : String → Bool)
    (selectedNodes : List (Option String)) :
    ∀ u ∈ (Dialog.handleDeleteNodes papers updateRejects selectedNodes).updates,
      attributedTo papers selectedNodes u.1 ≠ [] ∧
      ∃ paper nodes relationships,
        papers.find? (fun p => p.id == u.1) = some paper ∧
        paper.knowledge_graph.bind (·.nodes) = some nodes ∧
        paper.knowledge_graph.bind (·.relationships) = some relationships ∧
        u.2.nodes =
          some (nodes.filter (fun n => decide (n.id ∉ attributedTo papers selectedNodes u.1))) ∧
        u.2.relationships =
          some (relationships.filter (fun r =>
            decide (some r.source_id ∉ attributedTo papers selectedNodes u.1 ∧
              some r.target_id ∉ attributedTo papers selectedNodes u.1))) := by
  intro u hu
  obtain ⟨hne, paper, nodes, relationships, hp, hn, hr, hu2⟩ :=
    handleDeleteNodes_updates_mem papers updateRejects selectedNodes u hu
  exact ⟨hne, paper, nodes, relationships, hp, hn, hr,
    by rw [hu2]; exact updatedGraph_nodes _ _ _,
    by rw [hu2]; exact updatedGraph_relationships _ _ _⟩

/-- Claim C30 on documents A and B with `n3`, `n2` and `m2` selected: the update of
document A is one of the updates issued; the ids `n3` and `n2` are attributed to A, and
the graph sent keeps the node `n1` and no relationship. -/
theorem delete_keeps_the_rest_witness :
    (("A", { nodes := some [labelled "n1" "One"], relationships := some [] }) ∈
      (Dialog.handleDeleteNodes [docDeleteA, docDeleteB] (fun _ => false)
        [some "n3", some "n2", some "m2"]).updates) ∧
    attributedTo [docDeleteA, docDeleteB] [some "n3", some "n2", some "m2"] "A" =
      [some "n3", some "n2"] ∧
    (attributedTo [docDeleteA, docDeleteB] [some "n3", some "n2", some "m2"] "A" ≠ [] ∧
      ∃ paper nodes relationships,
        [docDeleteA, docDeleteB].find? (fun p => p.id == "A") = some paper ∧
        paper.knowledge_graph.bind (·.nodes) = some nodes ∧
        paper.knowledge_graph.bind (·.relationships) = some relationships ∧
        some [labelled "n1" "One"] =
          some (nodes.filter (fun n => decide (n.id ∉
            attributedTo [docDeleteA, docDeleteB] [some "n3", some "n2", some "m2"] "A"))) ∧
        some [] =
          some (relationships.filter (fun r =>
            decide (some r.source_id ∉
                attributedTo [docDeleteA, docDeleteB] [some "n3", some "n2", some "m2"] "A" ∧
              some r.target_id ∉
                attributedTo [docDeleteA, docDeleteB] [some "n3", some "n2", some "m2"] "A")))) :=
  ⟨by decide, by decide,
    delete_keeps_the_rest [docDeleteA, docDeleteB] (fun _ => false)
      [some "n3", some "n2", some "m2"]
      ("A", { nodes := some [labelled "n1" "One"], relationships := some [] }) (by decide)⟩

/-- Claim C22, evaluated on documents A and B that each own an orphan with the id `n1`:
both are reported; deleting the id `n1` updates document A only, all updates succeed, and
detection on the updated documents still reports the node `n1` of document B. -/
theorem delete_reports_same_id_again :
    (Dialog.disconnectedNodes [docApple, docRight]).map (fun n => (n.id, n.paper_id)) =
      [(some "n1", "A"), (some "n1", "B")] ∧
    Dialog.handleDeleteNodes [docApple, docRight] (fun _ => false) [some "n1"] =
      { alerted := false
        updates := [("A", { nodes := some [], relationships := some [] })]
        selectionCleared := true, onUpdateCalled := true, error := none } ∧
    (Dialog.disconnectedNodes (Store.applyUpdates [docApple, docRight]
        (Dialog.handleDeleteNodes [docApple, docRight] (fun _ => false)
          [some "n1"]).updates)).map (fun n => (n.id, n.paper_id)) =
      [(some "n1", "B")] := by
  decide

/-- Claim C25 as stated fails on documents A and B with the orphans `n3` and `m2`
selected: when the store accepts everything both documents are updated; when it rejects
the update of document A the run ends with that error and the update of document B is
never issued. -/
theorem delete_stops_at_rejected_update :
    (Dialog.disconnectedNodes [docDeleteA, docDeleteB]).map (fun n => (n.id, n.paper_id)) =
      [(some "n3", "A"), (some "m2", "B")] ∧
    (Dialog.handleDeleteNodes [docDeleteA, docDeleteB] (fun _ => false)
        [some "n3", some "m2"]).updates.map (fun u => u.1) = ["A", "B"] ∧
    (Dialog.handleDeleteNodes [docDeleteA, docDeleteB] (fun id => id == "A")
        [some "n3", some "m2"]).updates.map (fun u => u.1) = ["A"] ∧
    (Dialog.handleDeleteNodes [docDeleteA, docDeleteB] (fun id => id == "A")
        [some "n3", some "m2"]).error = some "update rejected" := by
  decide

/-- Claim C21, evaluated on two inputs.  Documents A and B each own an orphan with the id
`n1` and that id is selected: the run ends without error, the only update is for document
A, and document B, which owns a selected node, is not updated and keeps its node `n1`.
A document whose graph has the orphans `n1` and `n2` and no field `relationships`, with
`n1` selected: `handleDeleteNodes` raises a `TypeError` on
`paper.knowledge_graph.relationships.filter` and issues no update. -/
theorem delete_skips_second_owner :
    (Dialog.disconnectedNodes [docApple, docRight]).map (fun n => (n.id, n.paper_id)) =
      [(some "n1", "A"), (some "n1", "B")] ∧
    (Dialog.handleDeleteNodes [docApple, docRight] (fun _ => false) [some "n1"]).error = none ∧
    (Dialog.handleDeleteNodes [docApple, docRight] (fun _ => false)
        [some "n1"]).updates.map (fun u => u.1) = ["A"] ∧
    (Store.applyUpdates [docApple, docRight]
        (Dialog.handleDeleteNodes [docApple, docRight] (fun _ => false)
          [some "n1"]).updates).map
        (fun p => (p.id, ((p.knowledge_graph.bind (·.nodes)).getD []).map (fun n => n.id))) =
      [("A", []), ("B", [some "n1"])] ∧
    (Dialog.disconnectedNodes [docNoRelationships]).map (fun n => n.id) =
      [some "n1", some "n2"] ∧
    Dialog.handleDeleteNodes [docNoRelationships] (fun _ => false) [some "n1"] =
      { alerted := false, updates := [], selectionCleared := false, onUpdateCalled := false,
        error := some "TypeError: cannot read properties of undefined" } := by
  decide

theorem updateEachPaper_until_rejected (papers : List Paper) (updateRejects : String → Bool)
    (entries : List (String × List (Option String))) :
    (updateEachPaper papers updateRejects entries).1 =
      ((updateEachPaper papers (fun _ => false) entries).1).takeWhile
          (fun u => !updateRejects u.1) ++
        (((updateEachPaper papers (fun _ => false) entries).1).dropWhile
          (fun u => !updateRejects u.1)).take 1 ∧
    ((∃ u ∈ (updateEachPaper papers (fun _ => false) entries).1, updateRejects u.1 = true) →
      (updateEachPaper papers updateRejects entries).2 = some "update rejected") := by
  induction entries with
  | nil => simp [updateEachPaper]
  | cons e rest ih =>
    obtain ⟨paperId, nodeIds⟩ := e
    obtain ⟨ih1, ih2⟩ := ih
    simp only [updateEachPaper]
    cases hf : papers.find? (fun p => p.id == paperId) with
    | none => exact ⟨ih1, ih2⟩
    | some paper =>
      cases hn : paper.knowledge_graph.bind (·.nodes) with
      | none => simp [hn]
      | some nodes =>
        cases hr : paper.knowledge_graph.bind (·.relationships) with
        | none => simp [hn, hr]
        | some relationships =>
          simp only [hn, hr, Bool.false_eq_true, if_false]
          by_cases hrej : updateRejects paperId = true
          · simp [hrej]
          · have hrej2 : updateRejects paperId = false := by simpa using hrej
            simp only [hrej2, Bool.false_eq_true, if_false, List.takeWhile_cons,
              List.dropWhile_cons, Bool.not_false, if_true, List.cons_append]
            refine ⟨by rw [← ih1], ?_⟩
            rintro ⟨u, hu, hur⟩
            rcases List.mem_cons.mp hu with h | h
            · rw [h] at hur
              rw [hrej2] at hur
              cases hur
            · exact ih2 ⟨u, h, hur⟩

theorem handleDeleteNodes_flags (papers : List Paper) (updateRejects : String → Bool)
    (selectedNodes : List (Option String)) (e : String)
    (herr : (Dialog.handleDeleteNodes papers updateRejects selectedNodes).error = some e) :
    (Dialog.handleDeleteNodes papers updateRejects selectedNodes).selectionCleared = false ∧
    (Dialog.handleDeleteNodes papers updateRejects selectedNodes).onUpdateCalled = false := by
  unfold Dialog.handleDeleteNodes at herr ⊢
  split
  · exact ⟨rfl, rfl⟩
  · split
    · exact ⟨rfl, rfl⟩
    · split
      · exact ⟨rfl, rfl⟩
      · split
        · exact ⟨rfl, rfl⟩
        · rename_i h1 h2 _ _ hfold _ _ hres
          rw [if_neg h1, if_neg h2] at herr
          simp only [hfold, hres] at herr
          cases herr

/-- Claim C25, as amended. The updates `handleDeleteNodes` issues under a store that
rejects some updates are those it issues under a store that accepts everything, in the
same order and with the same graphs, up to and including the first one the store
rejects: the updates before it stay issued and nothing is sent to undo them, and no
update is issued for the documents after it.  When there is such a rejected update the
run ends with its error, the selection is not cleared and `onUpdate` is not called. -/
theorem delete_ends_at_first_rejected_update (papers : List Paper)
    (updateRejects : String → Bool) (selectedNodes : List (Option String)) :
    (Dialog.handleDeleteNodes papers updateRejects selectedNodes).updates =
      ((Dialog.handleDeleteNodes papers (fun _ => false) selectedNodes).updates).takeWhile
          (fun u => !updateRejects u.1) ++
        (((Dialog.handleDeleteNodes papers (fun _ => false) selectedNodes).updates).dropWhile
          (fun u => !updateRejects u.1)).take 1 ∧
    ((∃ u ∈ (Dialog.handleDeleteNodes papers (fun _ => false) selectedNodes).updates,
        updateRejects u.1 = true) →
      (Dialog.handleDeleteNodes papers updateRejects selectedNodes).error =
          some "update rejected" ∧
        (Dialog.handleDeleteNodes papers updateRejects selectedNodes).selectionCleared = false ∧
        (Dialog.handleDeleteNodes papers updateRejects selectedNodes).onUpdateCalled = false) := by
  by_cases hsel : selectedNodes = []
  · subst hsel
    simp [Dialog.handleDeleteNodes]
  by_cases horphan : Dialog.disconnectedNodes papers = []
  · have h1 : ¬ selectedNodes.length = 0 := fun h => hsel (List.length_eq_zero.mp h)
    unfold Dialog.handleDeleteNodes
    simp [h1, horphan]
  cases hfold : selectedNodes.foldlM (fileNodeId (Dialog.allNodes papers)) [] with
  | error e =>
    have h1 : ¬ selectedNodes.length = 0 := fun h => hsel (List.length_eq_zero.mp h)
    have h2 : ¬ (Dialog.disconnectedNodes papers).length = 0 :=
      fun h => horphan (List.length_eq_zero.mp h)
    unfold Dialog.handleDeleteNodes
    simp [h1, h2, hfold]
  | ok nodesByPaper =>
    obtain ⟨hupdR, herrR, _⟩ := handleDeleteNodes_of_fold papers updateRejects selectedNodes
      hsel horphan nodesByPaper hfold
    obtain ⟨hupdA, _, _⟩ := handleDeleteNodes_of_fold papers (fun _ => false) selectedNodes
      hsel horphan nodesByPaper hfold
    obtain ⟨hp1, hp2⟩ := updateEachPaper_until_rejected papers updateRejects
      (objectEntries nodesByPaper)
    rw [hupdR, hupdA]
    refine ⟨hp1, fun hex => ?_⟩
    have herr : (Dialog.handleDeleteNodes papers updateRejects selectedNodes).error =
        some "update rejected" := by rw [herrR]; exact hp2 hex
    exact ⟨herr, handleDeleteNodes_flags papers updateRejects selectedNodes _ herr⟩

/-- The amended claim C25 on documents A and B with the orphans `n3` and `m2` selected
and a store that rejects the update of document A: that update is one the run would
issue, so the run ends with its error, the selection is kept and `onUpdate` is not
called. -/
theorem delete_ends_at_first_rejected_update_witness :
    (∃ u ∈ (Dialog.handleDeleteNodes [docDeleteA, docDeleteB] (fun _ => false)
        [some "n3", some "m2"]).updates, (fun id => id == "A") u.1 = true) ∧
    ((Dialog.handleDeleteNodes [docDeleteA, docDeleteB] (fun id => id == "A")
        [some "n3", some "m2"]).error = some "update rejected" ∧
      (Dialog.handleDeleteNodes [docDeleteA, docDeleteB] (fun id => id == "A")
        [some "n3", some "m2"]).selectionCleared = false ∧
      (Dialog.handleDeleteNodes [docDeleteA, docDeleteB] (fun id => id == "A")
        [some "n3", some "m2"]).onUpdateCalled = false) :=
  ⟨by decide,
    (delete_ends_at_first_rejected_update [docDeleteA, docDeleteB] (fun id => id == "A")
      [some "n3", some "m2"]).2 (by decide)⟩

/-- The loop of `handleDeleteNodes` ends at the first update the store rejects: the
entries that come after it play no part in what the loop does. -/
theorem updateEachPaper_rejected (papers : List Paper) (updateRejects : String → Bool)
    (pre post : List (String × List (Option String))) (e : String × List (Option String))
    (paper : Paper) (nodes : List Node) (relationships : List Relationship)
    (hpre : (updateEachPaper papers updateRejects pre).2 = none)
    (hfind : papers.find? (fun p => p.id == e.1) = some paper)
    (hn : paper.knowledge_graph.bind (·.nodes) = some nodes)
    (hr : paper.knowledge_graph.bind (·.relationships) = some relationships)
    (hrej : updateRejects e.1 = true) :
    updateEachPaper papers updateRejects (pre ++ e :: post) =
      ((updateEachPaper papers updateRejects pre).1 ++
          [(e.1, updatedGraph nodes relationships e.2)],
        some "update rejected") := by
  induction pre with
  | nil =>
    obtain ⟨paperId, nodeIds⟩ := e
    simp only at hfind hrej
    simp only [List.nil_append, updateEachPaper, hfind, hn, hr, hrej, if_true]
  | cons e0 rest ih =>
    obtain ⟨paperId0, nodeIds0⟩ := e0
    rw [List.cons_append]
    simp only [updateEachPaper] at hpre ⊢
    cases hf : papers.find? (fun p => p.id == paperId0) with
    | none =>
      rw [hf] at hpre
      simp only [hf]
      exact ih hpre
    | some paper0 =>
      rw [hf] at hpre
      cases hn0 : paper0.knowledge_graph.bind (·.nodes) with
      | none => simp [hn0] at hpre
      | some nodes0 =>
        cases hr0 : paper0.knowledge_graph.bind (·.relationships) with
        | none => simp [hn0, hr0] at hpre
        | some rels0 =>
          simp only [hn0, hr0] at hpre
          by_cases hrej0 : updateRejects paperId0 = true
          · simp [hrej0] at hpre
          · simp only [hrej0, if_false, Bool.false_eq_true] at hpre
            have := ih hpre
            simp only [hf, hn0, hr0, hrej0, if_false, Bool.false_eq_true, this,
              List.cons_append]

theorem objectEntries_singleton {α : Type} (e : String × α) : objectEntries [e] = [e] :=
  List.perm_singleton.mp (perm_objectEntries [e])

/-- Deleting a reported orphan whose id is carried by the nodes of one document only:
when the documents have distinct ids and the run ends without error, detection on the
updated documents reports no node with that id. -/
theorem delete_then_detect (papers : List Paper) (updateRejects : String → Bool)
    (n : FlatNode) (hn : n ∈ Dialog.disconnectedNodes papers)
    (hids : (papers.map (·.id)).Nodup)
    (hone : ∀ m ∈ Dialog.allNodes papers, m.id = n.id → m.paper_id = n.paper_id)
    (herr : (Dialog.handleDeleteNodes papers updateRejects [n.id]).error = none) :
    ∀ m ∈ Dialog.disconnectedNodes (Store.applyUpdates papers
        (Dialog.handleDeleteNodes papers updateRejects [n.id]).updates), m.id ≠ n.id := by
  have hnall : n ∈ Dialog.allNodes papers := by
    unfold Dialog.disconnectedNodes at hn
    exact (List.mem_filter.mp hn).1
  have horphan : Dialog.disconnectedNodes papers ≠ [] := List.ne_nil_of_mem hn
  have hsel : [n.id] ≠ [] := by simp
  -- the id is filed under the document of `n`
  have howner : ownerOf (Dialog.allNodes papers) n.id = some n.paper_id := by
    have hsome : ((Dialog.allNodes papers).find? (fun x => decide (x.id = n.id))).isSome := by
      rw [List.find?_isSome]
      exact ⟨n, hnall, by simp⟩
    obtain ⟨m0, hm0⟩ := Option.isSome_iff_exists.mp hsome
    have hid : m0.id = n.id := by simpa using List.find?_some hm0
    rw [ownerOf_eq_some_iff]
    exact ⟨m0, hm0, hone m0 (List.mem_of_find?_eq_some hm0) hid⟩
  obtain ⟨paper, hp, node, hnode, hflat⟩ := (mem_allNodes papers n).mp hnall
  have hpid : n.paper_id = paper.id := by rw [hflat]; rfl
  have hfind : papers.find? (fun p => p.id == n.paper_id) = some paper := by
    rw [hpid]; exact find_paper_of_nodup papers paper hp hids
  by_cases hproto : n.paper_id ∈ objectPrototypeKeys
  · exfalso
    have h1 : ¬ ([n.id] : List (Option String)).length = 0 := by simp
    have h2 : ¬ (Dialog.disconnectedNodes papers).length = 0 := by
      intro h; exact horphan (List.length_eq_zero.mp h)
    unfold Dialog.handleDeleteNodes at herr
    rw [if_neg h1, if_neg h2] at herr
    simp only [List.foldlM_cons, List.foldlM_nil] at herr
    rw [fileNodeId_inherited _ [] n.id n.paper_id howner (by simp) hproto] at herr
    simp [bind, Except.bind] at herr
  have hfold : [n.id].foldlM (fileNodeId (Dialog.allNodes papers)) [] =
      .ok [(n.paper_id, [n.id])] := by
    simp only [List.foldlM_cons, List.foldlM_nil]
    rw [fileNodeId_new _ [] n.id n.paper_id howner (by simp) hproto]
    rfl
  obtain ⟨hupd, herr2, _⟩ := handleDeleteNodes_of_fold papers updateRejects [n.id] hsel
    horphan _ hfold
  rw [herr2] at herr
  rw [hupd]
  rw [objectEntries_singleton] at herr ⊢
  simp only [updateEachPaper, hfind] at herr ⊢
  cases hnodes : paper.knowledge_graph.bind (·.nodes) with
  | none => rw [hnodes] at hnode; cases hnode
  | some nodes0 =>
    cases hrels : paper.knowledge_graph.bind (·.relationships) with
    | none => simp [hnodes, hrels] at herr
    | some rels0 =>
      simp only [hnodes, hrels] at herr ⊢
      by_cases hrej : updateRejects n.paper_id = true
      · simp [hrej] at herr
      · simp only [hrej, if_false, Bool.false_eq_true]
        intro m hm
        have hmall : m ∈ Dialog.allNodes (Store.applyUpdates papers
            [(n.paper_id, updatedGraph nodes0 rels0 [n.id])]) := by
          unfold Dialog.disconnectedNodes at hm
          exact (List.mem_filter.mp hm).1
        obtain ⟨p1, hp1, node1, hnode1, hm1⟩ := (mem_allNodes _ m).mp hmall
        simp only [Store.applyUpdates, List.foldl_cons, List.foldl_nil, Store.update] at hp1
        obtain ⟨p, hpmem, hp1eq⟩ := List.mem_map.mp hp1
        have hmid : m.id = node1.id := by rw [hm1]; rfl
        by_cases hpP : p.id = n.paper_id
        · rw [if_pos hpP] at hp1eq
          rw [← hp1eq] at hnode1
          simp only [Option.some_bind, updatedGraph, Option.getD_some] at hnode1
          have := (List.mem_filter.mp hnode1).2
          intro hcon
          rw [hmid] at hcon
          rw [hcon] at this
          simp at this
        · rw [if_neg hpP] at hp1eq
          subst hp1eq
          intro hcon
          have hmold : m ∈ Dialog.allNodes papers :=
            (mem_allNodes papers m).mpr ⟨p, hpmem, node1, hnode1, hm1⟩
          have := hone m hmold hcon
          apply hpP
          rw [← this, hm1]
          rfl

/-- The general statement on one document with the orphan `n3`. -/
theorem delete_then_detect_witness :
    flatten docDeleteA (labelled "n3" "Three") ∈ Dialog.disconnectedNodes [docDeleteA] ∧
    ∀ m ∈ Dialog.disconnectedNodes (Store.applyUpdates [docDeleteA]
        (Dialog.handleDeleteNodes [docDeleteA] (fun _ => false) [some "n3"]).updates),
      m.id ≠ some "n3" :=
  ⟨by decide,
    delete_then_detect [docDeleteA] (fun _ => false) (flatten docDeleteA (labelled "n3" "Three"))
      (by decide) (by decide) (by decide) (by decide)⟩

/-! ## Merge and combine on the primary -/

theorem selectedGraphs_of_list_order (completed dp : List Paper)
    (hids : (completed.map (·.id)).Nodup) (hsub : ∀ p ∈ dp, p ∈ completed) :
    selectedGraphs completed (dp.map (·.id)) =
      dp.filterMap (fun p => p.knowledge_graph.map (fun kg => (p.id, p, kg))) := by
  unfold selectedGraphs
  rw [List.filterMap_map]
  apply List.filterMap_congr
  intro p hp
  simp only [Function.comp]
  rw [find_paper_of_nodup completed p (hsub p hp) hids]
  rfl

theorem paperVisits_flatten (p : Paper) (kg : KnowledgeGraph) :
    (paperVisits (p.id, p, kg)).map (fun v => flatten v.paper v.node) =
      (kg.nodes.getD []).map (flatten p) := by
  unfold paperVisits
  rw [List.map_map]
  have : ((fun v : Visit => flatten v.paper v.node) ∘
      fun e : Nat × Node => (⟨p.id, p, e.1, e.2⟩ : Visit)) = (flatten p) ∘ Prod.snd := by
    funext e; rfl
  simp only
  rw [this, ← List.map_map, List.enum_map_snd]

theorem visits_flatten (dp : List Paper) :
    ((dp.filterMap (fun p => p.knowledge_graph.map (fun kg => (p.id, p, kg)))).flatMap
        paperVisits).map (fun v => flatten v.paper v.node) = Dialog.allNodes dp := by
  induction dp with
  | nil => rfl
  | cons p dp ih =>
    unfold Dialog.allNodes at ih ⊢
    rw [List.flatMap_cons, ← ih]
    cases hkg : p.knowledge_graph with
    | none =>
      rw [List.filterMap_cons_none (by rw [hkg]; rfl)]
      simp
    | some kg =>
      rw [List.filterMap_cons_some (by rw [hkg]; rfl), List.flatMap_cons, List.map_append,
        paperVisits_flatten]
      rfl

theorem dupKey_flatten_of_trimmed (paper : Paper) (node : Node)
    (h : node.label.map normalize = node.label.map toLowerCase) :
    dupKey (flatten paper node) = keyOf node := by
  unfold dupKey keyOf normalizedLabelOf
  have h1 : (flatten paper node).label = node.label := rfl
  rw [h1]
  have h2 : (node.label.map toLowerCase).map trim = node.label.map normalize := by
    rw [Option.map_map]; rfl
  rw [h2, h]

/-- Where merge and combine do agree: when the completed documents have distinct ids,
the selection lists the ids of the selected documents in list order and no label has
white space around it, the first node of every group `findDuplicates` returns belongs to
the document of the one node the combined view keeps under the group's label, has its
label, and has its id whenever the first node's id is a non-empty string. -/
theorem primary_is_kept_node (random : Nat → ℚ) (papers : List Paper)
    (selectedPaperIds : List String)
    (hids : ((completedPapers papers).map (·.id)).Nodup)
    (horder : selectedPaperIds = (Page.dialogPapers papers selectedPaperIds).map (·.id))
    (hTrim : ∀ w ∈ visits (completedPapers papers) selectedPaperIds,
      w.node.label.map normalize = w.node.label.map toLowerCase)
    (groups : List DuplicateGroup)
    (hgroups : Dialog.findDuplicates
      (Dialog.allNodes (Page.dialogPapers papers selectedPaperIds)) = .ok groups)
    (g : DuplicateGroup) (hg : g ∈ groups) :
    ∃ primary rest kept, g.nodes = primary :: rest ∧
      (buildCombinedGraph random (completedPapers papers) selectedPaperIds).nodes.filter
        (fun x => decide (gkey x = g.label)) = [kept] ∧
      kept.paper_id = primary.paper_id ∧ kept.label = primary.label ∧
      ∀ s, primary.id = some s → s ≠ "" → kept.id = s := by
  obtain ⟨_, hnodes, _⟩ := findDuplicates_spec _ groups hgroups
  obtain ⟨hgn, hcount, hlen⟩ := hnodes g hg
  have hsub : ∀ p ∈ Page.dialogPapers papers selectedPaperIds, p ∈ completedPapers papers := by
    intro p hp
    unfold Page.dialogPapers at hp
    exact (List.mem_filter.mp hp).1
  have hvis : (visits (completedPapers papers) selectedPaperIds).map
      (fun v => flatten v.paper v.node) =
      Dialog.allNodes (Page.dialogPapers papers selectedPaperIds) := by
    have h1 : visits (completedPapers papers) selectedPaperIds =
        visits (completedPapers papers)
          ((Page.dialogPapers papers selectedPaperIds).map (·.id)) := by
      rw [← horder]
    rw [h1]
    unfold visits
    rw [selectedGraphs_of_list_order _ _ hids hsub]
    exact visits_flatten _
  have hfilter : g.nodes = (withKey g.label (visits (completedPapers papers)
      selectedPaperIds)).map (fun v => flatten v.paper v.node) := by
    rw [hgn, ← hvis, List.filter_map]
    congr 1
    unfold withKey
    apply List.filter_congr
    intro v hv
    simp only [Function.comp]
    rw [dupKey_flatten_of_trimmed v.paper v.node (hTrim v hv)]
  cases hw : withKey g.label (visits (completedPapers papers) selectedPaperIds) with
  | nil =>
    exfalso
    rw [hw] at hfilter
    rw [hcount, hfilter] at hlen
    simp at hlen
  | cons v rest =>
    have hvmem : v ∈ withKey g.label (visits (completedPapers papers) selectedPaperIds) := by
      rw [hw]; exact List.mem_cons_self _ _
    unfold withKey at hvmem
    obtain ⟨hv1, hv2⟩ := List.mem_filter.mp hvmem
    have hvk : keyOf v.node = some g.label := by simpa using hv2
    have hI := inv_final random (completedPapers papers) selectedPaperIds
    obtain ⟨kept, hkept, hkk⟩ := List.mem_map.mp (hI.covered v hv1 g.label hvk)
    obtain ⟨v0, rest0, e, h1, h2, _, _, _, h6, _, _, _, _⟩ := hI.summ kept hkept
    rw [hkk, hw] at e
    obtain ⟨e1, _⟩ := List.cons.inj e
    subst e1
    refine ⟨flatten v.paper v.node, rest.map (fun v => flatten v.paper v.node), kept, ?_, ?_,
      h6, h2, ?_⟩
    · rw [hfilter, hw]
      rfl
    · rw [buildCombinedGraph_nodes]
      exact filter_key_singleton _ g.label kept hI.nodup hkept hkk
    · intro s hs hne
      have hs1 : v.node.id = some s := hs
      rw [h1]
      unfold Visit.graphId strOr
      rw [hs1]
      simp [hne]

/-- The agreement of merge and combine on documents A and B, selected in list order. -/
theorem primary_is_kept_node_witness :
    ((completedPapers [docApple, docOther]).map (·.id)).Nodup ∧
    ["A", "B"] = (Page.dialogPapers [docApple, docOther] ["A", "B"]).map (·.id) ∧
    Dialog.findDuplicates (Dialog.allNodes (Page.dialogPapers [docApple, docOther]
      ["A", "B"])) =
      .ok [⟨"apple", [flatten docApple (labelled "n1" "Apple"),
        flatten docOther (labelled "n2" "apple")], 2⟩] ∧
    ∃ primary rest kept,
      [flatten docApple (labelled "n1" "Apple"), flatten docOther (labelled "n2" "apple")] =
        primary :: rest ∧
      (buildCombinedGraph (fun _ => 0) (completedPapers [docApple, docOther])
          ["A", "B"]).nodes.filter (fun x => decide (gkey x = "apple")) = [kept] ∧
      kept.paper_id = primary.paper_id ∧ kept.label = primary.label ∧
      ∀ s, primary.id = some s → s ≠ "" → kept.id = s :=
  ⟨by decide, by decide, by decide,
    primary_is_kept_node (fun _ => 0) [docApple, docOther] ["A", "B"] (by decide) (by decide)
      (by decide)
      [⟨"apple", [flatten docApple (labelled "n1" "Apple"),
        flatten docOther (labelled "n2" "apple")], 2⟩] (by decide)
      ⟨"apple", [flatten docApple (labelled "n1" "Apple"),
        flatten docOther (labelled "n2" "apple")], 2⟩ (by decide)⟩

end GraphRag
